import Mathlib

/-!
# LEDSegs: a verification development

A shallow embedding of `LEDSegs.cpp` / `LEDSegs.h` (the sound-driven LED strip
library) and theorems about its segment store, its signal-normalisation pipeline,
its rendering engine and its timers.

Conventions of the embedding

* C values of type `short`, `int` and `long` are integers (`Int`); every place
  where C converts or computes in a fixed width carries an explicit wrap
  (`toShort`, `toInt`, `toLong`).  `short` is 16 bits and `long` is 32 bits on
  both supported boards; the width of `int` is a field of `Target` (32 bits on
  the Arduino Due, 16 bits on the Arduino Mega).
* C values of type `unsigned long` are natural numbers; the sums that the code
  computes in that type carry an explicit `toULong` (32 bits).
* Undefined behaviour (division by zero, reading outside an array, calling
  through a null pointer, leaving a function that returns a value without a
  `return`) is the value `none` of `Option`.
* Function pointers (display routines, timer routines) are identifiers
  (`Option Nat`, `none` for `NULL`); pointers to caller-owned arrays are
  `Option (List _)`.
* Bit tests on signed values are written arithmetically: for a two's complement
  value `x`, bit `k` of `x` is `(x / 2 ^ k) % 2` with flooring division, and
  `x & (2 ^ k - 1)` is `x % 2 ^ k`.
-/

namespace LEDSegsModel

/-! ## Machine integers -/

/-- The board the library is compiled for: only the width of `int` matters. -/
structure Target where
  intBits : Nat
deriving DecidableEq, Repr

/-- The Arduino Due (32-bit ARM): `int` has 32 bits. -/
def Target.due : Target := ⟨32⟩

/-- The Arduino Mega 2560 (8-bit AVR): `int` has 16 bits. -/
def Target.mega : Target := ⟨16⟩

/-- The two's complement value of `x` in a signed field of `bits` bits. -/
def wrapBits (bits : Nat) (x : Int) : Int :=
  (x + ((2 ^ (bits - 1) : Nat) : Int)) % ((2 ^ bits : Nat) : Int) - ((2 ^ (bits - 1) : Nat) : Int)

/-- Conversion to `short` (16 bits). -/
def toShort (x : Int) : Int := wrapBits 16 x

/-- Conversion to `long` (32 bits on both boards). -/
def toLong (x : Int) : Int := wrapBits 32 x

/-- Conversion to `int` on the given board. -/
def toInt (t : Target) (x : Int) : Int := wrapBits t.intBits x

/-- Conversion to `byte` (`uint8_t`). -/
def toByte (x : Int) : Nat := (x % 256).toNat

/-- C division (truncating towards zero); a zero divisor is undefined behaviour. -/
def cdiv (a b : Int) : Option Int :=
  if b = 0 then none else some (Int.tdiv a b)

/-- Bit `k` of the two's complement value `x`, i.e. `(x >> k) & 1`. -/
def bitSet (x : Int) (k : Nat) : Bool := (x / ((2 ^ k : Nat) : Int)) % 2 == 1

/-- The Arduino macro `constrain(x, lo, hi)`. -/
def constrain (x lo hi : Int) : Int :=
  if x < lo then lo else if x > hi then hi else x

/-! ## Constants of `LEDSegs.h` -/

def cMaxSegments : Nat := 100
def cMaxParts : Nat := 20
def cMaxTimers : Nat := 32

def cSegNumBands : Nat := 7
def cMaxSegmentLevel : Int := 1023

def cSegActionNone : Int := 0
def cSegActionFromBottom : Int := 1
def cSegActionFromTop : Int := 2
def cSegActionFromMiddle : Int := 3
def cSegActionAll : Int := 4
def cSegActionRandom : Int := 5
def cSegActionBits : Int := 6

/-- Bit numbers of the segment options `cSegOptNoOffOverwrite` (0x01),
`cSegOptModulateSegment` (0x02) and `cSegOptBandAvg` (0x04). -/
def cSegOptNoOffOverwriteBit : Nat := 0
def cSegOptModulateSegmentBit : Nat := 1
def cSegOptBandAvgBit : Nat := 2

def cSegNRandomMask : Int := 0x3F
def cSegNRandom : Nat := 64

/-! ## Colors -/

/-- The static method `LEDSegs::Color(r, g, b)` on byte arguments: a GRB word. -/
def Color (r g b : Nat) : Nat := (g <<< 16) ||| (r <<< 8) ||| b

/-- The method `LEDSegs::Colorvals`: the 7-bit channels of a color, ordered
red, green, blue. -/
def Colorvals (c : Nat) : Nat × Nat × Nat :=
  ((c >>> 8) &&& 0x7F, (c >>> 16) &&& 0x7F, c &&& 0x7F)

def RGBOff : Nat := Color 0 0 0

/-! ## Data model -/

/-- The record `LEDTimers::LEDTimer`. -/
structure LEDTimer where
  timerExpiration : Nat
  timerRepeat : Nat
  timerSub : Option Nat
  timerPtr : Option Nat
deriving DecidableEq, Repr

/-- The record `LEDSegs::stripSegment`. -/
structure stripSegment where
  segDisplayRoutine : Option Nat
  segRescaleAry : Option (List Int)
  segForeColor : Nat
  segBackColor : Nat
  segBitsPtr : Option (List Nat)
  segFirstLED : Int
  segNumLEDs : Int
  segBands : Int
  segAction : Int
  segSpacing : Int
  segOptions : Int
  segLevel : Int
  segMaxLevel : Int
  segPart : Int
  segRandomPattern : Int
  segPersistUp : Int
  segPersistDown : Int
deriving DecidableEq, Repr

/-- The record `LEDSegs::Parts`. -/
structure Parts where
  start : Int
  len : Int
  partup : Bool
deriving DecidableEq, Repr

/-- The member variables of an `LEDSegs` object (with those of its base class
`LEDTimers`), and the pixel buffer of the strip driver object it owns.  Arrays
are functions of the index; the array bounds are checked where the code
indexes them. -/
structure LEDSegs where
  Timers : Nat → LEDTimer
  stripMaxLevelFloor : Int
  stripMaxLevelDecay : Int
  stripParts : Nat → Parts
  segCurrentIndex : Int
  segMaxDefinedIndex : Int
  SegmentData : Nat → stripSegment
  SpectrumLevel : Nat → Int
  SpectrumMax : Nat → Int
  nLEDsInStrip : Int
  segRandomLevels : Nat → Nat
  DeadAirLevel : Int
  DeadAirDetectTimerID : Int
  DeadAirSecondsCount : Nat
  pixels : Int → Nat

/-! ## Array access -/

/-- Reading `ary[i]` in a caller-owned array of `short`; an index outside the
array is undefined behaviour. -/
def readShorts (ary : List Int) (i : Int) : Option Int :=
  if 0 ≤ i then ary[i.toNat]? else none

/-- Reading `SegmentData[i]`. -/
def readSegment (s : LEDSegs) (i : Int) : Option stripSegment :=
  if 0 ≤ i ∧ i < cMaxSegments then some (s.SegmentData i.toNat) else none

/-- Reading `stripParts[i]`. -/
def readPart (s : LEDSegs) (i : Int) : Option Parts :=
  if 0 ≤ i ∧ i < cMaxParts then some (s.stripParts i.toNat) else none

/-- Writing the fields of `SegmentData[i]`. -/
def modifySegment (s : LEDSegs) (i : Int) (f : stripSegment → stripSegment) : Option LEDSegs :=
  if 0 ≤ i ∧ i < cMaxSegments then
    some { s with SegmentData := Function.update s.SegmentData i.toNat (f (s.SegmentData i.toNat)) }
  else none

/-! ## Signal normalisation: `LEDSegs::MapBandsToSegments` -/

/-- One pass of the loop over the bands, on the pair `(sampleTotal, numbands)`. -/
def bandStep (segBands : Int) (useBandMax : Bool) (SpectrumLevel : Nat → Int)
    (acc : Int × Int) (iBand : Nat) : Int × Int :=
  if bitSet segBands iBand then
    (if useBandMax then max acc.1 (SpectrumLevel iBand)
      else toLong (acc.1 + SpectrumLevel iBand),
     toShort (acc.2 + 1))
  else acc

/-- The loop over the bands: `(sampleTotal, numbands)` at its end. -/
def bandTotals (segBands : Int) (useBandMax : Bool) (SpectrumLevel : Nat → Int) : Int × Int :=
  (List.range cSegNumBands).foldl (bandStep segBands useBandMax SpectrumLevel) (0, 0)

/-- The raw aggregate of a segment: `scaledTotal` before the normalisation. -/
def bandAggregate (seg : stripSegment) (SpectrumLevel : Nat → Int) : Option Int :=
  let useBandMax := !bitSet seg.segOptions cSegOptBandAvgBit
  let totals := bandTotals seg.segBands useBandMax SpectrumLevel
  let numbands := if totals.2 = 0 then 1 else totals.2
  if useBandMax then some (toShort totals.1)
  else (cdiv totals.1 numbands).map toShort

/-- The update of the adaptive ceiling `maxTotal` from the stored `segMaxLevel`. -/
def updateMaxTotal (segMaxLevel decay floor scaledTotal : Int) : Int :=
  let maxTotal := toShort (segMaxLevel - decay)
  let maxTotal := if maxTotal < floor then floor else maxTotal
  if maxTotal ≤ scaledTotal then scaledTotal else maxTotal

/-- The normalisation
`scaledTotal = ((long) (scaledTotal * cMaxSegmentLevel)) / ((long) maxTotal)`:
the product is computed in `int`. -/
def normalise (t : Target) (scaledTotal maxTotal : Int) : Option Int :=
  (cdiv (toLong (toInt t (scaledTotal * cMaxSegmentLevel))) (toLong maxTotal)).map toShort

/-- The search loop `for (iscale = 1; iscale < nscalemax; iscale += 2)` of the
rescaling: the value of `iscale` at its end.  The first argument bounds the
number of passes (every pass reads the array at a larger index). -/
def rescaleScan (ary : List Int) (nscalemax scaledTotal : Int) : Nat → Int → Option Int
  | 0, _ => none
  | fuel + 1, iscale =>
    if iscale < nscalemax then
      match readShorts ary iscale with
      | none => none
      | some v =>
        if v > scaledTotal then some iscale
        else rescaleScan ary nscalemax scaledTotal fuel (toShort (iscale + 2))
    else some iscale

/-- The lower end `(peak1, out1)` of the bracket selected by `iscale`. -/
def rescaleLower (ary : List Int) (iscale : Int) : Option (Int × Int) :=
  if iscale = 1 then some (0, 0)
  else
    match readShorts ary (iscale - 2), readShorts ary (iscale - 1) with
    | some p, some o => some (p, o)
    | _, _ => none

/-- The upper end `(peak2, out2)` of the bracket selected by `iscale`. -/
def rescaleUpper (ary : List Int) (nscalemax iscale : Int) : Option (Int × Int) :=
  if iscale ≥ nscalemax then some (cMaxSegmentLevel, cMaxSegmentLevel)
  else
    match readShorts ary iscale, readShorts ary (iscale + 1) with
    | some p, some o => some (p, o)
    | _, _ => none

/-- The linear interpolation inside the bracket and the limit to 1022. -/
def rescaleInterpolate (t : Target) (lo hi : Int × Int) (scaledTotal : Int) : Option Int :=
  match cdiv (toLong (toLong (toInt t (hi.2 - lo.2)) * toLong (toInt t (scaledTotal - lo.1))))
      (toLong (toInt t (hi.1 - lo.1))) with
  | none => none
  | some q =>
    let r := toShort (toLong (lo.2 + q))
    some (if r ≥ cMaxSegmentLevel then cMaxSegmentLevel - 1 else r)

/-- The rescaling of a normalised value through the array `rescaleary`. -/
def rescale (t : Target) (ary : List Int) (scaledTotal : Int) : Option Int :=
  match readShorts ary 0 with
  | none => none
  | some n =>
    let nscalemax := toShort (toInt t (2 * n + 1))
    match rescaleScan ary nscalemax scaledTotal (ary.length + 1) 1 with
    | none => none
    | some iscale =>
      match rescaleLower ary iscale, rescaleUpper ary nscalemax iscale with
      | some lo, some hi => rescaleInterpolate t lo hi scaledTotal
      | _, _ => none

/-- The persistence (smoothing) step: the level that is stored. -/
def persistence (t : Target) (segLevel persistUp persistDown scaledTotal : Int) : Option Int :=
  let lastlevel := segLevel
  let persist := if scaledTotal < lastlevel then persistDown else persistUp
  if persist > 0 then
    let dividend := toLong (persist * segLevel)
    let dividend := toLong (dividend + toInt t (scaledTotal * cMaxSegmentLevel))
    (cdiv dividend (toLong (persist + cMaxSegmentLevel))).map toShort
  else some scaledTotal

/-- The value of `scaledTotal` after the normalisation and the optional
rescaling (both skipped when the raw aggregate is `cMaxSegmentLevel` or more). -/
def scaleLevel (t : Target) (rescaleary : Option (List Int)) (scaledTotal maxTotal : Int) :
    Option Int :=
  if scaledTotal < cMaxSegmentLevel then
    match normalise t scaledTotal maxTotal with
    | none => none
    | some n =>
      match rescaleary with
      | none => some n
      | some ary => rescale t ary n
  else some scaledTotal

/-- The body of the loop of `MapBandsToSegments` for one defined segment. -/
def mapSegment (t : Target) (s : LEDSegs) (seg : stripSegment) : Option stripSegment :=
  match bandAggregate seg s.SpectrumLevel with
  | none => none
  | some scaledTotal =>
    let maxTotal :=
      updateMaxTotal seg.segMaxLevel s.stripMaxLevelDecay s.stripMaxLevelFloor scaledTotal
    match scaleLevel t seg.segRescaleAry scaledTotal maxTotal with
    | none => none
    | some scaled =>
      match persistence t seg.segLevel seg.segPersistUp seg.segPersistDown scaled with
      | none => none
      | some level => some { seg with segMaxLevel := maxTotal, segLevel := level }

/-- One pass of the loop over the segments of `MapBandsToSegments`. -/
def mapStep (t : Target) (s : LEDSegs) (iSegment : Nat) : Option LEDSegs :=
  match readSegment s iSegment with
  | none => none
  | some seg =>
    if seg.segNumLEDs ≥ 0 then
      match mapSegment t s seg with
      | none => none
      | some seg' => some { s with SegmentData := Function.update s.SegmentData iSegment seg' }
    else some s

/-- The method `LEDSegs::MapBandsToSegments`. -/
def MapBandsToSegments (t : Target) (s : LEDSegs) : Option LEDSegs :=
  (List.range (s.segMaxDefinedIndex + 1).toNat).foldlM (mapStep t) s

/-! ## The segment store -/

/-- The method `LEDSegs::SetSegmentIndex`. -/
def SetSegmentIndex (s : LEDSegs) (Idx : Int) : LEDSegs :=
  let cur := constrain Idx 0 (cMaxSegments - 1)
  { s with segCurrentIndex := cur, segMaxDefinedIndex := max s.segMaxDefinedIndex cur }

/-- The method `LEDSegs::SetMaxLevelFloor`. -/
def SetMaxLevelFloor (s : LEDSegs) (iFloor : Int) : LEDSegs :=
  { s with stripMaxLevelFloor := constrain iFloor 1 cMaxSegmentLevel }

/-- The method `LEDSegs::SetMaxLevelDecay`. -/
def SetMaxLevelDecay (s : LEDSegs) (iDecay : Int) : LEDSegs :=
  { s with stripMaxLevelDecay := constrain iDecay 1 cMaxSegmentLevel }

def SetSegment_Action (s : LEDSegs) (nSegment Action : Int) : Option LEDSegs :=
  if Action ≥ 0 then modifySegment s nSegment (fun g => { g with segAction := Action })
  else some s

def SetSegment_BackColor (s : LEDSegs) (nSegment : Int) (BackColor : Nat) : Option LEDSegs :=
  modifySegment s nSegment (fun g => { g with segBackColor := BackColor })

def SetSegment_Bands (s : LEDSegs) (nSegment Bands : Int) : Option LEDSegs :=
  modifySegment s nSegment
    (fun g => { g with segBands := Bands, segMaxLevel := s.stripMaxLevelFloor })

def SetSegment_DisplayRoutine (s : LEDSegs) (nSegment : Int) (Routine : Option Nat) :
    Option LEDSegs :=
  modifySegment s nSegment (fun g => { g with segDisplayRoutine := Routine })

def SetSegment_FirstLED (s : LEDSegs) (nSegment FirstLED : Int) : Option LEDSegs :=
  modifySegment s nSegment (fun g => { g with segFirstLED := FirstLED })

def SetSegment_ForeColor (s : LEDSegs) (nSegment : Int) (ForeColor : Nat) : Option LEDSegs :=
  modifySegment s nSegment (fun g => { g with segForeColor := ForeColor })

def SetSegment_Level (s : LEDSegs) (nSegment level : Int) : Option LEDSegs :=
  modifySegment s nSegment (fun g => { g with segLevel := constrain level 0 cMaxSegmentLevel })

def SetSegment_NumLEDs (s : LEDSegs) (nSegment nLEDs : Int) : Option LEDSegs :=
  if nLEDs ≥ 0 ∧ nLEDs ≤ s.nLEDsInStrip then
    modifySegment s nSegment (fun g => { g with segNumLEDs := nLEDs })
  else some s

def SetSegment_Part (s : LEDSegs) (nSegment partNum : Int) : Option LEDSegs :=
  if partNum ≥ 0 ∧ partNum < cMaxParts then
    modifySegment s nSegment (fun g => { g with segPart := partNum })
  else some s

def SetSegment_BitsPtr (s : LEDSegs) (nSegment : Int) (ptrval : Option (List Nat)) :
    Option LEDSegs :=
  modifySegment s nSegment (fun g => { g with segBitsPtr := ptrval })

def SetSegment_Options (s : LEDSegs) (nSegment Options : Int) : Option LEDSegs :=
  if Options ≥ 0 then modifySegment s nSegment (fun g => { g with segOptions := Options })
  else some s

def SetSegment_Persistence (s : LEDSegs) (nSegment up down : Int) : Option LEDSegs :=
  modifySegment s nSegment (fun g => { g with segPersistUp := up, segPersistDown := down })

def SetSegment_RandomPattern (s : LEDSegs) (nSegment RandomPattern : Int) : Option LEDSegs :=
  if RandomPattern ≥ 0 then
    modifySegment s nSegment
      (fun g => { g with segRandomPattern := RandomPattern % (cSegNRandomMask + 1) })
  else some s

def SetSegment_Spacing (s : LEDSegs) (nSegment Spacing : Int) : Option LEDSegs :=
  if Spacing ≥ 0 then modifySegment s nSegment (fun g => { g with segSpacing := Spacing })
  else some s

def SetSegment_Rescale (s : LEDSegs) (nSegment : Int) (scaleary : Option (List Int)) :
    Option LEDSegs :=
  modifySegment s nSegment (fun g => { g with segRescaleAry := scaleary })

/-- The method `LEDSegs::ResetSegment`. -/
def ResetSegment (s : LEDSegs) (i : Int) : Option LEDSegs :=
  match modifySegment s i (fun g => { g with segAction := cSegActionNone, segNumLEDs := -1 }) with
  | none => none
  | some s1 =>
    some { s1 with
      segMaxDefinedIndex :=
        if s1.segMaxDefinedIndex = i then toShort (s1.segMaxDefinedIndex - 1)
        else s1.segMaxDefinedIndex,
      segCurrentIndex := -1 }

/-- The method `LEDSegs::ResetSegments`. -/
def ResetSegments (s : LEDSegs) : Option LEDSegs :=
  match (List.range cMaxSegments).foldlM (fun st (i : Nat) => ResetSegment st i) s with
  | none => none
  | some s1 => some { s1 with segCurrentIndex := -1, segMaxDefinedIndex := -1 }

/-- The method `LEDSegs::ResetParts`. -/
def ResetParts (s : LEDSegs) : LEDSegs :=
  { s with stripParts := fun i =>
      if i < cMaxParts then { start := 0, len := s.nLEDsInStrip, partup := true }
      else s.stripParts i }

/-- The method `LEDSegs::ResetRandom`; `rnd i` is the value that the call number
`i` of the Arduino function `random(cMaxSegmentLevel)` returns. -/
def ResetRandom (s : LEDSegs) (rnd : Nat → Nat) : LEDSegs :=
  { s with segRandomLevels := fun i =>
      if i < cSegNRandom then rnd i % 65536 else s.segRandomLevels i }

/-- Modelled from the spec: the operation `begin()` of the strip driver (the
LPD8806 library, which is not part of the repository), "clear and init the
strip": every pixel of the driver's buffer is off. -/
def stripBegin (_pixels : Int → Nat) : Int → Nat := fun _ => RGBOff

/-- Modelled from the spec: the operation `setPixel(index, color)` of the strip
driver (the LPD8806 library, which is not part of the repository): the pixel at
`index` of the driver's buffer takes the color. -/
def setPixelColor (pixels : Int → Nat) (w : Int × Nat) : Int → Nat :=
  Function.update pixels w.1 w.2

/-- The method `LEDSegs::ResetStrip`; `rnd` as in `ResetRandom`. -/
def ResetStrip (s : LEDSegs) (rnd : Nat → Nat) : Option LEDSegs :=
  match ResetSegments s with
  | none => none
  | some s1 =>
    let s2 := { s1 with segCurrentIndex := 0 }
    let s3 := ResetParts s2
    let s4 := { s3 with stripMaxLevelDecay := 1, stripMaxLevelFloor := cMaxSegmentLevel }
    let s5 := ResetRandom s4 rnd
    some { s5 with
      DeadAirDetectTimerID := -1,
      SpectrumMax := fun i => if i < cSegNumBands then 0 else s5.SpectrumMax i,
      pixels := stripBegin s5.pixels }

/-- The slot search of `DefineSegment`, with `n` passes left and loop counter
`i`: `some (some iseg)` when the loop is left by `break` at slot `iseg`,
`some none` when it runs to its end. -/
def findFreeSlot (s : LEDSegs) : Nat → Nat → Option (Option Int)
  | 0, _ => some none
  | n + 1, i =>
    let iseg := toShort (i + s.segCurrentIndex)
    let iseg := if iseg ≥ cMaxSegments then toShort (iseg - cMaxSegments) else iseg
    match readSegment s iseg with
    | none => none
    | some seg =>
      if seg.segNumLEDs < 0 ∧ seg.segAction = cSegActionNone then some (some iseg)
      else findFreeSlot s n (i + 1)

/-- The block "Set the segment properties passed in" of `DefineSegment`. -/
def defineProperties (s : LEDSegs) (FirstLED nLEDs Action : Int) (ForeColor : Nat)
    (Bands PartIndex : Int) : Option LEDSegs :=
  (SetSegment_Part s s.segCurrentIndex (constrain PartIndex 0 (cMaxParts - 1))).bind fun s1 =>
  (SetSegment_FirstLED s1 s1.segCurrentIndex FirstLED).bind fun s2 =>
  (SetSegment_NumLEDs s2 s2.segCurrentIndex nLEDs).bind fun s3 =>
  (SetSegment_Action s3 s3.segCurrentIndex Action).bind fun s4 =>
  (SetSegment_ForeColor s4 s4.segCurrentIndex ForeColor).bind fun s5 =>
  SetSegment_Bands s5 s5.segCurrentIndex Bands

/-- The block "Segment defaults" of `DefineSegment`, the calls of the setters. -/
def defineDefaults (s : LEDSegs) : Option LEDSegs :=
  (SetSegment_BackColor s s.segCurrentIndex RGBOff).bind fun s1 =>
  (SetSegment_Spacing s1 s1.segCurrentIndex 0).bind fun s2 =>
  (SetSegment_Options s2 s2.segCurrentIndex 0).bind fun s3 =>
  (SetSegment_DisplayRoutine s3 s3.segCurrentIndex none).bind fun s4 =>
  (SetSegment_BitsPtr s4 s4.segCurrentIndex none).bind fun s5 =>
  (SetSegment_RandomPattern s5 s5.segCurrentIndex 0).bind fun s6 =>
  SetSegment_Persistence s6 s6.segCurrentIndex 0 0

/-- The part of `DefineSegment` after the slot `iseg` is found: the current
index, the highest defined index, the properties passed in and the defaults. -/
def defineAt (s : LEDSegs) (iseg FirstLED nLEDs Action : Int) (ForeColor : Nat)
    (Bands PartIndex : Int) : Option (LEDSegs × Int) :=
  let s0 : LEDSegs := { s with segCurrentIndex := iseg }
  let s1 : LEDSegs := { s0 with segMaxDefinedIndex := max s0.segMaxDefinedIndex s0.segCurrentIndex }
  (defineProperties s1 FirstLED nLEDs Action ForeColor Bands PartIndex).bind fun s2 =>
  (defineDefaults s2).bind fun s3 =>
  (modifySegment s3 iseg (fun g => { g with segRescaleAry := none })).bind fun s4 =>
  (modifySegment s4 iseg (fun g => { g with segLevel := 0 })).bind fun s5 =>
  some (s5, s5.segCurrentIndex)

/-- The method `LEDSegs::DefineSegment` (six arguments): the new state and the
returned index. -/
def DefineSegment (s : LEDSegs) (FirstLED nLEDs Action : Int) (ForeColor : Nat)
    (Bands PartIndex : Int) : Option (LEDSegs × Int) :=
  match findFreeSlot s cMaxSegments 0 with
  | none => none
  | some none => some ({ s with segCurrentIndex := -1 }, -1)
  | some (some iseg) => defineAt s iseg FirstLED nLEDs Action ForeColor Bands PartIndex

/-! ## Rendering: `LEDSegs::ShowSegments` -/

/-- The number of LEDs to illuminate before the safety clamp,
`(((long) segval) * ((long) (segNumLEDs + 1))) / ((long) (cMaxSegmentLevel + 1))`
stored in the `short` variable `segval`. -/
def litRaw (t : Target) (segLevel segNumLEDs : Int) : Int :=
  toShort (Int.tdiv (toLong (toLong segLevel * toLong (toInt t (segNumLEDs + 1))))
    (cMaxSegmentLevel + 1))

/-- The number of LEDs to illuminate: `constrain(segval, 0, segNumLEDs)`. -/
def litCount (t : Target) (segLevel segNumLEDs : Int) : Int :=
  constrain (litRaw t segLevel segNumLEDs) 0 segNumLEDs

/-- One channel of the modulated foreground color,
`bc + (((fc - bc) * segval) / segNumLEDs)` passed as a `byte`. -/
def modulateChannel (t : Target) (bc fc : Nat) (segval segNumLEDs : Int) : Option Nat :=
  (cdiv (toInt t (((fc : Int) - (bc : Int)) * segval)) segNumLEDs).map
    (fun q => toByte (toInt t ((bc : Int) + q)))

/-- The foreground color under the option `cSegOptModulateSegment`. -/
def modulateColor (t : Target) (backColor foreColor : Nat) (segval segNumLEDs : Int) :
    Option Nat :=
  let bc := Colorvals backColor
  let fc := Colorvals foreColor
  match modulateChannel t bc.1 fc.1 segval segNumLEDs,
        modulateChannel t bc.2.1 fc.2.1 segval segNumLEDs,
        modulateChannel t bc.2.2 fc.2.2 segval segNumLEDs with
  | some r, some g, some b => some (Color r g b)
  | _, _, _ => none

/-- The local variables of `ShowSegments` that stay fixed while one segment is
walked; `bits` is the array that `bitsary` points into (`zerobits` for `NULL`). -/
structure SegLocals where
  partStart : Int
  partEnd : Int
  Action : Int
  segNumLEDs : Int
  segval : Int
  foreColor : Nat
  backColor : Nat
  optOffOverwrite : Bool
  segSpacing1 : Int
  segRandomPattern : Int
  segLevel : Int
  bits : List Nat

/-- The local variables of `ShowSegments` that change during the walk of one
segment, and the calls `setPixelColor(iLED, thisColor)` made so far, in order.
`bitsary` is the offset of the pointer of that name in `SegLocals.bits`. -/
structure Walk where
  iLED : Int
  LEDIncrement : Int
  SpacingCount : Int
  bitsary : Nat
  bitscounter : Nat
  writes : List (Int × Nat)

/-- The comparison `segRandomLevels[..] <= segptr->segLevel` of an
`unsigned short` with a `short`: both are converted to `int` when `int` is wider
than 16 bits, and to `unsigned int` otherwise. -/
def randomLit (t : Target) (rnd : Nat) (segLevel : Int) : Bool :=
  if t.intBits ≤ 16 then decide ((rnd : Int) ≤ segLevel % 65536)
  else decide ((rnd : Int) ≤ segLevel)

/-- The color `thisColor` of logical position `p` (the `switch` on the action
inside the walk). -/
def positionColor (t : Target) (s : LEDSegs) (g : SegLocals) (w : Walk) (p : Nat) :
    Option Nat :=
  if g.Action = cSegActionFromBottom ∨ g.Action = cSegActionFromTop
      ∨ g.Action = cSegActionFromMiddle then
    some (if g.segval > p then g.foreColor else g.backColor)
  else if g.Action = cSegActionAll then some g.foreColor
  else if g.Action = cSegActionRandom then
    some (if randomLit t
        (s.segRandomLevels ((((p : Int) + g.segRandomPattern) % (cSegNRandomMask + 1)).toNat))
        g.segLevel then g.foreColor else g.backColor)
  else if g.Action = cSegActionBits then
    match g.bits[w.bitsary]? with
    | none => none
    | some word => some (if word.testBit w.bitscounter then g.foreColor else g.backColor)
  else some g.backColor

/-- The step of the bit cursor after a position of a `cSegActionBits` segment is
displayed. -/
def advanceBits (g : SegLocals) (w : Walk) : Walk :=
  if g.Action = cSegActionBits then
    if w.bitscounter + 1 ≥ 32 then { w with bitscounter := 0, bitsary := w.bitsary + 1 }
    else { w with bitscounter := w.bitscounter + 1 }
  else w

/-- The end of the body of the walk: the move to the next LED. -/
def advanceWalk (g : SegLocals) (notSpacingLED : Bool) (w : Walk) : Walk :=
  let w1 : Walk :=
    if g.Action = cSegActionFromMiddle then
      let w2 : Walk :=
        if w.LEDIncrement ≤ 0 then
          { w with
            LEDIncrement := toShort (w.LEDIncrement - 1),
            SpacingCount :=
              toShort ((if notSpacingLED then g.segSpacing1 else w.SpacingCount) - 1) }
        else { w with LEDIncrement := toShort (w.LEDIncrement + 1) }
      { w2 with LEDIncrement := toShort (-w2.LEDIncrement) }
    else
      { w with
        SpacingCount :=
          toShort ((if notSpacingLED then g.segSpacing1 else w.SpacingCount) - 1) }
  { w1 with iLED := toShort (w1.iLED + w1.LEDIncrement) }

/-- The body of the loop over the LEDs of a segment, at logical position `p`. -/
def walkStep (t : Target) (s : LEDSegs) (g : SegLocals) (w : Walk) (p : Nat) : Option Walk :=
  let notSpacingLED : Bool := decide (w.SpacingCount = 0)
  if w.iLED ≥ g.partStart ∧ w.iLED ≤ g.partEnd ∧ notSpacingLED = true then
    match positionColor t s g w p with
    | none => none
    | some thisColor =>
      let w1 := advanceBits g w
      let w2 : Walk :=
        if thisColor ≠ g.backColor ∨ g.optOffOverwrite = true then
          { w1 with writes := w1.writes ++ [(w.iLED, thisColor)] }
        else w1
      some (advanceWalk g notSpacingLED w2)
  else some (advanceWalk g notSpacingLED w)

/-- The starting LED `segFirstLED` of a segment (the first `switch` on the
action). -/
def startLED (seg : stripSegment) (part : Parts) : Int :=
  if (seg.segAction = cSegActionFromBottom ∨ seg.segAction = cSegActionRandom
      ∨ seg.segAction = cSegActionBits ∨ seg.segAction = cSegActionFromTop)
      ∧ part.partup = false then
    toShort ((part.start + part.len) - (seg.segFirstLED + seg.segNumLEDs))
  else toShort (seg.segFirstLED + part.start)

/-- The initial `(iLED, LEDIncrement)` of the walk (the second `switch` on the
action). -/
def startWalk (seg : stripSegment) (part : Parts) : Int × Int :=
  let segFirstLED := startLED seg part
  let last := toShort (segFirstLED + seg.segNumLEDs - 1)
  if seg.segAction = cSegActionFromBottom ∨ seg.segAction = cSegActionRandom
      ∨ seg.segAction = cSegActionBits then
    if part.partup = false then (last, -1) else (segFirstLED, 1)
  else if seg.segAction = cSegActionFromTop then
    if part.partup = true then (last, -1) else (segFirstLED, 1)
  else if seg.segAction = cSegActionFromMiddle then
    (toShort (segFirstLED + (seg.segNumLEDs - 1) / 2), 0)
  else (segFirstLED, 1)

/-- The local variables set up for a segment before its walk. -/
def segLocals (t : Target) (s : LEDSegs) (seg : stripSegment) : Option SegLocals :=
  match readPart s seg.segPart with
  | none => none
  | some part =>
    let segval := litCount t seg.segLevel seg.segNumLEDs
    let fore : Option Nat :=
      if bitSet seg.segOptions cSegOptModulateSegmentBit then
        modulateColor t seg.segBackColor seg.segForeColor segval seg.segNumLEDs
      else some seg.segForeColor
    fore.map fun foreColor =>
      { partStart := part.start
        partEnd := toShort (part.start + part.len - 1)
        Action := seg.segAction
        segNumLEDs := seg.segNumLEDs
        segval := segval
        foreColor := foreColor
        backColor := seg.segBackColor
        optOffOverwrite := !bitSet seg.segOptions cSegOptNoOffOverwriteBit
        segSpacing1 := toShort (seg.segSpacing + 1)
        segRandomPattern := seg.segRandomPattern
        segLevel := seg.segLevel
        bits := seg.segBitsPtr.getD [0] }

/-- The calls of `setPixelColor` made for one segment with an action, in order. -/
def showSegment (t : Target) (s : LEDSegs) (seg : stripSegment) : Option (List (Int × Nat)) :=
  match segLocals t s seg, readPart s seg.segPart with
  | some g, some part =>
    let start := startWalk seg part
    ((List.range seg.segNumLEDs.toNat).foldlM (walkStep t s g)
      { iLED := start.1, LEDIncrement := start.2, SpacingCount := 0,
        bitsary := 0, bitscounter := 0, writes := [] }).map (fun w => w.writes)
  | _, _ => none

/-- One pass of the loop "write defined segment in segment index order": the
calls of `setPixelColor` so far, extended by those of segment `iSegment`. -/
def showStep (t : Target) (s : LEDSegs) (writes : List (Int × Nat)) (iSegment : Nat) :
    Option (List (Int × Nat)) :=
  match readSegment s iSegment with
  | none => none
  | some seg =>
    if seg.segAction ≠ cSegActionNone then
      (showSegment t s seg).map (fun ws => writes ++ ws)
    else some writes

/-- The calls `setPixelColor(iLED, RGBOff)` of the loop "init all LEDs in the
strip to off". -/
def clearWrites (s : LEDSegs) : List (Int × Nat) :=
  (List.range s.nLEDsInStrip.toNat).map (fun (i : Nat) => ((i : Int), RGBOff))

/-- All the calls of `setPixelColor` that `ShowSegments` makes once the display
routines have run, in order. -/
def stripWrites (t : Target) (s : LEDSegs) : Option (List (Int × Nat)) :=
  (List.range (s.segMaxDefinedIndex + 1).toNat).foldlM (showStep t s) (clearWrites s)

/-- The loop "call any defined segment display routines" from `iSegment` on;
`run r i` is the effect on the object of the display routine `r` called with
the segment index `i`.  The first argument bounds the number of passes (a pass
with `iSegment` outside the segment array reads outside it). -/
def callDisplayRoutines (run : Nat → Int → LEDSegs → LEDSegs) :
    Nat → Int → LEDSegs → Option LEDSegs
  | 0, _, _ => none
  | fuel + 1, iSegment, s =>
    if iSegment ≤ s.segMaxDefinedIndex then
      match readSegment s iSegment with
      | none => none
      | some seg =>
        callDisplayRoutines run fuel (toShort (iSegment + 1))
          (match seg.segDisplayRoutine with
           | none => s
           | some r => run r iSegment s)
    else some s

/-- The method `LEDSegs::ShowSegments`: the display routines, then the pixel
writes on the buffer of the strip driver. -/
def ShowSegments (t : Target) (run : Nat → Int → LEDSegs → LEDSegs) (s : LEDSegs) :
    Option LEDSegs :=
  match callDisplayRoutines run (cMaxSegments + 1) 0 s with
  | none => none
  | some s1 =>
    match stripWrites t s1 with
    | none => none
    | some ws => some { s1 with pixels := ws.foldl setPixelColor s1.pixels }

/-! ## Reference definitions

Definitions that follow the words of the specification, to compare the code
with. -/

/-- The smoothing as the specification words it: the weight is
`persistence_down` if the new value is below the previous level, else
`persistence_up`; a weight that is not positive stores the new value, and a
positive weight `w` stores `(w * previous + value * 1023) div (w + 1023)`. -/
def persistenceRef (previous persistUp persistDown value : Int) : Int :=
  let w := if value < previous then persistDown else persistUp
  if w ≤ 0 then value else (w * previous + value * 1023) / (w + 1023)

/-! ## Auxiliary notions for the statements -/

/-- A slot of the segment array is free: `segNumLEDs < 0` and the action is
`cSegActionNone` (the test of the search loop of `DefineSegment`). -/
def isFreeSlot (s : LEDSegs) (k : Nat) : Prop :=
  (s.SegmentData k).segNumLEDs < 0 ∧ (s.SegmentData k).segAction = cSegActionNone

instance (s : LEDSegs) (k : Nat) : Decidable (isFreeSlot s k) := by
  unfold isFreeSlot; infer_instance

/-- The slot number `j` in the order `c, c+1, ..., cMaxSegments-1, 0, ..., c-1`
of the slots, for the current index `c`. -/
def scanSlot (c : Int) (j : Nat) : Nat := (c.toNat + j) % cMaxSegments

/-- The object `s` with `SegmentData[i]` replaced by the record `g`. -/
def withSegment (s : LEDSegs) (i : Nat) (g : stripSegment) : LEDSegs :=
  { s with SegmentData := Function.update s.SegmentData i g }

/-- The operation `op` on the object is confined to the slot `k`: applied to an
object whose current index is `k`, it is defined and changes at most the record
of slot `k`. -/
def SlotSetter (k : Nat) (op : LEDSegs → Option LEDSegs) : Prop :=
  ∀ (s : LEDSegs) (g : stripSegment), (withSegment s k g).segCurrentIndex = (k : Int) →
    ∃ g2, op (withSegment s k g) = some (withSegment s k g2)

/-- The record of a slot after `ResetSegment`. -/
def freedSegment (g : stripSegment) : stripSegment :=
  { g with segAction := cSegActionNone, segNumLEDs := -1 }

/-! ## Sample objects -/

/-- A segment record with every field zero. -/
def zeroSegment : stripSegment :=
  { segDisplayRoutine := none, segRescaleAry := none, segForeColor := 0, segBackColor := 0,
    segBitsPtr := none, segFirstLED := 0, segNumLEDs := 0, segBands := 0, segAction := 0,
    segSpacing := 0, segOptions := 0, segLevel := 0, segMaxLevel := 0, segPart := 0,
    segRandomPattern := 0, segPersistUp := 0, segPersistDown := 0 }

/-- An object for a strip of 160 LEDs whose memory is all zero, as before the
constructor calls `ResetStrip`. -/
def zeroStrip : LEDSegs :=
  { Timers := fun _ => ⟨0, 0, none, none⟩, stripMaxLevelFloor := 0, stripMaxLevelDecay := 0,
    stripParts := fun _ => ⟨0, 0, false⟩, segCurrentIndex := 0, segMaxDefinedIndex := 0,
    SegmentData := fun _ => zeroSegment, SpectrumLevel := fun _ => 0, SpectrumMax := fun _ => 0,
    nLEDsInStrip := 160, segRandomLevels := fun _ => 0, DeadAirLevel := 0,
    DeadAirDetectTimerID := 0, DeadAirSecondsCount := 0, pixels := fun _ => 0 }

/-- A table of random levels (any table would do). -/
def sampleRandom : Nat → Nat := fun i => (37 * i + 11) % 1023

/-- A defined segment: 10 LEDs from LED 0, filled from the bottom in red, driven
by band 2. -/
def sampleSegment : stripSegment :=
  { zeroSegment with
    segNumLEDs := 10, segAction := cSegActionFromBottom, segForeColor := Color 127 0 0,
    segBands := 0x02, segMaxLevel := 1023 }

/-- An object in which the slots 3 and 4 are defined, every other slot is free
and the current index is 3. -/
def sampleStrip : LEDSegs :=
  { zeroStrip with
    segCurrentIndex := 3, segMaxDefinedIndex := 4,
    stripMaxLevelFloor := 1023, stripMaxLevelDecay := 1,
    stripParts := fun _ => ⟨0, 160, true⟩,
    SegmentData := fun k => if k = 3 ∨ k = 4 then sampleSegment else freedSegment zeroSegment }

/-- An object in which every slot is defined (100 segments of 10 LEDs). -/
def fullStrip : LEDSegs :=
  { sampleStrip with
    segCurrentIndex := 99, segMaxDefinedIndex := 99,
    SegmentData := fun _ => sampleSegment }

/-- The rescaling array of the example in the documentation,
`short int rescale[] = {2, 0, 1023, 1023, 0}`. -/
def docRescale : List Int := [2, 0, 1023, 1023, 0]

/-- The object at the start of a frame after the calls `ResetStrip()`,
`SetMaxLevelFloor(500)`, `DefineSegment(0, 10, cSegActionFromBottom, RGBRed,
cSegBand2)` and `SetSegment_Rescale(rescaleary)`, when the sample read for every
band is 600. -/
def peakStrip (rescaleary : Option (List Int)) : Option LEDSegs :=
  (ResetStrip zeroStrip sampleRandom).bind fun s1 =>
  (DefineSegment (SetMaxLevelFloor s1 500) 0 10 cSegActionFromBottom (Color 127 0 0)
    0x02 0).bind fun r =>
  (SetSegment_Rescale r.1 r.1.segCurrentIndex rescaleary).map fun s3 =>
  { s3 with SpectrumLevel := fun _ => 600 }

/-- A run of frames of the normalisation: for every frame the band samples are
stored in `SpectrumLevel` (what `ReadSpectrum` does with the samples it reads)
and `MapBandsToSegments` runs. -/
def mapFrames (t : Target) : LEDSegs → List (Nat → Int) → Option LEDSegs
  | s, [] => some s
  | s, samples :: rest =>
    match MapBandsToSegments t { s with SpectrumLevel := samples } with
    | none => none
    | some s1 => mapFrames t s1 rest

/-- The object of the scenario `DefineSegment(0, 10, cSegActionFromBottom, RGBRed,
cSegBand2)` on a strip of 160 LEDs after `ResetStrip`, with the normalised level
512 in the segment. -/
def scenarioStrip : LEDSegs :=
  { zeroStrip with
    segCurrentIndex := 0, segMaxDefinedIndex := 0,
    stripMaxLevelFloor := 1023, stripMaxLevelDecay := 1,
    stripParts := fun _ => ⟨0, 160, true⟩,
    SegmentData := fun k =>
      if k = 0 then { sampleSegment with segLevel := 512 } else freedSegment zeroSegment }

/-- Three frames of band samples in [0,1023]. -/
def sampleFrames : List (Nat → Int) :=
  [fun _ => 600, fun _ => 1023, fun b => 100 * (b : Int)]

/-! ## Rescaling tables and the reference for the rescaling -/

/-- The entries of a rescaling array after its first element: the control
points `(input, output)` in order. -/
def tableEntries : List (Int × Int) → List Int
  | [] => []
  | p :: ps => p.1 :: p.2 :: tableEntries ps

/-- The rescaling array `{N, input1, output1, ..., inputN, outputN}` of the
control points `pts`. -/
def rescaleArray (pts : List (Int × Int)) : List Int :=
  (pts.length : Int) :: tableEntries pts

/-- The index of the last table point whose input is at most `s`, if any. -/
def lastAtMost (pts : List (Int × Int)) (s : Int) : Option Nat :=
  ((List.range pts.length).filter (fun j => decide ((pts.getD j (0, 0)).1 ≤ s))).getLast?

/-- The point `(i1, o1)` of the reference: the last table point with input at
most `s`, or `(0, 0)` if there is none. -/
def rescaleRefLower (pts : List (Int × Int)) (s : Int) : Int × Int :=
  match lastAtMost pts s with
  | none => (0, 0)
  | some j => pts.getD j (0, 0)

/-- The point `(i2, o2)` of the reference: the table point after `(i1, o1)`, or
`(1023, 1023)` if there is none. -/
def rescaleRefUpper (pts : List (Int × Int)) (s : Int) : Int × Int :=
  match lastAtMost pts s with
  | none => pts.getD 0 (1023, 1023)
  | some j => pts.getD (j + 1) (1023, 1023)

/-- The rescaled value as the specification words it:
`min(1022, o1 + ((o2 - o1) * (s - i1)) / (i2 - i1))` with truncating division. -/
def rescaleRef (pts : List (Int × Int)) (s : Int) : Int :=
  min 1022
    ((rescaleRefLower pts s).2
      + Int.tdiv (((rescaleRefUpper pts s).2 - (rescaleRefLower pts s).2)
          * (s - (rescaleRefLower pts s).1))
        ((rescaleRefUpper pts s).1 - (rescaleRefLower pts s).1))

/-- The control points of the rescaling array `{3, 100, 50, 200, 1023, 500, 3}`. -/
def sampleRescale : List (Int × Int) := [(100, 50), (200, 1023), (500, 3)]

/-- The number of table points before the first one whose input exceeds `s`. -/
def firstAbove (s : Int) : List (Int × Int) → Nat
  | [] => 0
  | p :: ps => if s < p.1 then 0 else firstAbove s ps + 1

/-- A rescaling table in the range the code computes exactly: at most 16383
control points (so that `2 * N + 1` is a `short`), strictly increasing inputs,
and inputs and outputs in -16384..16383 (so that the interpolation fits the
32-bit `long`). -/
def ValidRescale (pts : List (Int × Int)) : Prop :=
  pts.length ≤ 16383 ∧ pts.Pairwise (fun p q => p.1 < q.1)
    ∧ ∀ p ∈ pts, (-16384 ≤ p.1 ∧ p.1 ≤ 16383) ∧ (-16384 ≤ p.2 ∧ p.2 ≤ 16383)

/-! ## Notions for the statements about frames -/

/-- A segment on which the normalisation is defined when the floor is 1023: its
adaptive ceiling and persistence weights are values of type `short` and its
rescaling array is absent or valid. -/
def GainReady (seg : stripSegment) : Prop :=
  (-32768 ≤ seg.segMaxLevel ∧ seg.segMaxLevel ≤ 32767)
    ∧ (seg.segRescaleAry = none
        ∨ ∃ pts, ValidRescale pts ∧ seg.segRescaleAry = some (rescaleArray pts))
    ∧ seg.segPersistUp ≤ 32767 ∧ seg.segPersistDown ≤ 32767

/-- An object with the default floor 1023 and decay 1 whose highest defined index
is inside the segment array and whose live segments are `GainReady`. -/
def GainReadyStrip (s : LEDSegs) : Prop :=
  s.stripMaxLevelFloor = 1023 ∧ s.stripMaxLevelDecay = 1
    ∧ s.segMaxDefinedIndex < cMaxSegments
    ∧ ∀ k : Nat, (k : Int) ≤ s.segMaxDefinedIndex → (s.SegmentData k).segNumLEDs ≥ 0 →
        GainReady (s.SegmentData k)

/-- The calls of `setPixelColor` for the first `p` positions of a segment filled
from LED `f` upwards: position `k` gets the foreground color iff `lit > k`. -/
def bottomWrites (f lit : Int) (fore back : Nat) (p : Nat) : List (Int × Nat) :=
  (List.range p).map (fun (k : Nat) => (f + (k : Int), if lit > (k : Int) then fore else back))

/-! ## Notions for the statements about the segment store -/

/-- The record of a slot that `DefineSegment(first, n, action, fore, bands, part)`
has defined, as the specification words it: the arguments (the part index
clamped to `[0, cMaxParts - 1]`) and the default in every other field: no
display routine, no rescaling array, background `RGBOff`, no bit source,
spacing 0, options 0, level 0, the adaptive ceiling at the strip floor `floor`,
random pattern 0 and both persistence weights 0. -/
def definedSegment (floor FirstLED nLEDs Action : Int) (ForeColor : Nat)
    (Bands PartIndex : Int) : stripSegment :=
  { segDisplayRoutine := none, segRescaleAry := none, segForeColor := ForeColor,
    segBackColor := RGBOff, segBitsPtr := none, segFirstLED := FirstLED,
    segNumLEDs := nLEDs, segBands := Bands, segAction := Action, segSpacing := 0,
    segOptions := 0, segLevel := 0, segMaxLevel := floor,
    segPart := constrain PartIndex 0 (cMaxParts - 1), segRandomPattern := 0,
    segPersistUp := 0, segPersistDown := 0 }

/-- The object after `ResetStrip` on a strip of 160 LEDs, then the call
`DefineSegment(0, nLEDs, cSegActionFromBottom, RGBRed, cSegBand2)`: the returned
index and the count and the action stored in slot 0. -/
def firstDefine (nLEDs : Int) : Option (Int × Int × Int) :=
  (ResetStrip zeroStrip sampleRandom).bind fun s1 =>
  (DefineSegment s1 0 nLEDs cSegActionFromBottom (Color 127 0 0) 0x02 0).map fun r =>
  (r.2, (r.1.SegmentData 0).segNumLEDs, (r.1.SegmentData 0).segAction)

/-! ## The timers: class `LEDTimers` -/

/-- Conversion to `unsigned long` (32 bits). -/
def toULong (x : Nat) : Nat := x % 4294967296

/-- The state that the timer methods work on: the object (the timer array is
the member `Timers` of its base class `LEDTimers`) and the value that the
Arduino function `millis()` returns when it is called. -/
structure Board where
  strip : LEDSegs
  millis : Nat

/-- Writing the fields of `Timers[i]`. -/
def modifyTimer (b : Board) (i : Int) (f : LEDTimer → LEDTimer) : Option Board :=
  if 0 ≤ i ∧ i < cMaxTimers then
    some { b with strip := { b.strip with
      Timers := Function.update b.strip.Timers i.toNat (f (b.strip.Timers i.toNat)) } }
  else none

/-- The method `LEDTimers::SetTimerExpiration`: the sum `exp + millis()` is an
`unsigned long`. -/
def SetTimerExpiration (b : Board) (itimer : Int) (exp : Nat) : Option Board :=
  modifyTimer b itimer (fun x => { x with timerExpiration := toULong (exp + b.millis) })

/-- The method `LEDTimers::SetTimerRepeat`. -/
def SetTimerRepeat (b : Board) (itimer : Int) (rpt : Nat) : Option Board :=
  modifyTimer b itimer (fun x => { x with timerRepeat := rpt })

/-- The search loop `for (i = 1; i < cMaxTimers; i++)` of `DefineTimer`, with
`n` passes left and loop counter `i`: `some i` when the loop is left at a slot
`i` with `timerExpiration == 0`, `none` when it runs to its end. -/
def findFreeTimer (b : Board) : Nat → Nat → Option Nat
  | 0, _ => none
  | n + 1, i =>
    if (b.strip.Timers i).timerExpiration = 0 then some i else findFreeTimer b n (i + 1)

/-- The method `LEDTimers::DefineTimer` with four arguments: the new state and
the returned timer index. -/
def DefineTimer (b : Board) (expirationMS repeatMS : Nat) (timerSub ptr : Option Nat) :
    Option (Board × Int) :=
  match findFreeTimer b (cMaxTimers - 1) 1 with
  | none => some (b, 0)
  | some i =>
    (SetTimerExpiration b i expirationMS).bind fun b1 =>
    (SetTimerRepeat b1 i repeatMS).bind fun b2 =>
    (modifyTimer b2 i (fun x => { x with timerSub := timerSub, timerPtr := ptr })).map fun b3 =>
    (b3, (i : Int))

/-- The method `LEDTimers::DefineTimer` with three arguments.  Its body is the
single statement `DefineTimer(expirationMS, repeatMS, timerSub, NULL);`: the
value of that call is dropped and the function, whose return type is
`unsigned short`, ends without a `return` statement, which is undefined
behaviour. -/
def DefineTimer3 (b : Board) (expirationMS repeatMS : Nat) (timerSub : Option Nat) :
    Option (Board × Int) :=
  (DefineTimer b expirationMS repeatMS timerSub none).bind fun _ => none

/-- The method `LEDTimers::CancelTimer`. -/
def CancelTimer (b : Board) (timerID : Int) : Board :=
  if timerID > 0 ∧ timerID < cMaxTimers then
    { b with strip := { b.strip with
      Timers := Function.update b.strip.Timers timerID.toNat
        { b.strip.Timers timerID.toNat with
          timerExpiration := 0, timerRepeat := 0, timerPtr := none } } }
  else b

/-- A call `timerSub(i, timerPtr)` of a timer routine: the routine, the timer
index and the pointer passed. -/
structure TimerCall where
  routine : Nat
  timer : Int
  ptr : Option Nat
deriving DecidableEq, Repr

/-- The value `newexpiration` that `CheckTimers` computes after the routine of a
timer has returned, from the record `tm` of the timer at that moment and the
second reading `curtime` of `millis()`. -/
def nextExpiration (tm : LEDTimer) (curtime : Nat) : Nat :=
  if tm.timerExpiration > 0 ∧ tm.timerRepeat > 0 then
    let newexpiration := toULong (tm.timerExpiration + tm.timerRepeat)
    if newexpiration ≤ curtime then toULong (curtime + 1) else newexpiration
  else 0

/-- The body of the loop of `CheckTimers` for the timer `i` (an index in
`1 .. cMaxTimers - 1`), on the state and the list of the routine calls made so
far.  `run r i p` is the effect of the routine `r` called with the arguments
`(i, p)`; calling through a null routine pointer is undefined behaviour. -/
def checkTimer (run : Nat → Int → Option Nat → Board → Board)
    (st : Board × List TimerCall) (i : Nat) : Option (Board × List TimerCall) :=
  let b := st.1
  let tm := b.strip.Timers i
  if tm.timerExpiration > 0 then
    let curtime := b.millis
    if tm.timerExpiration ≤ curtime then
      match tm.timerSub with
      | none => none
      | some r =>
        let b1 := run r (i : Int) tm.timerPtr b
        let curtime := b1.millis
        let newexpiration := nextExpiration (b1.strip.Timers i) curtime
        some ({ b1 with strip := { b1.strip with
                  Timers := Function.update b1.strip.Timers i
                    { b1.strip.Timers i with timerExpiration := newexpiration } } },
              st.2 ++ [⟨r, (i : Int), tm.timerPtr⟩])
    else some st
  else some st

/-- The method `LEDTimers::CheckTimers`: the state after the pass and the
routine calls made during it, in order. -/
def CheckTimers (run : Nat → Int → Option Nat → Board → Board) (b : Board) :
    Option (Board × List TimerCall) :=
  (List.range (cMaxTimers - 1)).foldlM (fun st j => checkTimer run st (j + 1)) (b, [])

/-! ## Notions for the statements about timers -/

/-- Every armed timer (expiration not 0) has a routine. -/
def HasRoutines (b : Board) : Prop :=
  ∀ i, i < cMaxTimers → 1 ≤ i → (b.strip.Timers i).timerExpiration > 0 →
    (b.strip.Timers i).timerSub ≠ none

instance (b : Board) : Decidable (HasRoutines b) := by
  unfold HasRoutines; infer_instance

/-- The timer routines leave the timer `h` and the clock alone: a call of any
routine changes neither the record `Timers[h]` nor the value of `millis()`, and
it leaves every armed timer with a routine. -/
def LeavesTimer (h : Nat) (run : Nat → Int → Option Nat → Board → Board) : Prop :=
  ∀ (r : Nat) (i : Int) (p : Option Nat) (b : Board),
    (run r i p b).strip.Timers h = b.strip.Timers h ∧ (run r i p b).millis = b.millis
      ∧ (HasRoutines b → HasRoutines (run r i p b))

/-- The routine calls of a pass that have the timer index `h`. -/
def callsOf (h : Nat) (log : List TimerCall) : List TimerCall :=
  log.filter (fun c => decide (c.timer = (h : Int)))

/-- The record of a timer after a pass of `CheckTimers` at the clock `now`, when
no routine changes the record: a timer that is armed and has expired gets its
next expiration, any other timer stays as it is. -/
def slotAfter (tm : LEDTimer) (now : Nat) : LEDTimer :=
  if tm.timerExpiration > 0 ∧ tm.timerExpiration ≤ now then
    { tm with timerExpiration := nextExpiration tm now }
  else tm

/-- The routine calls of a pass at the clock `now` for a timer with the index `h`
and the record `tm`: one call if the timer is armed and has expired. -/
def slotCalls (tm : LEDTimer) (h : Nat) (now : Nat) : List TimerCall :=
  if tm.timerExpiration > 0 ∧ tm.timerExpiration ≤ now then
    match tm.timerSub with
    | some r => [⟨r, (h : Int), tm.timerPtr⟩]
    | none => []
  else []

/-! ## Sample boards and routines -/

/-- The board at clock 0 whose object is as the constructor of `LEDTimers` leaves
it: every timer free. -/
def emptyBoard : Board := { strip := zeroStrip, millis := 0 }

/-- A routine that does nothing. -/
def idleRun : Nat → Int → Option Nat → Board → Board := fun _ _ _ b => b

/-- The board on which, at clock 0, `DefineTimer(expirationMS, repeatMS, routine
1, NULL)` was called on the empty board, at the later clock `now`. -/
def timerBoard (expirationMS repeatMS now : Nat) : Board :=
  match DefineTimer emptyBoard expirationMS repeatMS (some 1) none with
  | some (b1, _) => { b1 with millis := now }
  | none => emptyBoard

/-- A routine that cancels its own timer and then defines a new timer with the
same routine: `CancelTimer(i); DefineTimer(expirationMS, repeatMS, routine, NULL);`. -/
def rearmRun (expirationMS repeatMS : Nat) : Nat → Int → Option Nat → Board → Board :=
  fun r i _ b =>
    match DefineTimer (CancelTimer b i) expirationMS repeatMS (some r) none with
    | some (b2, _) => b2
    | none => b

/-- What is observed of a pass of `CheckTimers`: the record of timer 1 after it
and the routine calls made. -/
def passOutcome (run : Nat → Int → Option Nat → Board → Board) (b : Board) :
    Option (LEDTimer × List TimerCall) :=
  (CheckTimers run b).map fun r => (r.1.strip.Timers 1, r.2)

/-- The board `b` with `Timers[i]` replaced by the record `tm`. -/
def withTimer (b : Board) (i : Nat) (tm : LEDTimer) : Board :=
  { b with strip := { b.strip with Timers := Function.update b.strip.Timers i tm } }

/-- The timer `k` is free: its expiration is 0 (the test of the search loop of
`DefineTimer`). -/
def isFreeTimer (b : Board) (k : Nat) : Prop := (b.strip.Timers k).timerExpiration = 0

instance (b : Board) (k : Nat) : Decidable (isFreeTimer b k) := by
  unfold isFreeTimer; infer_instance

/-! ## Notions for the statements about the walk of a segment -/

/-- The local variables of the walk of a segment when the loop over its LEDs
reaches the logical position `p` (the value of `iLEDinSegment`), with the calls
of `setPixelColor` made for the positions before `p`. -/
def walkBefore (t : Target) (s : LEDSegs) (seg : stripSegment) (g : SegLocals) (part : Parts)
    (p : Nat) : Option Walk :=
  (List.range p).foldlM (walkStep t s g)
    { iLED := (startWalk seg part).1, LEDIncrement := (startWalk seg part).2, SpacingCount := 0,
      bitsary := 0, bitscounter := 0, writes := [] }

/-- The distance that the spacing counts for the logical position `p`: for a
segment filled from the middle, where position 0 is the centre LED and the
positions `2j - 1` and `2j` are the two LEDs next to the centre at the distance
`j`, the distance `j` from the centre; for every other action `p` itself. -/
def walkDistance (Action : Int) (p : Nat) : Int :=
  if Action = cSegActionFromMiddle then ((p : Int) + 1) / 2 else (p : Int)

/-- The positions that a spacing `k` retains: those whose distance, as the
spacing counts it, is a multiple of `k + 1`. -/
def spacingRetained (Action k : Int) (p : Nat) : Prop :=
  walkDistance Action p % (k + 1) = 0

instance (Action k : Int) (p : Nat) : Decidable (spacingRetained Action k p) := by
  unfold spacingRetained; infer_instance

/-- The value of `SpacingCount` when the walk of the segment `seg` reaches the
logical position `p`. -/
def spacingCountAt (t : Target) (s : LEDSegs) (seg : stripSegment) (p : Nat) : Option Int :=
  match segLocals t s seg, readPart s seg.segPart with
  | some g, some part => (walkBefore t s seg g part p).map (fun w => w.SpacingCount)
  | _, _ => none

/-- A segment of 10 LEDs from LED 0, filled from the middle in red, with the
spacing 1. -/
def middleSegment : stripSegment :=
  { sampleSegment with segAction := cSegActionFromMiddle, segSpacing := 1, segLevel := 1023 }

/-! ## The parts and the remaining accessors -/

/-- Writing the fields of `stripParts[i]`. -/
def modifyPart (s : LEDSegs) (i : Int) (f : Parts → Parts) : Option LEDSegs :=
  if 0 ≤ i ∧ i < cMaxParts then
    some { s with stripParts := Function.update s.stripParts i.toNat (f (s.stripParts i.toNat)) }
  else none

/-- The method `LEDSegs::DefinePart`. -/
def DefinePart (s : LEDSegs) (partNum partStart partLen : Int) (partUp : Bool) :
    Option LEDSegs :=
  if partNum < 1 ∨ partNum ≥ cMaxParts then some s
  else
    modifyPart s partNum (fun _ =>
      { start := constrain partStart 0 s.nLEDsInStrip,
        len := constrain partLen 0 s.nLEDsInStrip,
        partup := partUp })

/-- The method `LEDSegs::SetPart_Start`. -/
def SetPart_Start (s : LEDSegs) (ipart partstart : Int) : Option LEDSegs :=
  modifyPart s ipart (fun p => { p with start := partstart })

/-- The method `LEDSegs::SetPart_Len`. -/
def SetPart_Len (s : LEDSegs) (ipart partlen : Int) : Option LEDSegs :=
  modifyPart s ipart (fun p => { p with len := partlen })

/-- The method `LEDSegs::SetPart_Up`. -/
def SetPart_Up (s : LEDSegs) (ipart : Int) (up : Bool) : Option LEDSegs :=
  modifyPart s ipart (fun p => { p with partup := up })

/-- The method `LEDSegs::SetSegment_MaxLevel` with two arguments,
`SegmentData[nSegment].segMaxLevel = maxlevel`. -/
def SetSegment_MaxLevel (s : LEDSegs) (nSegment maxlevel : Int) : Option LEDSegs :=
  modifySegment s nSegment (fun g => { g with segMaxLevel := maxlevel })

/-- The method `LEDSegs::SetSegment_MaxLevel` with one argument; its body is
`SetSegment_Level(segCurrentIndex, maxlevel);`. -/
def SetSegment_MaxLevel_current (s : LEDSegs) (maxlevel : Int) : Option LEDSegs :=
  SetSegment_Level s s.segCurrentIndex maxlevel

/-- The method `LEDSegs::GetSegment_MaxLevel` without argument. -/
def GetSegment_MaxLevel_current (s : LEDSegs) : Option Int :=
  (readSegment s s.segCurrentIndex).map (fun g => g.segMaxLevel)

/-- The method `LEDSegs::GetSegment_Level` without argument. -/
def GetSegment_Level_current (s : LEDSegs) : Option Int :=
  (readSegment s s.segCurrentIndex).map (fun g => g.segLevel)

/-! ## Sample configurations -/

/-- A display routine table in which every routine does nothing. -/
def idleDisplay : Nat → Int → LEDSegs → LEDSegs := fun _ _ s => s

/-- The object after `ResetStrip` on a strip of 160 LEDs. -/
def freshStrip : Option LEDSegs := ResetStrip zeroStrip sampleRandom

/-- The object after `ResetStrip` (strip of 160 LEDs), `DefinePart(1, 160, 160,
true)` and `DefineSegment(0, 1, cSegActionAll, RGBRed, cSegBand2, 1)`. -/
def pastEndStrip : Option LEDSegs :=
  freshStrip.bind fun s1 =>
  (DefinePart s1 1 160 160 true).bind fun s2 =>
  (DefineSegment s2 0 1 cSegActionAll (Color 127 0 0) 0x02 1).map fun r => r.1

/-- The object after `ResetStrip` (strip of 160 LEDs), `DefineSegment(0, 0,
cSegActionFromBottom, RGBRed, cSegBand2)` and
`SetSegment_Options(cSegOptModulateSegment)`. -/
def emptyModulatedStrip : Option LEDSegs :=
  freshStrip.bind fun s1 =>
  (DefineSegment s1 0 0 cSegActionFromBottom (Color 127 0 0) 0x02 0).bind fun r =>
  SetSegment_Options r.1 r.1.segCurrentIndex 0x02

/-- The object after `ResetStrip` (strip of 160 LEDs) and `DefineSegment(0, 10,
cSegActionFromBottom, RGBRed, cSegBand2)`. -/
def oneSegmentStrip : Option LEDSegs :=
  freshStrip.bind fun s1 =>
  (DefineSegment s1 0 10 cSegActionFromBottom (Color 127 0 0) 0x02 0).map fun r => r.1

/-! ## Bit fields: class `LEDBits` -/

/-- Reading `bitary[i]` in a caller-owned array of bytes. -/
def readByte (bitary : List Nat) (i : Int) : Option Nat :=
  if 0 ≤ i then bitary[i.toNat]? else none

/-- Writing `bitary[i] = v` in a caller-owned array of bytes. -/
def writeByte (bitary : List Nat) (i : Int) (v : Nat) : Option (List Nat) :=
  if 0 ≤ i ∧ i.toNat < bitary.length then some (bitary.set i.toNat v) else none

/-- The method `LEDBits::BitRead`,
`(byteary[bitnum >> 3] >> (bitnum & 0x07)) & 1` as a `bool`. -/
def BitRead (bitnum : Int) (byteary : List Nat) : Option Bool :=
  (readByte byteary (bitnum / 8)).map
    (fun x => decide (((x >>> (bitnum % 8).toNat) &&& 1) ≠ 0))

/-- The body of the inner loop of the left rotation, for the byte `ibyte`, on the
array and the variable `lastcarry`. -/
def leftByte (st : List Nat × Nat) (ibyte : Nat) : Option (List Nat × Nat) :=
  match readByte st.1 ibyte with
  | none => none
  | some x =>
    (writeByte st.1 ibyte (((x <<< 1) ||| (if st.2 ≠ 0 then 1 else 0)) % 256)).map
      (fun bitary => (bitary, x &&& 0x80))

/-- One pass of the outer loop of `BitRotate` for `nbits > 0`: the rotation to the
left by one bit. -/
def rotateLeftOnce (t : Target) (bitwidth lastbyte : Int) (bitary : List Nat) :
    Option (List Nat) :=
  match readByte bitary lastbyte with
  | none => none
  | some x =>
    let lastcarry := (x >>> (toInt t (bitwidth - 1) % 8).toNat) &&& 1
    ((List.range (lastbyte + 1).toNat).foldlM leftByte (bitary, lastcarry)).map (fun st => st.1)

/-- The body of the inner loop of the right rotation, for the byte `ibyte`. -/
def rightByte (st : List Nat × Nat) (ibyte : Nat) : Option (List Nat × Nat) :=
  match readByte st.1 ibyte with
  | none => none
  | some x =>
    (writeByte st.1 ibyte ((x >>> 1) ||| (if st.2 ≠ 0 then 0x80 else 0))).map
      (fun bitary => (bitary, x &&& 1))

/-- One pass of the outer loop of `BitRotate` for `nbits ≤ 0`: the rotation to
the right by one bit (the inner loop runs from `lastbyte` down to 0). -/
def rotateRightOnce (lastbyte : Int) (bitary : List Nat) : Option (List Nat) :=
  match readByte bitary 0 with
  | none => none
  | some x =>
    let lastcarry := x &&& 1
    ((List.range (lastbyte + 1).toNat).reverse.foldlM rightByte (bitary, lastcarry)).map
      (fun st => st.1)

/-- The method `LEDBits::BitRotate`: the array after the call. -/
def BitRotate (t : Target) (bitwidth : Int) (bitary : List Nat) (nbits : Int) :
    Option (List Nat) :=
  let lastbyte := toShort (toInt t (toInt t (bitwidth + 7) / 8 - 1))
  let bitstomove := toShort (toInt t (if nbits > 0 then nbits else -nbits))
  (List.range bitstomove.toNat).foldlM
    (fun ary _ =>
      if nbits > 0 then rotateLeftOnce t bitwidth lastbyte ary
      else rotateRightOnce lastbyte ary)
    bitary

/-- The bits `0 .. n - 1` of a bit field as `BitRead` reads them. -/
def fieldBits (n : Nat) (byteary : List Nat) : List (Option Bool) :=
  (List.range n).map (fun (i : Nat) => BitRead (i : Int) byteary)

/-- The calls of `setPixelColor` for the first example of the documentation of
the parts: after `ResetStrip` on a strip of 160 LEDs,
`DefineSegment(40, 10, cSegActionFromTop, RGBBlue, -1)` (in part 0), with the
level `level` stored in the segment. -/
def docTopWrites (level : Int) : Option (List (Int × Nat)) :=
  freshStrip.bind fun s1 =>
  (DefineSegment s1 40 10 cSegActionFromTop (Color 0 0 127) (-1) 0).bind fun r =>
  (SetSegment_Level r.1 r.1.segCurrentIndex level).bind fun s2 =>
  showSegment Target.due s2 (s2.SegmentData 0)

/-- The calls of `setPixelColor` for the second example of the documentation of
the parts: after `ResetStrip`, `DefinePart(1, 40, 10, false)` and
`DefineSegment(0, 10, cSegActionFromBottom, RGBBlue, -1, 1)`, with the level
`level` stored in the segment. -/
def docBottomWrites (level : Int) : Option (List (Int × Nat)) :=
  freshStrip.bind fun s1 =>
  (DefinePart s1 1 40 10 false).bind fun s2 =>
  (DefineSegment s2 0 10 cSegActionFromBottom (Color 0 0 127) (-1) 1).bind fun r =>
  (SetSegment_Level r.1 r.1.segCurrentIndex level).bind fun s3 =>
  showSegment Target.due s3 (s3.SegmentData 0)

/-- The segment `seg` turned into a segment filled from the top, with the first
LED `L - f - n` and the count `n`, in the part `pf`. -/
def mirrorTop (seg : stripSegment) (L f n : Int) (pf : Nat) : stripSegment :=
  { seg with segAction := cSegActionFromTop, segFirstLED := L - f - n, segNumLEDs := n,
             segPart := (pf : Int) }

/-- The segment `seg` turned into a segment filled from the bottom, with the
first LED `f` and the count `n`, in the part `pr`. -/
def mirrorBottom (seg : stripSegment) (f n : Int) (pr : Nat) : stripSegment :=
  { seg with segAction := cSegActionFromBottom, segFirstLED := f, segNumLEDs := n,
             segPart := (pr : Int) }

/-! ## Notions for the statements about a frame -/

/-- The identifier of the timer routine `LEDSegs::teCheckForDeadAir`. -/
def teCheckForDeadAir : Nat := 0

/-- The identifier of the pointer `this` passed to the dead air timer. -/
def thisPtr : Nat := 0

/-- The method `LEDSegs::DisableDeadAirDetect`,
`CancelTimer(DeadAirDetectTimerID);`. -/
def DisableDeadAirDetect (b : Board) : Board :=
  CancelTimer b b.strip.DeadAirDetectTimerID

/-- The method `LEDSegs::EnableDeadAirDetect`: the product `level * 3` is
computed in `int` and stored in a `short`, and the index that `DefineTimer`
returns is stored in the `short` member `DeadAirDetectTimerID`. -/
def EnableDeadAirDetect (t : Target) (b : Board) (level : Int) : Option Board :=
  let b1 := DisableDeadAirDetect b
  let b2 : Board := { b1 with strip := { b1.strip with DeadAirLevel := toShort (toInt t (level * 3)) } }
  (DefineTimer b2 1000 1000 (some teCheckForDeadAir) (some thisPtr)).map fun r =>
    { r.1 with strip := { r.1.strip with DeadAirDetectTimerID := toShort r.2 } }

/-- The board at clock 0 whose object is as the constructor leaves it: every
timer free, and the state of `ResetStrip` on a strip of 160 LEDs. -/
def freshBoard : Option Board :=
  freshStrip.map fun s => { strip := s, millis := 0 }

/-- The board after `EnableDeadAirDetect(10)`, `DisableDeadAirDetect()` and then
a call `DefineTimer(5000, 0, routine 7, NULL)` of the user: the board and the
index returned to the user. -/
def userTimerBoard : Option (Board × Int) :=
  freshBoard.bind fun b0 =>
  (EnableDeadAirDetect Target.due b0 10).bind fun b1 =>
  DefineTimer (DisableDeadAirDetect b1) 5000 0 (some 7) none

/-- What is observed of a timer: its expiration, its repeat and its routine. -/
def timerView (b : Board) (i : Nat) : Nat × Nat × Option Nat :=
  ((b.strip.Timers i).timerExpiration, (b.strip.Timers i).timerRepeat, (b.strip.Timers i).timerSub)

/-- The object after `ResetStrip` (strip of 160 LEDs) and `ResetSegment(0)`. -/
def afterResetSegment : Option LEDSegs :=
  freshStrip.bind fun s => ResetSegment s 0

/-! ## Reference for the modulation -/

/-- One channel of the modulated foreground color as the specification words
it: `back_c + ((fore_c - back_c) * lit) / n` with the truncating division of C. -/
def modulateRef (bc fc : Nat) (lit n : Int) : Int :=
  (bc : Int) + Int.tdiv (((fc : Int) - (bc : Int)) * lit) n

/-! ## Sequences of operations on the segment store -/

/-- A call of one of the methods `SetSegmentIndex`, `DefineSegment`,
`ResetSegment`, `ResetSegments`, with its arguments. -/
inductive StoreOp where
  | setIndex (Idx : Int)
  | define (FirstLED nLEDs Action : Int) (ForeColor : Nat) (Bands PartIndex : Int)
  | resetSegment (i : Int)
  | resetSegments

/-- The object after the call `op`. -/
def applyStoreOp (s : LEDSegs) : StoreOp → Option LEDSegs
  | StoreOp.setIndex Idx => some (SetSegmentIndex s Idx)
  | StoreOp.define FirstLED nLEDs Action ForeColor Bands PartIndex =>
    (DefineSegment s FirstLED nLEDs Action ForeColor Bands PartIndex).map (fun r => r.1)
  | StoreOp.resetSegment i => ResetSegment s i
  | StoreOp.resetSegments => ResetSegments s

/-- The object after the calls `ops`, made in order. -/
def applyStoreOps (s : LEDSegs) (ops : List StoreOp) : Option LEDSegs :=
  ops.foldlM applyStoreOp s

/-- The calls that the statement about the highest defined index admits in the
state `s`: `DefineSegment` when the current index is inside the segment array,
`ResetSegment(i)` for an index `i` inside it, and any call of `SetSegmentIndex`
or `ResetSegments`. -/
def storeOpAllowed (s : LEDSegs) : StoreOp → Prop
  | StoreOp.define _ _ _ _ _ _ => 0 ≤ s.segCurrentIndex ∧ s.segCurrentIndex < cMaxSegments
  | StoreOp.resetSegment i => 0 ≤ i ∧ i < cMaxSegments
  | _ => True

/-- A sample run on the segment store after `ResetStrip`: three segments are
defined, the index is set to 7 and a fourth segment is defined there, then the
segments 7 and 1 are freed. -/
def sampleStoreOps : List StoreOp :=
  [StoreOp.define 0 10 cSegActionFromBottom (Color 127 0 0) 0x02 0,
   StoreOp.define 10 10 cSegActionFromTop (Color 0 127 0) 0x04 0,
   StoreOp.define 20 10 cSegActionAll (Color 0 0 127) 0x08 0,
   StoreOp.setIndex 7,
   StoreOp.define 30 10 cSegActionFromMiddle (Color 127 0 0) 0x10 0,
   StoreOp.resetSegment 7,
   StoreOp.resetSegment 1]

/-! ## Notions for the statements about the LEDs that a walk addresses -/

/-- The LED of the logical position `p` of a segment filled from the middle
whose centre LED is `m`, as the specification words it: position 0 is `m`, the
position `2j - 1` is `m + j` and the position `2j` is `m - j`. -/
def middleLED (m : Int) (p : Nat) : Int :=
  if p % 2 = 0 then m - ((p / 2 : Nat) : Int) else m + (((p + 1) / 2 : Nat) : Int)

/-- The LED that the walk of the segment `seg` addresses at the logical position
`p` (the value of `iLED` there). -/
def ledAt (t : Target) (s : LEDSegs) (seg : stripSegment) (p : Nat) : Option Int :=
  match segLocals t s seg, readPart s seg.segPart with
  | some g, some part => (walkBefore t s seg g part p).map (fun w => w.iLED)
  | _, _ => none

/-! ## Notions for the statements about random and bit segments -/

/-- The test of a random segment as the specification words it: the entry of
the random table at `(p + random_pattern) mod 64` is at most the level. -/
def randomFore (table : Nat → Nat) (pattern level : Int) (p : Nat) : Prop :=
  ((table ((((p : Int) + pattern) % 64).toNat) : Nat) : Int) ≤ level

instance (table : Nat → Nat) (pattern level : Int) (p : Nat) :
    Decidable (randomFore table pattern level p) := by
  unfold randomFore; infer_instance

/-- The logical position `q` of the walk is retained: the walk reaches it, the
LED is inside the window of the part and the spacing test passes. -/
def retainedAt (t : Target) (s : LEDSegs) (seg : stripSegment) (g : SegLocals) (part : Parts)
    (q : Nat) : Bool :=
  match walkBefore t s seg g part q with
  | some w => decide (w.iLED ≥ g.partStart ∧ w.iLED ≤ g.partEnd ∧ w.SpacingCount = 0)
  | none => false

/-- The number of retained positions before the position `p`. -/
def retainedBefore (t : Target) (s : LEDSegs) (seg : stripSegment) (g : SegLocals) (part : Parts)
    (p : Nat) : Nat :=
  ((List.range p).filter (retainedAt t s seg g part)).length

/-- A random segment of 10 LEDs from LED 0 in red, at the level 300. -/
def randomSegment : stripSegment :=
  { sampleSegment with segAction := cSegActionRandom, segLevel := 300 }

/-- A segment of 80 LEDs from LED 5 with the spacing 1 that displays the bits of
the two words `0x80000005` and `0x3`. -/
def bitsSegment : stripSegment :=
  { sampleSegment with
    segAction := cSegActionBits, segFirstLED := 5, segNumLEDs := 80, segSpacing := 1,
    segBitsPtr := some [0x80000005, 0x3] }

/-! ## Sample configurations for the board with a 16-bit `int` -/

/-- The object at the start of a frame after `ResetStrip()` (strip of 160 LEDs)
and `DefineSegment(0, 10, cSegActionFromBottom, RGBRed, cSegBand2)`, when the
sample read for every band is 600. -/
def defaultGainFrame : Option LEDSegs :=
  oneSegmentStrip.map fun s => { s with SpectrumLevel := fun _ => 600 }

/-- What is observed of segment 0 after the normalisation: its ceiling and its
level. -/
def gainView (s : LEDSegs) : Int × Int :=
  ((s.SegmentData 0).segMaxLevel, (s.SegmentData 0).segLevel)

/-- The object after `ResetStrip()` on a strip of 320 LEDs,
`DefineSegment(0, 300, cSegActionFromBottom, RGBRed, cSegBand2)`,
`SetSegment_Options(cSegOptModulateSegment)` and a frame that leaves the level
1023 in the segment (`SetSegment_Level(1023)`). -/
def longModulatedStrip : Option LEDSegs :=
  (ResetStrip { zeroStrip with nLEDsInStrip := 320 } sampleRandom).bind fun s1 =>
  (DefineSegment s1 0 300 cSegActionFromBottom (Color 127 0 0) 0x02 0).bind fun r =>
  (SetSegment_Options r.1 r.1.segCurrentIndex 0x02).bind fun s2 =>
  SetSegment_Level s2 s2.segCurrentIndex 1023

/-! # Theorems -/

/-! ## Machine integers: a value in range is not changed by a conversion -/

theorem toShort_eq {x : Int} (h0 : -32768 ≤ x) (h1 : x ≤ 32767) : toShort x = x := by
  unfold toShort wrapBits
  norm_num
  omega

theorem toLong_eq {x : Int} (h0 : -2147483648 ≤ x) (h1 : x ≤ 2147483647) : toLong x = x := by
  unfold toLong wrapBits
  norm_num
  omega

theorem toInt_due_eq {x : Int} (h0 : -2147483648 ≤ x) (h1 : x ≤ 2147483647) :
    toInt Target.due x = x := by
  unfold toInt wrapBits Target.due
  norm_num
  omega

theorem cdiv_pos {a b : Int} (ha : 0 ≤ a) (hb : 0 < b) : cdiv a b = some (a / b) := by
  unfold cdiv
  rw [if_neg (by omega), Int.tdiv_eq_ediv ha (by omega)]

/-! ## The lit count -/

theorem litRaw_due_eq (level n : Int) (hl0 : 0 ≤ level) (hl1 : level ≤ 1023)
    (hn0 : 0 ≤ n) (hn1 : n ≤ 32767) :
    litRaw Target.due level n = level * (n + 1) / 1024 := by
  have hp0 : 0 ≤ level * (n + 1) := Int.mul_nonneg hl0 (by omega)
  have hp1 : level * (n + 1) ≤ 1023 * (n + 1) :=
    Int.mul_le_mul_of_nonneg_right hl1 (by omega)
  unfold litRaw cMaxSegmentLevel
  rw [toInt_due_eq (by omega) (by omega), toLong_eq (x := level) (by omega) (by omega),
    toLong_eq (x := n + 1) (by omega) (by omega), toLong_eq (by omega) (by omega),
    Int.tdiv_eq_ediv hp0 (by norm_num)]
  exact toShort_eq (by omega) (by omega)

theorem litRaw_due_range (level n : Int) (hl0 : 0 ≤ level) (hl1 : level ≤ 1023)
    (hn0 : 0 ≤ n) (hn1 : n ≤ 32767) :
    0 ≤ litRaw Target.due level n ∧ litRaw Target.due level n ≤ n := by
  have hp0 : 0 ≤ level * (n + 1) := Int.mul_nonneg hl0 (by omega)
  have hp1 : level * (n + 1) ≤ 1023 * (n + 1) :=
    Int.mul_le_mul_of_nonneg_right hl1 (by omega)
  rw [litRaw_due_eq level n hl0 hl1 hn0 hn1]
  constructor <;> omega

theorem litCount_due_eq (level n : Int) (hl0 : 0 ≤ level) (hl1 : level ≤ 1023)
    (hn0 : 0 ≤ n) (hn1 : n ≤ 32767) :
    litCount Target.due level n = level * (n + 1) / 1024 := by
  have hr := litRaw_due_range level n hl0 hl1 hn0 hn1
  unfold litCount constrain
  rw [if_neg (by omega), if_neg (by omega)]
  exact litRaw_due_eq level n hl0 hl1 hn0 hn1

/-- The value `segval` among the locals that `ShowSegments` sets up for a
segment is the lit count. -/
theorem segLocals_segval (t : Target) (s : LEDSegs) (seg : stripSegment) (g : SegLocals)
    (hg : segLocals t s seg = some g) : g.segval = litCount t seg.segLevel seg.segNumLEDs := by
  unfold segLocals at hg
  cases hpart : readPart s seg.segPart with
  | none => simp [hpart] at hg
  | some part =>
    simp only [hpart, Option.map_eq_some'] at hg
    obtain ⟨fc, -, rfl⟩ := hg
    rfl

/-- C2: for every level in [0,1023] and every count `n ≥ 0` (a `short`), the lit
count that `ShowSegments` computes is `floor(level * (n + 1) / 1024)`, it lies in
`[0, n]`, and the final `constrain(segval, 0, segNumLEDs)` does not change it. -/
theorem lit_count_formula (level n : Int) (hl0 : 0 ≤ level) (hl1 : level ≤ 1023)
    (hn0 : 0 ≤ n) (hn1 : n ≤ 32767) :
    litRaw Target.due level n = level * (n + 1) / 1024
      ∧ 0 ≤ litRaw Target.due level n ∧ litRaw Target.due level n ≤ n
      ∧ litCount Target.due level n = litRaw Target.due level n := by
  refine ⟨litRaw_due_eq level n hl0 hl1 hn0 hn1,
    (litRaw_due_range level n hl0 hl1 hn0 hn1).1,
    (litRaw_due_range level n hl0 hl1 hn0 hn1).2, ?_⟩
  rw [litCount_due_eq level n hl0 hl1 hn0 hn1, litRaw_due_eq level n hl0 hl1 hn0 hn1]

/-- Witness of C2 at level 512 and count 10: the lit count is 5. -/
theorem lit_count_formula_witness :
    litRaw Target.due 512 10 = 512 * (10 + 1) / 1024
      ∧ 0 ≤ litRaw Target.due 512 10 ∧ litRaw Target.due 512 10 ≤ 10
      ∧ litCount Target.due 512 10 = litRaw Target.due 512 10 :=
  lit_count_formula 512 10 (by decide) (by decide) (by decide) (by decide)

/-- C3: for a fixed count `n ≥ 0` and levels `a ≤ b` in [0,1023], the lit count
for `a` is at most the lit count for `b`. -/
theorem lit_count_monotone (a b n : Int) (ha0 : 0 ≤ a) (hab : a ≤ b) (hb1 : b ≤ 1023)
    (hn0 : 0 ≤ n) (hn1 : n ≤ 32767) :
    litCount Target.due a n ≤ litCount Target.due b n := by
  rw [litCount_due_eq a n ha0 (by omega) hn0 hn1, litCount_due_eq b n (by omega) hb1 hn0 hn1]
  exact Int.ediv_le_ediv (by norm_num) (Int.mul_le_mul_of_nonneg_right hab (by omega))

/-- Witness of C3 at count 10 and levels 511 and 512 (lit counts 5 and 5). -/
theorem lit_count_monotone_witness :
    litCount Target.due 511 10 ≤ litCount Target.due 512 10 :=
  lit_count_monotone 511 512 10 (by decide) (by decide) (by decide) (by decide) (by decide)

/-! ## The smoothing step -/

theorem persistence_blend (w p v : Int) (hw0 : 0 < w) (hw1 : w ≤ 32767) (hp0 : 0 ≤ p)
    (hp1 : p ≤ 1023) (hv0 : 0 ≤ v) (hv1 : v ≤ 1023) :
    Option.map toShort
        (cdiv (toLong (toLong (w * p) + toInt Target.due (v * cMaxSegmentLevel)))
          (toLong (w + cMaxSegmentLevel)))
      = some ((w * p + v * 1023) / (w + 1023)) := by
  have hwp0 : 0 ≤ w * p := Int.mul_nonneg (by omega) hp0
  have hwp1 : w * p ≤ 32767 * 1023 := Int.mul_le_mul hw1 hp1 hp0 (by norm_num)
  have hwp2 : w * p ≤ w * 1023 := Int.mul_le_mul_of_nonneg_left hp1 (by omega)
  have hq : (w * p + v * 1023) / (w + 1023) ≤ 1023 :=
    Int.ediv_le_of_le_mul (by omega) (by omega)
  have hq0 : 0 ≤ (w * p + v * 1023) / (w + 1023) := Int.ediv_nonneg (by omega) (by omega)
  unfold cMaxSegmentLevel
  rw [toLong_eq (x := w * p) (by omega) (by omega),
    toInt_due_eq (x := v * 1023) (by omega) (by omega),
    toLong_eq (x := w * p + v * 1023) (by omega) (by omega),
    toLong_eq (x := w + 1023) (by omega) (by omega),
    cdiv_pos (by omega) (by omega)]
  simp only [Option.map_some']
  rw [toShort_eq (by omega) (by omega)]

theorem persistence_due_eq (p v up down : Int) (hp0 : 0 ≤ p) (hp1 : p ≤ 1023)
    (hv0 : 0 ≤ v) (hv1 : v ≤ 1023) (hu1 : up ≤ 32767) (hd1 : down ≤ 32767) :
    persistence Target.due p up down v = some (persistenceRef p up down v) := by
  unfold persistence persistenceRef
  by_cases hvp : v < p
  · simp only [hvp, if_true]
    by_cases hpos : down > 0
    · simp only [if_pos hpos, if_neg (not_le.mpr hpos)]
      exact persistence_blend down p v hpos hd1 hp0 hp1 hv0 hv1
    · simp only [if_neg hpos, if_pos (not_lt.mp hpos)]
  · simp only [hvp, if_false]
    by_cases hpos : up > 0
    · simp only [if_pos hpos, if_neg (not_le.mpr hpos)]
      exact persistence_blend up p v hpos hu1 hp0 hp1 hv0 hv1
    · simp only [if_neg hpos, if_pos (not_lt.mp hpos)]

/-- On the board with a 32-bit `int`: for every previous level `p` and new value
`v` in [0,1023] and all
persistence weights (values of type `short`), the smoothing step of
`MapBandsToSegments` stores the level of the reference `persistenceRef`: with
`w = persistence_down` if `v < p` and `w = persistence_up` otherwise, it stores
`v` if `w ≤ 0` and `(w * p + v * 1023) div (w + 1023)` otherwise.  With both
weights 0 the stored level is `v`, and with weight 1023 it is `(p + v) div 2`. -/
theorem persistence_reference (p v up down : Int) (hp0 : 0 ≤ p) (hp1 : p ≤ 1023)
    (hv0 : 0 ≤ v) (hv1 : v ≤ 1023) (hu1 : up ≤ 32767) (hd1 : down ≤ 32767) :
    persistence Target.due p up down v = some (persistenceRef p up down v)
      ∧ persistence Target.due p 0 0 v = some v
      ∧ persistence Target.due p 1023 1023 v = some ((p + v) / 2) := by
  refine ⟨persistence_due_eq p v up down hp0 hp1 hv0 hv1 hu1 hd1, ?_, ?_⟩
  · rw [persistence_due_eq p v 0 0 hp0 hp1 hv0 hv1 (by norm_num) (by norm_num)]
    simp [persistenceRef]
  · rw [persistence_due_eq p v 1023 1023 hp0 hp1 hv0 hv1 (by norm_num) (by norm_num)]
    simp only [persistenceRef, ite_self]
    rw [if_neg (by norm_num)]
    congr 1
    omega

/-- An instance on the board with a 32-bit `int`: previous level 800, new value
200, "fast attack, slow decay"
weights `(0, 1023)`: the stored level is 500. -/
theorem persistence_reference_witness :
    persistence Target.due 800 0 1023 200 = some (persistenceRef 800 0 1023 200)
      ∧ persistence Target.due 800 0 0 200 = some 200
      ∧ persistence Target.due 800 1023 1023 200 = some ((800 + 200) / 2) :=
  persistence_reference 800 200 0 1023 (by decide) (by decide) (by decide) (by decide)
    (by decide) (by decide)

/-! ## The segment store: the slot search of `DefineSegment` -/

theorem scan_index (c : Int) (i : Nat) (hc0 : 0 ≤ c) (hc1 : c < cMaxSegments)
    (hi : i < cMaxSegments) :
    (if toShort ((i : Int) + c) ≥ (cMaxSegments : Int)
      then toShort (toShort ((i : Int) + c) - (cMaxSegments : Int))
      else toShort ((i : Int) + c)) = ((scanSlot c i : Nat) : Int) := by
  unfold scanSlot cMaxSegments at *
  have h1 : toShort ((i : Int) + c) = (i : Int) + c := toShort_eq (by omega) (by omega)
  rw [h1]
  split
  · rw [toShort_eq (by omega) (by omega)]
    omega
  · omega

theorem readSegment_nat (s : LEDSegs) (k : Nat) (hk : k < cMaxSegments) :
    readSegment s (k : Int) = some (s.SegmentData k) := by
  unfold readSegment
  rw [if_pos ⟨by omega, by exact_mod_cast hk⟩]
  simp

theorem scanSlot_lt (c : Int) (j : Nat) : scanSlot c j < cMaxSegments :=
  Nat.mod_lt _ (by decide)

theorem findFreeSlot_spec (s : LEDSegs) (hc0 : 0 ≤ s.segCurrentIndex)
    (hc1 : s.segCurrentIndex < cMaxSegments) :
    ∀ n i : Nat, i + n = cMaxSegments →
      (findFreeSlot s n i = some none
          ∧ ∀ j, i ≤ j → j < cMaxSegments → ¬ isFreeSlot s (scanSlot s.segCurrentIndex j))
      ∨ ∃ k, i ≤ k ∧ k < cMaxSegments
          ∧ findFreeSlot s n i = some (some ((scanSlot s.segCurrentIndex k : Nat) : Int))
          ∧ isFreeSlot s (scanSlot s.segCurrentIndex k)
          ∧ ∀ j, i ≤ j → j < k → ¬ isFreeSlot s (scanSlot s.segCurrentIndex j) := by
  intro n
  induction n with
  | zero =>
    intro i hi
    left
    exact ⟨rfl, fun j hj1 hj2 => by omega⟩
  | succ n ih =>
    intro i hi
    have hi' : i < cMaxSegments := by omega
    unfold findFreeSlot
    simp only [scan_index s.segCurrentIndex i hc0 hc1 hi',
      readSegment_nat s _ (scanSlot_lt s.segCurrentIndex i)]
    by_cases hfree : isFreeSlot s (scanSlot s.segCurrentIndex i)
    · right
      refine ⟨i, le_refl _, hi', ?_, hfree, fun j hj1 hj2 => by omega⟩
      have hfree2 := hfree
      unfold isFreeSlot at hfree2
      rw [if_pos hfree2]
    · have hfree2 := hfree
      unfold isFreeSlot at hfree2
      rw [if_neg hfree2]
      rcases ih (i + 1) (by omega) with ⟨h1, h2⟩ | ⟨k, hk1, hk2, hk3, hk4, hk5⟩
      · left
        refine ⟨h1, fun j hj1 hj2 => ?_⟩
        rcases Nat.eq_or_lt_of_le hj1 with rfl | hlt
        · exact hfree
        · exact h2 j hlt hj2
      · right
        refine ⟨k, by omega, hk2, hk3, hk4, fun j hj1 hj2 => ?_⟩
        rcases Nat.eq_or_lt_of_le hj1 with rfl | hlt
        · exact hfree
        · exact hk5 j hlt hj2


theorem withSegment_withSegment (s : LEDSegs) (i : Nat) (g g2 : stripSegment) :
    withSegment (withSegment s i g) i g2 = withSegment s i g2 := by
  simp [withSegment]

theorem withSegment_self (s : LEDSegs) (i : Nat) : withSegment s i (s.SegmentData i) = s := by
  simp [withSegment]

theorem modifySegment_nat (s : LEDSegs) (k : Nat) (hk : k < cMaxSegments)
    (f : stripSegment → stripSegment) :
    modifySegment s (k : Int) f = some (withSegment s k (f (s.SegmentData k))) := by
  unfold modifySegment withSegment
  rw [if_pos ⟨by omega, by exact_mod_cast hk⟩]
  simp

theorem slotSetter_modify (k : Nat) (hk : k < cMaxSegments)
    (f : LEDSegs → stripSegment → stripSegment) :
    SlotSetter k (fun st => modifySegment st st.segCurrentIndex (f st)) := by
  intro s g hcur
  refine ⟨f (withSegment s k g) ((withSegment s k g).SegmentData k), ?_⟩
  simp only [hcur]
  rw [modifySegment_nat _ k hk, withSegment_withSegment]

theorem slotSetter_guard (k : Nat) (c : LEDSegs → Prop) [∀ st, Decidable (c st)]
    (op : LEDSegs → Option LEDSegs) (h : SlotSetter k op) :
    SlotSetter k (fun st => if c st then op st else some st) := by
  intro s g hcur
  by_cases hc : c (withSegment s k g)
  · simp only [if_pos hc]
    exact h s g hcur
  · simp only [if_neg hc]
    exact ⟨g, rfl⟩

theorem slotSetter_bind (k : Nat) (op1 op2 : LEDSegs → Option LEDSegs)
    (h1 : SlotSetter k op1) (h2 : SlotSetter k op2) :
    SlotSetter k (fun st => (op1 st).bind op2) := by
  intro s g hcur
  obtain ⟨g1, hg1⟩ := h1 s g hcur
  obtain ⟨g2, hg2⟩ := h2 s g1 (by simpa [withSegment] using hcur)
  exact ⟨g2, by simp [hg1, hg2]⟩


theorem slotSetter_defineProperties (k : Nat) (hk : k < cMaxSegments)
    (FirstLED nLEDs Action : Int) (ForeColor : Nat) (Bands PartIndex : Int) :
    SlotSetter k
      (fun st => defineProperties st FirstLED nLEDs Action ForeColor Bands PartIndex) := by
  unfold defineProperties SetSegment_Part SetSegment_FirstLED SetSegment_NumLEDs
    SetSegment_Action SetSegment_ForeColor SetSegment_Bands
  refine slotSetter_bind k _ _ (slotSetter_guard k _ _ (slotSetter_modify k hk _)) ?_
  refine slotSetter_bind k _ _ (slotSetter_modify k hk _) ?_
  refine slotSetter_bind k _ _ (slotSetter_guard k _ _ (slotSetter_modify k hk _)) ?_
  refine slotSetter_bind k _ _ (slotSetter_guard k _ _ (slotSetter_modify k hk _)) ?_
  refine slotSetter_bind k _ _ (slotSetter_modify k hk _) ?_
  exact slotSetter_modify k hk _

theorem slotSetter_defineDefaults (k : Nat) (hk : k < cMaxSegments) :
    SlotSetter k defineDefaults := by
  unfold defineDefaults SetSegment_BackColor SetSegment_Spacing SetSegment_Options
    SetSegment_DisplayRoutine SetSegment_BitsPtr SetSegment_RandomPattern
    SetSegment_Persistence
  refine slotSetter_bind k _ _ (slotSetter_modify k hk _) ?_
  refine slotSetter_bind k _ _ (slotSetter_guard k _ _ (slotSetter_modify k hk _)) ?_
  refine slotSetter_bind k _ _ (slotSetter_guard k _ _ (slotSetter_modify k hk _)) ?_
  refine slotSetter_bind k _ _ (slotSetter_modify k hk _) ?_
  refine slotSetter_bind k _ _ (slotSetter_modify k hk _) ?_
  refine slotSetter_bind k _ _ (slotSetter_guard k _ _ (slotSetter_modify k hk _)) ?_
  exact slotSetter_modify k hk _

theorem defineBody_some (s1 : LEDSegs) (k : Nat) (hk : k < cMaxSegments)
    (hcur : s1.segCurrentIndex = (k : Int))
    (FirstLED nLEDs Action : Int) (ForeColor : Nat) (Bands PartIndex : Int) :
    ∃ g, ((defineProperties s1 FirstLED nLEDs Action ForeColor Bands PartIndex).bind fun s2 =>
        (defineDefaults s2).bind fun s3 =>
        (modifySegment s3 (k : Int) (fun g => { g with segRescaleAry := none })).bind fun s4 =>
        (modifySegment s4 (k : Int) (fun g => { g with segLevel := 0 })).bind fun s5 =>
        some (s5, s5.segCurrentIndex))
      = some (withSegment s1 k g, (k : Int)) := by
  have hcur2 : ∀ g, (withSegment s1 k g).segCurrentIndex = (k : Int) := fun g => hcur
  obtain ⟨g1, hg1⟩ := slotSetter_defineProperties k hk FirstLED nLEDs Action ForeColor Bands
    PartIndex s1 (s1.SegmentData k) (hcur2 _)
  rw [withSegment_self] at hg1
  replace hg1 : defineProperties s1 FirstLED nLEDs Action ForeColor Bands PartIndex
      = some (withSegment s1 k g1) := hg1
  obtain ⟨g2, hg2⟩ := slotSetter_defineDefaults k hk s1 g1 (hcur2 _)
  refine ⟨{ g2 with segRescaleAry := none, segLevel := 0 }, ?_⟩
  rw [hg1]
  simp only [Option.some_bind, hg2]
  rw [modifySegment_nat _ k hk, Option.some_bind, modifySegment_nat _ k hk, Option.some_bind,
    withSegment_withSegment, withSegment_withSegment]
  simp [withSegment, hcur]

/-- `DefineSegment` at a slot `k` that it found: it returns `k`, leaves the
current index at `k`, raises the highest defined index to at least `k` and
changes no record other than the one of slot `k`. -/
theorem defineAt_some (s : LEDSegs) (k : Nat) (hk : k < cMaxSegments)
    (FirstLED nLEDs Action : Int) (ForeColor : Nat) (Bands PartIndex : Int) :
    ∃ g, defineAt s (k : Int) FirstLED nLEDs Action ForeColor Bands PartIndex
      = some (withSegment { s with segCurrentIndex := (k : Int),
                                   segMaxDefinedIndex := max s.segMaxDefinedIndex (k : Int) } k g,
              (k : Int)) :=
  defineBody_some { s with segCurrentIndex := (k : Int),
                           segMaxDefinedIndex := max s.segMaxDefinedIndex (k : Int) } k hk rfl
    FirstLED nLEDs Action ForeColor Bands PartIndex

/-! ## The segment store: `ResetSegments` and `ResetStrip` -/

theorem ResetSegment_nat (s : LEDSegs) (k : Nat) (hk : k < cMaxSegments) :
    ∃ m, ResetSegment s (k : Int)
      = some { withSegment s k (freedSegment (s.SegmentData k)) with
          segMaxDefinedIndex := m, segCurrentIndex := -1 } := by
  unfold ResetSegment
  rw [modifySegment_nat s k hk]
  exact ⟨_, rfl⟩

theorem foldlM_range_succ {β : Type} (f : β → Nat → Option β) (b : β) (n : Nat) :
    (List.range (n + 1)).foldlM f b = ((List.range n).foldlM f b).bind (fun x => f x n) := by
  rw [List.range_succ, List.foldlM_append]
  cases (List.range n).foldlM f b with
  | none => rfl
  | some x =>
    simp only [Option.bind_eq_bind, Option.some_bind, List.foldlM_cons, List.foldlM_nil]
    cases f x n <;> rfl

theorem resetLoop (s : LEDSegs) :
    ∀ n : Nat, n ≤ cMaxSegments →
      ∃ c m, (List.range n).foldlM (fun st (i : Nat) => ResetSegment st (i : Int)) s
        = some { s with
            SegmentData := fun k => if k < n then freedSegment (s.SegmentData k)
              else s.SegmentData k,
            segMaxDefinedIndex := m, segCurrentIndex := c } := by
  intro n
  induction n with
  | zero =>
    intro _
    exact ⟨s.segCurrentIndex, s.segMaxDefinedIndex, by simp⟩
  | succ n ih =>
    intro hn
    obtain ⟨c, m, h⟩ := ih (by omega)
    rw [foldlM_range_succ, h, Option.some_bind]
    obtain ⟨m2, h2⟩ := ResetSegment_nat { s with
            SegmentData := fun k => if k < n then freedSegment (s.SegmentData k)
              else s.SegmentData k,
            segMaxDefinedIndex := m, segCurrentIndex := c } n (by omega)
    refine ⟨-1, m2, ?_⟩
    rw [h2]
    simp only [withSegment, Option.some.injEq]
    congr 1
    funext k
    by_cases hk : k = n
    · subst hk
      simp
    · rw [Function.update_noteq hk]
      by_cases hk2 : k < n
      · simp [hk2, Nat.lt_succ_of_lt hk2]
      · have : ¬ k < n + 1 := by omega
        simp [hk2, this]

theorem ResetSegments_eq (s : LEDSegs) :
    ResetSegments s = some { s with
      SegmentData := fun k => if k < cMaxSegments then freedSegment (s.SegmentData k)
        else s.SegmentData k,
      segMaxDefinedIndex := -1, segCurrentIndex := -1 } := by
  unfold ResetSegments
  obtain ⟨c, m, h⟩ := resetLoop s cMaxSegments (le_refl _)
  rw [h]

theorem ResetStrip_eq (s : LEDSegs) (rnd : Nat → Nat) :
    ResetStrip s rnd = some
      { s with
        SegmentData := fun k => if k < cMaxSegments then freedSegment (s.SegmentData k)
          else s.SegmentData k,
        segMaxDefinedIndex := -1,
        segCurrentIndex := 0,
        stripParts := fun i =>
          if i < cMaxParts then { start := 0, len := s.nLEDsInStrip, partup := true }
          else s.stripParts i,
        stripMaxLevelDecay := 1,
        stripMaxLevelFloor := cMaxSegmentLevel,
        segRandomLevels := fun i =>
          if i < cSegNRandom then rnd i % 65536 else s.segRandomLevels i,
        DeadAirDetectTimerID := -1,
        SpectrumMax := fun i => if i < cSegNumBands then 0 else s.SpectrumMax i,
        pixels := fun _ => RGBOff } := by
  unfold ResetStrip
  rw [ResetSegments_eq]
  rfl

/-! ## The segment store: `DefineSegment` -/

theorem scanSlot_zero (c : Int) (hc0 : 0 ≤ c) (hc1 : c < cMaxSegments) :
    ((scanSlot c 0 : Nat) : Int) = c := by
  unfold scanSlot cMaxSegments at *
  omega

theorem scanSlot_surj (c : Int) (k : Nat) (hk : k < cMaxSegments) :
    ∃ j, j < cMaxSegments ∧ scanSlot c j = k := by
  refine ⟨(k + cMaxSegments - c.toNat % cMaxSegments) % cMaxSegments, Nat.mod_lt _ (by decide), ?_⟩
  unfold scanSlot cMaxSegments at *
  omega

/-- The two outcomes of `DefineSegment` when the current index is inside the
segment array: no slot is free, the current index becomes -1 and -1 is
returned; or the first free slot in the search order is defined and returned. -/
theorem DefineSegment_spec (s : LEDSegs) (FirstLED nLEDs Action : Int) (ForeColor : Nat)
    (Bands PartIndex : Int) (hc0 : 0 ≤ s.segCurrentIndex)
    (hc1 : s.segCurrentIndex < cMaxSegments) :
    (DefineSegment s FirstLED nLEDs Action ForeColor Bands PartIndex
          = some ({ s with segCurrentIndex := -1 }, -1)
        ∧ ∀ k, k < cMaxSegments → ¬ isFreeSlot s k)
      ∨ ∃ j g, j < cMaxSegments
          ∧ isFreeSlot s (scanSlot s.segCurrentIndex j)
          ∧ (∀ i, i < j → ¬ isFreeSlot s (scanSlot s.segCurrentIndex i))
          ∧ DefineSegment s FirstLED nLEDs Action ForeColor Bands PartIndex
              = some (withSegment
                  { s with
                    segCurrentIndex := ((scanSlot s.segCurrentIndex j : Nat) : Int),
                    segMaxDefinedIndex :=
                      max s.segMaxDefinedIndex ((scanSlot s.segCurrentIndex j : Nat) : Int) }
                  (scanSlot s.segCurrentIndex j) g,
                ((scanSlot s.segCurrentIndex j : Nat) : Int)) := by
  rcases findFreeSlot_spec s hc0 hc1 cMaxSegments 0 (by omega) with
    ⟨h1, h2⟩ | ⟨k, -, hk2, hk3, hk4, hk5⟩
  · left
    refine ⟨?_, fun k hk hfree => ?_⟩
    · unfold DefineSegment
      rw [h1]
    · obtain ⟨j, hj1, hj2⟩ := scanSlot_surj s.segCurrentIndex k hk
      exact h2 j (Nat.zero_le _) hj1 (hj2 ▸ hfree)
  · right
    obtain ⟨g, hg⟩ := defineAt_some s (scanSlot s.segCurrentIndex k)
      (scanSlot_lt s.segCurrentIndex k) FirstLED nLEDs Action ForeColor Bands PartIndex
    refine ⟨k, g, hk2, hk4, fun i hi => hk5 i (Nat.zero_le _) hi, ?_⟩
    unfold DefineSegment
    rw [hk3]
    exact hg

/-- When the slot at the current index is free, `DefineSegment` returns the
current index. -/
theorem DefineSegment_current_free (s : LEDSegs) (FirstLED nLEDs Action : Int)
    (ForeColor : Nat) (Bands PartIndex : Int) (hc0 : 0 ≤ s.segCurrentIndex)
    (hc1 : s.segCurrentIndex < cMaxSegments) (hcf : isFreeSlot s s.segCurrentIndex.toNat) :
    ∃ s2, DefineSegment s FirstLED nLEDs Action ForeColor Bands PartIndex
      = some (s2, s.segCurrentIndex) := by
  have h0 : scanSlot s.segCurrentIndex 0 = s.segCurrentIndex.toNat := by
    unfold scanSlot cMaxSegments at *
    omega
  rcases DefineSegment_spec s FirstLED nLEDs Action ForeColor Bands PartIndex hc0 hc1 with
    ⟨-, h2⟩ | ⟨j, g, hj, hf, hmin, hdef⟩
  · exact absurd hcf (h2 _ (by unfold cMaxSegments at *; omega))
  · have hj0 : j = 0 := by
      by_contra hne
      exact hmin 0 (Nat.pos_of_ne_zero hne) (h0 ▸ hcf)
    subst hj0
    rw [scanSlot_zero s.segCurrentIndex hc0 hc1] at hdef
    exact ⟨_, hdef⟩

/-- After `ResetStrip` the current index is 0, no index is defined and every
slot is free. -/
theorem ResetStrip_spec (s0 : LEDSegs) (rnd : Nat → Nat) :
    ∃ s1, ResetStrip s0 rnd = some s1 ∧ s1.segCurrentIndex = 0
      ∧ s1.segMaxDefinedIndex = -1 ∧ ∀ k, k < cMaxSegments → isFreeSlot s1 k := by
  refine ⟨_, ResetStrip_eq s0 rnd, rfl, rfl, fun k hk => ?_⟩
  simp [isFreeSlot, freedSegment, hk]

/-- C9: when the current index `c` is inside the segment array and some slot is
free, `DefineSegment` returns the first free slot in the order
`c, c+1, ..., cMaxSegments-1, 0, ..., c-1` (slot number `j` of that order, with
no free slot before it) and sets the current index to it; when slot `c` itself
is free it returns `c`; and the first `DefineSegment` after `ResetStrip`
(applied to any object `s0`) returns 0. -/
theorem define_segment_first_free (s s0 : LEDSegs) (rnd : Nat → Nat)
    (FirstLED nLEDs Action : Int) (ForeColor : Nat) (Bands PartIndex : Int)
    (hc0 : 0 ≤ s.segCurrentIndex) (hc1 : s.segCurrentIndex < cMaxSegments)
    (hfree : ∃ k, k < cMaxSegments ∧ isFreeSlot s k) :
    (∃ (s2 : LEDSegs) (j : Nat), j < cMaxSegments
        ∧ DefineSegment s FirstLED nLEDs Action ForeColor Bands PartIndex
            = some (s2, ((scanSlot s.segCurrentIndex j : Nat) : Int))
        ∧ s2.segCurrentIndex = ((scanSlot s.segCurrentIndex j : Nat) : Int)
        ∧ isFreeSlot s (scanSlot s.segCurrentIndex j)
        ∧ (∀ i, i < j → ¬ isFreeSlot s (scanSlot s.segCurrentIndex i))
        ∧ (isFreeSlot s s.segCurrentIndex.toNat →
            ((scanSlot s.segCurrentIndex j : Nat) : Int) = s.segCurrentIndex))
      ∧ ∃ s1 s3, ResetStrip s0 rnd = some s1
          ∧ DefineSegment s1 FirstLED nLEDs Action ForeColor Bands PartIndex = some (s3, 0) := by
  constructor
  · rcases DefineSegment_spec s FirstLED nLEDs Action ForeColor Bands PartIndex hc0 hc1 with
      ⟨-, h2⟩ | ⟨j, g, hj, hf, hmin, hdef⟩
    · obtain ⟨k, hk, hkf⟩ := hfree
      exact absurd hkf (h2 k hk)
    · refine ⟨_, j, hj, hdef, rfl, hf, hmin, fun hcf => ?_⟩
      have h0 : scanSlot s.segCurrentIndex 0 = s.segCurrentIndex.toNat := by
        unfold scanSlot cMaxSegments at *
        omega
      have hj0 : j = 0 := by
        by_contra hne
        exact hmin 0 (Nat.pos_of_ne_zero hne) (h0 ▸ hcf)
      rw [hj0]
      exact scanSlot_zero s.segCurrentIndex hc0 hc1
  · obtain ⟨s1, hs1, hcur, -, hall⟩ := ResetStrip_spec s0 rnd
    obtain ⟨s3, hs3⟩ := DefineSegment_current_free s1 FirstLED nLEDs Action ForeColor Bands
      PartIndex (by rw [hcur]) (by rw [hcur]; decide) (by rw [hcur]; exact hall 0 (by decide))
    exact ⟨s1, s3, hs1, by rw [hs3, hcur]⟩


/-- Witness of C9: with the current index 3 and the slots 3 and 4 taken,
`DefineSegment` defines slot 5. -/
theorem define_segment_first_free_witness :
    (∃ (s2 : LEDSegs) (j : Nat), j < cMaxSegments
        ∧ DefineSegment sampleStrip 0 10 cSegActionFromBottom (Color 127 0 0) 0x02 0
            = some (s2, ((scanSlot sampleStrip.segCurrentIndex j : Nat) : Int))
        ∧ s2.segCurrentIndex = ((scanSlot sampleStrip.segCurrentIndex j : Nat) : Int)
        ∧ isFreeSlot sampleStrip (scanSlot sampleStrip.segCurrentIndex j)
        ∧ (∀ i, i < j → ¬ isFreeSlot sampleStrip (scanSlot sampleStrip.segCurrentIndex i))
        ∧ (isFreeSlot sampleStrip sampleStrip.segCurrentIndex.toNat →
            ((scanSlot sampleStrip.segCurrentIndex j : Nat) : Int)
              = sampleStrip.segCurrentIndex))
      ∧ ∃ s1 s3, ResetStrip zeroStrip sampleRandom = some s1
          ∧ DefineSegment s1 0 10 cSegActionFromBottom (Color 127 0 0) 0x02 0 = some (s3, 0) :=
  define_segment_first_free sampleStrip zeroStrip sampleRandom 0 10 cSegActionFromBottom
    (Color 127 0 0) 0x02 0 (by decide) (by decide) ⟨0, by decide, by decide⟩

/-- C10: when the current index is inside the segment array, `DefineSegment`
returns -1 if and only if no slot is free, and when it returns -1 the object is
unchanged except for the current index, which becomes -1 (so every segment
record is unchanged). -/
theorem define_segment_full (s : LEDSegs) (FirstLED nLEDs Action : Int) (ForeColor : Nat)
    (Bands PartIndex : Int) (hc0 : 0 ≤ s.segCurrentIndex)
    (hc1 : s.segCurrentIndex < cMaxSegments) :
    ∃ (s2 : LEDSegs) (r : Int),
      DefineSegment s FirstLED nLEDs Action ForeColor Bands PartIndex = some (s2, r)
        ∧ (r = -1 ↔ ∀ k, k < cMaxSegments → ¬ isFreeSlot s k)
        ∧ (r = -1 → s2 = { s with segCurrentIndex := -1 }) := by
  rcases DefineSegment_spec s FirstLED nLEDs Action ForeColor Bands PartIndex hc0 hc1 with
    ⟨h1, h2⟩ | ⟨j, g, hj, hf, -, hdef⟩
  · exact ⟨_, _, h1, ⟨fun _ => h2, fun _ => rfl⟩, fun _ => rfl⟩
  · have hne : ((scanSlot s.segCurrentIndex j : Nat) : Int) ≠ -1 := by omega
    refine ⟨_, _, hdef, ⟨fun h => absurd h hne, fun h => ?_⟩, fun h => absurd h hne⟩
    exact absurd hf (h _ (scanSlot_lt s.segCurrentIndex j))

/-- Witness of C10: in an object whose 100 slots are all defined, `DefineSegment`
returns -1. -/
theorem define_segment_full_witness :
    ∃ (s2 : LEDSegs) (r : Int),
      DefineSegment fullStrip 0 10 cSegActionFromBottom (Color 127 0 0) 0x02 0 = some (s2, r)
        ∧ (r = -1 ↔ ∀ k, k < cMaxSegments → ¬ isFreeSlot fullStrip k)
        ∧ (r = -1 → s2 = { fullStrip with segCurrentIndex := -1 }) :=
  define_segment_full fullStrip 0 10 cSegActionFromBottom (Color 127 0 0) 0x02 0
    (by decide) (by decide)

/-! ## The normalisation: band aggregate and failing inputs -/

/-- C5 (failing input): with floor 500, decay 1, prior ceiling 500 and raw
aggregate 600 (below 1023), the updated ceiling is 600 and the normalisation
step yields 1023, not a value of at most 1022; with no rescaling array and no
persistence, `MapBandsToSegments` stores the level 1023. -/
theorem normalisation_reaches_max :
    updateMaxTotal 500 1 500 600 = 600
      ∧ normalise Target.due 600 (updateMaxTotal 500 1 500 600) = some 1023
      ∧ ((peakStrip none).bind (MapBandsToSegments Target.due)).map
          (fun s => ((s.SegmentData 0).segMaxLevel, (s.SegmentData 0).segLevel))
        = some (600, 1023) := by
  decide

/-- C1 (failing input): the object reached by `ResetStrip`,
`SetMaxLevelFloor(500)`, `DefineSegment(0, 10, cSegActionFromBottom, RGBRed,
cSegBand2)` and `SetSegment_Rescale` with the array `{2, 0, 1023, 1023, 0}` of the
documentation satisfies the conditions of the claim (floor 500, decay 1, one
live segment with level 0, ceiling 500 and a valid table; samples 600), and
`MapBandsToSegments` divides by zero on it: no level is defined. -/
theorem level_undefined_at_peak :
    (peakStrip (some docRescale)).map
        (fun s => (s.stripMaxLevelFloor, s.stripMaxLevelDecay, s.segMaxDefinedIndex,
          (s.SegmentData 0).segNumLEDs, (s.SegmentData 0).segLevel,
          (s.SegmentData 0).segMaxLevel))
      = some (500, 1, 0, 10, 0, 500)
    ∧ (peakStrip (some docRescale)).map (fun s => (s.SegmentData 0).segRescaleAry)
      = some (some [2, 0, 1023, 1023, 0])
    ∧ ((peakStrip (some docRescale)).bind (MapBandsToSegments Target.due)).isNone = true := by
  decide

theorem foldl_range_succ {β : Type} (f : β → Nat → β) (b : β) (n : Nat) :
    (List.range (n + 1)).foldl f b = f ((List.range n).foldl f b) n := by
  rw [List.range_succ, List.foldl_append]
  rfl

theorem bandTotals_inv (segBands : Int) (useBandMax : Bool) (SpectrumLevel : Nat → Int)
    (hs : ∀ b, b < cSegNumBands → 0 ≤ SpectrumLevel b ∧ SpectrumLevel b ≤ 1023) :
    ∀ n, n ≤ cSegNumBands →
      let acc := (List.range n).foldl (bandStep segBands useBandMax SpectrumLevel) (0, 0)
      0 ≤ acc.2 ∧ acc.2 ≤ n ∧ 0 ≤ acc.1
        ∧ (useBandMax = true → acc.1 ≤ 1023) ∧ (useBandMax = false → acc.1 ≤ 1023 * acc.2) := by
  intro n
  induction n with
  | zero => intro _; simp
  | succ n ih =>
    intro hn
    have hn7 : n < 7 := by unfold cSegNumBands at hn; omega
    obtain ⟨h1, h2, h3, h4, h5⟩ := ih (by omega)
    obtain ⟨hs0, hs1⟩ := hs n (by omega)
    simp only [foldl_range_succ]
    generalize (List.range n).foldl (bandStep segBands useBandMax SpectrumLevel) (0, 0) = acc
      at h1 h2 h3 h4 h5
    unfold bandStep
    split
    · have hnb : toShort (acc.2 + 1) = acc.2 + 1 := toShort_eq (by omega) (by omega)
      cases useBandMax with
      | true =>
        have h4' := h4 rfl
        simp only [if_true, hnb]
        refine ⟨by omega, by push_cast; omega, le_max_of_le_left h3, fun _ => max_le h4' hs1,
          fun h => by simp at h⟩
      | false =>
        have h5' := h5 rfl
        have hsum : toLong (acc.1 + SpectrumLevel n) = acc.1 + SpectrumLevel n :=
          toLong_eq (by omega) (by omega)
        simp only [hnb, hsum]
        refine ⟨by omega, by push_cast; omega, by simp; omega, fun h => by simp at h,
          fun _ => by simp; omega⟩
    · exact ⟨h1, by push_cast; omega, h3, h4, h5⟩

theorem aggregate_of_totals (useBandMax : Bool) (acc : Int × Int) (h1 : 0 ≤ acc.2)
    (h2 : acc.2 ≤ 7) (h3 : 0 ≤ acc.1) (h4 : useBandMax = true → acc.1 ≤ 1023)
    (h5 : useBandMax = false → acc.1 ≤ 1023 * acc.2) :
    ∃ a, (if useBandMax = true then some (toShort acc.1)
          else (cdiv acc.1 (if acc.2 = 0 then 1 else acc.2)).map toShort) = some a
      ∧ 0 ≤ a ∧ a ≤ 1023 := by
  cases useBandMax with
  | true =>
    have := h4 rfl
    simp only [if_true]
    rw [toShort_eq (by omega) (by omega)]
    exact ⟨_, rfl, h3, this⟩
  | false =>
    have h5' := h5 rfl
    simp only [Bool.false_eq_true, if_false]
    by_cases hz : acc.2 = 0
    · simp only [hz, if_true]
      have ha : acc.1 = 0 := by rw [hz] at h5'; omega
      rw [ha]
      exact ⟨0, by decide, le_refl _, by norm_num⟩
    · simp only [hz, if_false]
      have hq1 : acc.1 / acc.2 ≤ 1023 := Int.ediv_le_of_le_mul (by omega) h5'
      have hq0 : 0 ≤ acc.1 / acc.2 := Int.ediv_nonneg h3 h1
      rw [cdiv_pos h3 (by omega)]
      simp only [Option.map_some']
      rw [toShort_eq (by omega) (by omega)]
      exact ⟨_, rfl, hq0, hq1⟩

/-- With band samples in [0,1023] the raw aggregate of a segment is defined and
lies in [0,1023]. -/
theorem bandAggregate_range (seg : stripSegment) (SpectrumLevel : Nat → Int)
    (hs : ∀ b, b < cSegNumBands → 0 ≤ SpectrumLevel b ∧ SpectrumLevel b ≤ 1023) :
    ∃ a, bandAggregate seg SpectrumLevel = some a ∧ 0 ≤ a ∧ a ≤ 1023 := by
  obtain ⟨h1, h2, h3, h4, h5⟩ := bandTotals_inv seg.segBands
    (!bitSet seg.segOptions cSegOptBandAvgBit) SpectrumLevel hs cSegNumBands (le_refl _)
  exact aggregate_of_totals _ _ h1 (by simpa [cSegNumBands] using h2) h3 h4 h5

/-! ## The loop of `MapBandsToSegments` -/

/-- The body of the loop of `MapBandsToSegments` does not read the segment
array (it is given the record of the segment). -/
theorem mapSegment_withData (t : Target) (s : LEDSegs) (F : Nat → stripSegment)
    (seg : stripSegment) :
    mapSegment t { s with SegmentData := F } seg = mapSegment t s seg := rfl

/-- The loop over the segments of `MapBandsToSegments`, when the body is defined
for every live segment below `n`: every such segment is replaced by the result
of the body on the original object, nothing else changes. -/
theorem mapLoop_eq (t : Target) (s : LEDSegs) :
    ∀ n : Nat, n ≤ cMaxSegments →
      (∀ k, k < n → (s.SegmentData k).segNumLEDs ≥ 0 →
        (mapSegment t s (s.SegmentData k)).isSome = true) →
      (List.range n).foldlM (mapStep t) s
        = some { s with SegmentData := fun k =>
            if k < n ∧ (s.SegmentData k).segNumLEDs ≥ 0
            then (mapSegment t s (s.SegmentData k)).getD (s.SegmentData k)
            else s.SegmentData k } := by
  intro n
  induction n with
  | zero =>
    intro _ _
    simp
  | succ n ih =>
    intro hn hsome
    rw [foldlM_range_succ, ih (by omega) (fun k hk => hsome k (by omega)), Option.some_bind]
    unfold mapStep
    rw [readSegment_nat _ n (by omega)]
    simp only [lt_self_iff_false, false_and, if_false]
    by_cases hlive : (s.SegmentData n).segNumLEDs ≥ 0
    · rw [if_pos hlive]
      have h1 := hsome n (by omega) hlive
      obtain ⟨g, hg⟩ := Option.isSome_iff_exists.mp h1
      rw [mapSegment_withData, hg]
      simp only [Option.some.injEq]
      congr 1
      funext k
      by_cases hk : k = n
      · subst hk
        simp [hlive, hg]
      · rw [Function.update_noteq hk]
        by_cases hk2 : k < n
        · simp [hk2, Nat.lt_succ_of_lt hk2]
        · have : ¬ k < n + 1 := by omega
          simp [hk2, this]
    · rw [if_neg hlive]
      simp only [Option.some.injEq]
      congr 1
      funext k
      by_cases hk : k = n
      · subst hk
        simp [hlive]
      · by_cases hk2 : k < n
        · simp [hk2, Nat.lt_succ_of_lt hk2]
        · have : ¬ k < n + 1 := by omega
          simp [hk2, this]

/-- `MapBandsToSegments` when the highest defined index is inside the segment
array and the body of its loop is defined for every live segment. -/
theorem MapBandsToSegments_eq (t : Target) (s : LEDSegs)
    (hmax : s.segMaxDefinedIndex < cMaxSegments)
    (hsome : ∀ k : Nat, (k : Int) ≤ s.segMaxDefinedIndex → (s.SegmentData k).segNumLEDs ≥ 0 →
      (mapSegment t s (s.SegmentData k)).isSome = true) :
    MapBandsToSegments t s
      = some { s with SegmentData := fun k =>
          if (k : Int) ≤ s.segMaxDefinedIndex ∧ (s.SegmentData k).segNumLEDs ≥ 0
          then (mapSegment t s (s.SegmentData k)).getD (s.SegmentData k)
          else s.SegmentData k } := by
  unfold MapBandsToSegments
  rw [mapLoop_eq t s _ (by omega) (fun k hk => hsome k (by omega))]
  simp only [Option.some.injEq]
  congr 1
  funext k
  have : k < (s.segMaxDefinedIndex + 1).toNat ↔ (k : Int) ≤ s.segMaxDefinedIndex := by omega
  simp only [this]

/-! ## The rescaling -/

theorem tableEntries_length (pts : List (Int × Int)) :
    (tableEntries pts).length = 2 * pts.length := by
  induction pts with
  | nil => rfl
  | cons p ps ih => simp only [tableEntries, List.length_cons, ih]; omega

theorem tableEntries_getElem (pts : List (Int × Int)) :
    ∀ k : Nat, (tableEntries pts)[2 * k]? = (pts[k]?).map Prod.fst
      ∧ (tableEntries pts)[2 * k + 1]? = (pts[k]?).map Prod.snd := by
  induction pts with
  | nil => intro k; simp [tableEntries]
  | cons p ps ih =>
    intro k
    cases k with
    | zero => simp [tableEntries]
    | succ k =>
      have h := ih k
      have e1 : 2 * (k + 1) = (2 * k + 1) + 1 := by ring
      have e2 : 2 * (k + 1) + 1 = ((2 * k + 1) + 1) + 1 := by ring
      constructor
      · rw [e1]; simp only [tableEntries, List.getElem?_cons_succ]; exact h.1
      · rw [e2]; simp only [tableEntries, List.getElem?_cons_succ]; exact h.2

theorem readShorts_input (pts : List (Int × Int)) (k : Nat) :
    readShorts (rescaleArray pts) (2 * (k : Int) + 1) = (pts[k]?).map Prod.fst := by
  unfold readShorts rescaleArray
  rw [if_pos (by omega)]
  have : (2 * (k : Int) + 1).toNat = 2 * k + 1 := by omega
  rw [this, List.getElem?_cons_succ]
  exact (tableEntries_getElem pts k).1

theorem readShorts_output (pts : List (Int × Int)) (k : Nat) :
    readShorts (rescaleArray pts) (2 * (k : Int) + 2) = (pts[k]?).map Prod.snd := by
  unfold readShorts rescaleArray
  rw [if_pos (by omega)]
  have : (2 * (k : Int) + 2).toNat = (2 * k + 1) + 1 := by omega
  rw [this, List.getElem?_cons_succ]
  exact (tableEntries_getElem pts k).2

theorem readShorts_count (pts : List (Int × Int)) :
    readShorts (rescaleArray pts) 0 = some (pts.length : Int) := by
  simp [readShorts, rescaleArray]

theorem firstAbove_le (s : Int) (pts : List (Int × Int)) : firstAbove s pts ≤ pts.length := by
  induction pts with
  | nil => simp [firstAbove]
  | cons p ps ih =>
    unfold firstAbove
    split
    · exact Nat.zero_le _
    · simpa using ih

theorem firstAbove_below (s : Int) (pts : List (Int × Int)) :
    ∀ j, j < firstAbove s pts → (pts.getD j (0, 0)).1 ≤ s := by
  induction pts with
  | nil => intro j hj; simp [firstAbove] at hj
  | cons p ps ih =>
    intro j hj
    unfold firstAbove at hj
    split at hj
    · omega
    · cases j with
      | zero => simp; omega
      | succ j => simpa using ih j (by omega)

theorem firstAbove_at (s : Int) (pts : List (Int × Int)) (h : firstAbove s pts < pts.length) :
    s < (pts.getD (firstAbove s pts) (0, 0)).1 := by
  induction pts with
  | nil => simp at h
  | cons p ps ih =>
    unfold firstAbove at h ⊢
    split
    · simpa
    · rename_i hlt
      rw [if_neg hlt] at h
      simpa using ih (by simpa using h)

theorem firstAbove_drop (s : Int) (pts : List (Int × Int)) (k : Nat) (hk : k < pts.length) :
    firstAbove s (pts.drop k)
      = if s < (pts.getD k (0, 0)).1 then 0 else firstAbove s (pts.drop (k + 1)) + 1 := by
  rw [List.getD_eq_getElem _ _ hk, List.drop_eq_getElem_cons hk]
  rfl

/-- The search loop of the rescaling on the array of the control points `pts`,
started at the point number `k`: it stops at the first point from `k` on whose
input exceeds the value. -/
theorem rescaleScan_eq (pts : List (Int × Int)) (s : Int) (hN : pts.length ≤ 16383) :
    ∀ m k fuel : Nat, k + m = pts.length → m + 1 ≤ fuel →
      rescaleScan (rescaleArray pts) (2 * (pts.length : Int) + 1) s fuel (2 * (k : Int) + 1)
        = some (2 * ((k + firstAbove s (pts.drop k) : Nat) : Int) + 1) := by
  intro m
  induction m with
  | zero =>
    intro k fuel hk hf
    obtain ⟨f, rfl⟩ : ∃ f, fuel = f + 1 := ⟨fuel - 1, by omega⟩
    have hkN : k = pts.length := by omega
    unfold rescaleScan
    rw [if_neg (by omega)]
    subst hkN
    simp [firstAbove]
  | succ m ih =>
    intro k fuel hk hf
    obtain ⟨f, rfl⟩ : ∃ f, fuel = f + 1 := ⟨fuel - 1, by omega⟩
    have hkN : k < pts.length := by omega
    unfold rescaleScan
    rw [if_pos (by omega), readShorts_input, List.getElem?_eq_getElem hkN]
    simp only [Option.map_some']
    rw [firstAbove_drop s pts k hkN, List.getD_eq_getElem _ _ hkN]
    by_cases hgt : pts[k].1 > s
    · rw [if_pos hgt, if_pos hgt]
      simp
    · rw [if_neg hgt, if_neg hgt]
      have hstep : toShort (2 * (k : Int) + 1 + 2) = 2 * ((k + 1 : Nat) : Int) + 1 := by
        rw [toShort_eq (by omega) (by omega)]
        push_cast
        ring
      rw [hstep, ih (k + 1) f (by omega) (by omega)]
      have hidx : k + 1 + firstAbove s (pts.drop (k + 1))
          = k + (firstAbove s (pts.drop (k + 1)) + 1) := by omega
      rw [hidx]

/-- Truncating division of a product `D * X` by `d` with `0 ≤ X < d`: the
quotient lies between 0 and `D`. -/
theorem tdiv_mul_between (D X d : Int) (hX0 : 0 ≤ X) (hXd : X < d) :
    (0 ≤ D → 0 ≤ Int.tdiv (D * X) d ∧ Int.tdiv (D * X) d ≤ D)
      ∧ (D ≤ 0 → D ≤ Int.tdiv (D * X) d ∧ Int.tdiv (D * X) d ≤ 0) := by
  have hd : 0 < d := by omega
  constructor
  · intro hD
    have hP0 : 0 ≤ D * X := Int.mul_nonneg hD hX0
    have hP1 : D * X ≤ D * d := Int.mul_le_mul_of_nonneg_left (by omega) hD
    rw [Int.tdiv_eq_ediv hP0 (by omega)]
    exact ⟨Int.ediv_nonneg hP0 (by omega), Int.ediv_le_of_le_mul hd hP1⟩
  · intro hD
    have hP0 : 0 ≤ (-D) * X := Int.mul_nonneg (by omega) hX0
    have hP1 : (-D) * X ≤ (-D) * d := Int.mul_le_mul_of_nonneg_left (by omega) (by omega)
    have hneg : D * X = -((-D) * X) := by ring
    rw [hneg, Int.neg_tdiv, Int.tdiv_eq_ediv hP0 (by omega)]
    have h1 := Int.ediv_nonneg hP0 (show (0 : Int) ≤ d by omega)
    have h2 := Int.ediv_le_of_le_mul hd hP1
    constructor <;> omega

/-- The interpolation of the rescaling inside a bracket `lo.1 ≤ s < hi.1` whose
four entries lie in -16384..16383: no conversion changes a value. -/
theorem rescaleInterpolate_eq (lo hi : Int × Int) (s : Int)
    (hl1 : -16384 ≤ lo.1) (hl2 : -16384 ≤ lo.2 ∧ lo.2 ≤ 16383)
    (hh1 : hi.1 ≤ 16383) (hh2 : -16384 ≤ hi.2 ∧ hi.2 ≤ 16383)
    (h1 : lo.1 ≤ s) (h2 : s < hi.1) :
    rescaleInterpolate Target.due lo hi s
      = some (min 1022 (lo.2 + Int.tdiv ((hi.2 - lo.2) * (s - lo.1)) (hi.1 - lo.1))) := by
  obtain ⟨hq1, hq2⟩ := tdiv_mul_between (hi.2 - lo.2) (s - lo.1) (hi.1 - lo.1) (by omega)
    (by omega)
  have hP : -1073741824 ≤ (hi.2 - lo.2) * (s - lo.1)
      ∧ (hi.2 - lo.2) * (s - lo.1) ≤ 1073741824 := by
    rcases le_total 0 (hi.2 - lo.2) with hD | hD
    · have := Int.mul_nonneg hD (show 0 ≤ s - lo.1 by omega)
      have := Int.mul_le_mul (show hi.2 - lo.2 ≤ 32767 by omega)
        (show s - lo.1 ≤ 32767 by omega) (by omega) (by norm_num)
      constructor <;> omega
    · have := Int.mul_nonneg (show 0 ≤ -(hi.2 - lo.2) by omega) (show 0 ≤ s - lo.1 by omega)
      have := Int.mul_le_mul (show -(hi.2 - lo.2) ≤ 32767 by omega)
        (show s - lo.1 ≤ 32767 by omega) (by omega) (by norm_num)
      have e : -(hi.2 - lo.2) * (s - lo.1) = -((hi.2 - lo.2) * (s - lo.1)) := by ring
      constructor <;> omega
  have hq : lo.2 + Int.tdiv ((hi.2 - lo.2) * (s - lo.1)) (hi.1 - lo.1) ≤ 16383
      ∧ -16384 ≤ lo.2 + Int.tdiv ((hi.2 - lo.2) * (s - lo.1)) (hi.1 - lo.1) := by
    rcases le_total 0 (hi.2 - lo.2) with hD | hD
    · have := hq1 hD
      constructor <;> omega
    · have := hq2 hD
      constructor <;> omega
  unfold rescaleInterpolate cdiv
  rw [toInt_due_eq (x := hi.2 - lo.2) (by omega) (by omega),
    toInt_due_eq (x := s - lo.1) (by omega) (by omega),
    toInt_due_eq (x := hi.1 - lo.1) (by omega) (by omega),
    toLong_eq (x := hi.2 - lo.2) (by omega) (by omega),
    toLong_eq (x := s - lo.1) (by omega) (by omega),
    toLong_eq (x := hi.1 - lo.1) (by omega) (by omega),
    toLong_eq (x := (hi.2 - lo.2) * (s - lo.1)) (by omega) (by omega),
    if_neg (by omega)]
  simp only
  rw [toLong_eq (by omega) (by omega), toShort_eq (by omega) (by omega)]
  unfold cMaxSegmentLevel
  congr 1
  split <;> omega

/-- The rescaling in terms of the results of its four steps. -/
theorem rescale_of_parts (t : Target) (ary : List Int) (s n iscale : Int) (lo hi : Int × Int)
    (h0 : readShorts ary 0 = some n)
    (hscan : rescaleScan ary (toShort (toInt t (2 * n + 1))) s (ary.length + 1) 1 = some iscale)
    (hlo : rescaleLower ary iscale = some lo)
    (hhi : rescaleUpper ary (toShort (toInt t (2 * n + 1))) iscale = some hi) :
    rescale t ary s = rescaleInterpolate t lo hi s := by
  unfold rescale
  generalize ary.length + 1 = fuel at hscan
  simp only [h0, hscan, hlo, hhi]

theorem rescaleLower_eq (pts : List (Int × Int)) (K : Nat) (hK : K ≤ pts.length) :
    rescaleLower (rescaleArray pts) (2 * (K : Int) + 1)
      = some (if K = 0 then (0, 0) else pts.getD (K - 1) (0, 0)) := by
  unfold rescaleLower
  by_cases hK0 : K = 0
  · subst hK0
    simp
  · rw [if_neg (by omega), if_neg hK0]
    have e1 : 2 * (K : Int) + 1 - 2 = 2 * ((K - 1 : Nat) : Int) + 1 := by omega
    have e2 : 2 * (K : Int) + 1 - 1 = 2 * ((K - 1 : Nat) : Int) + 2 := by omega
    rw [e1, e2, readShorts_input, readShorts_output,
      List.getElem?_eq_getElem (show K - 1 < pts.length by omega),
      List.getD_eq_getElem _ _ (show K - 1 < pts.length by omega)]
    rfl

theorem rescaleUpper_eq (pts : List (Int × Int)) (K : Nat) (hK : K ≤ pts.length) :
    rescaleUpper (rescaleArray pts) (2 * (pts.length : Int) + 1) (2 * (K : Int) + 1)
      = some (pts.getD K (1023, 1023)) := by
  unfold rescaleUpper cMaxSegmentLevel
  by_cases hKN : K < pts.length
  · rw [if_neg (by omega)]
    have e2 : 2 * (K : Int) + 1 + 1 = 2 * (K : Int) + 2 := by omega
    rw [e2, readShorts_input, readShorts_output, List.getElem?_eq_getElem hKN,
      List.getD_eq_getElem _ _ hKN]
    rfl
  · rw [if_pos (by omega)]
    simp [List.getD_eq_getElem?_getD, List.getElem?_eq_none (show pts.length ≤ K by omega)]

/-- The bracket that the code selects, in terms of the number `K` of table
points before the first one whose input exceeds the value. -/
theorem rescale_code (pts : List (Int × Int)) (s : Int) (hN : pts.length ≤ 16383) :
    rescale Target.due (rescaleArray pts) s
      = rescaleInterpolate Target.due
          (if firstAbove s pts = 0 then (0, 0) else pts.getD (firstAbove s pts - 1) (0, 0))
          (pts.getD (firstAbove s pts) (1023, 1023)) s := by
  have hK := firstAbove_le s pts
  have hlen : pts.length + 1 ≤ (rescaleArray pts).length + 1 := by
    simp only [rescaleArray, List.length_cons, tableEntries_length]
    omega
  have hscan := rescaleScan_eq pts s hN pts.length 0 ((rescaleArray pts).length + 1)
    (by omega) hlen
  simp only [Nat.cast_zero, mul_zero, zero_add, List.drop_zero] at hscan
  have hn : toShort (toInt Target.due (2 * (pts.length : Int) + 1))
      = 2 * (pts.length : Int) + 1 := by
    rw [toInt_due_eq (by omega) (by omega), toShort_eq (by omega) (by omega)]
  exact rescale_of_parts Target.due (rescaleArray pts) s (pts.length : Int) _ _ _
    (readShorts_count pts) (by rw [hn]; exact hscan) (rescaleLower_eq pts _ hK)
    (by rw [hn]; exact rescaleUpper_eq pts _ hK)

theorem filter_range_eq (P : Nat → Bool) :
    ∀ N K : Nat, K ≤ N → (∀ j, j < N → P j = decide (j < K)) →
      (List.range N).filter P = List.range K := by
  intro N
  induction N with
  | zero =>
    intro K hK _
    have : K = 0 := by omega
    subst this
    rfl
  | succ N ih =>
    intro K hK hP
    rw [List.range_succ, List.filter_append]
    rcases Nat.lt_or_ge N K with hlt | hge
    · have hKN : K = N + 1 := by omega
      subst hKN
      rw [ih N (le_refl _) (fun j hj => by rw [hP j (by omega)]; simp; omega)]
      have : P N = true := by rw [hP N (by omega)]; simp
      simp [List.filter, this, List.range_succ]
    · rw [ih K hge (fun j hj => hP j (by omega))]
      have : P N = false := by rw [hP N (by omega)]; simp; omega
      simp [List.filter, this]

/-- For strictly increasing inputs the last table point with input at most `s`
is the one before the first point whose input exceeds `s`. -/
theorem lastAtMost_eq (pts : List (Int × Int)) (s : Int)
    (hsorted : pts.Pairwise (fun p q => p.1 < q.1)) :
    lastAtMost pts s = if firstAbove s pts = 0 then none else some (firstAbove s pts - 1) := by
  have hK := firstAbove_le s pts
  unfold lastAtMost
  rw [filter_range_eq _ pts.length (firstAbove s pts) hK, List.getLast?_range]
  intro j hj
  by_cases hjK : j < firstAbove s pts
  · simp only [hjK, decide_True, decide_eq_true_eq]
    exact firstAbove_below s pts j hjK
  · simp only [hjK, decide_False, decide_eq_false_iff_not, not_le]
    have hKN : firstAbove s pts < pts.length := by omega
    have hat := firstAbove_at s pts hKN
    rw [List.getD_eq_getElem _ _ hKN] at hat
    rw [List.getD_eq_getElem _ _ hj]
    rcases Nat.eq_or_lt_of_le (Nat.le_of_not_lt hjK) with heq | hlt
    · simpa [← heq] using hat
    · have := List.pairwise_iff_getElem.mp hsorted _ _ hKN hj hlt
      omega

theorem rescaleRef_bracket (pts : List (Int × Int)) (s : Int)
    (hsorted : pts.Pairwise (fun p q => p.1 < q.1)) :
    rescaleRefLower pts s
        = (if firstAbove s pts = 0 then (0, 0) else pts.getD (firstAbove s pts - 1) (0, 0))
      ∧ rescaleRefUpper pts s = pts.getD (firstAbove s pts) (1023, 1023) := by
  unfold rescaleRefLower rescaleRefUpper
  rw [lastAtMost_eq pts s hsorted]
  by_cases hK0 : firstAbove s pts = 0
  · simp [hK0]
  · have : firstAbove s pts - 1 + 1 = firstAbove s pts := by omega
    simp only [hK0, if_false, this, and_self]

/-- The rescaling of a value `s` in [0,1022] through a valid table is the value
of the reference. -/
theorem rescale_eq_ref (pts : List (Int × Int)) (s : Int) (hv : ValidRescale pts)
    (hs0 : 0 ≤ s) (hs1 : s ≤ 1022) :
    rescale Target.due (rescaleArray pts) s = some (rescaleRef pts s) := by
  obtain ⟨hN, hsorted, hb⟩ := hv
  obtain ⟨hlo, hhi⟩ := rescaleRef_bracket pts s hsorted
  have hK := firstAbove_le s pts
  rw [rescale_code pts s hN]
  unfold rescaleRef
  rw [hlo, hhi]
  have hmem : ∀ j, j < pts.length →
      (-16384 ≤ (pts.getD j (0, 0)).1 ∧ (pts.getD j (0, 0)).1 ≤ 16383)
        ∧ (-16384 ≤ (pts.getD j (0, 0)).2 ∧ (pts.getD j (0, 0)).2 ≤ 16383) := by
    intro j hj
    rw [List.getD_eq_getElem _ _ hj]
    exact hb _ (List.getElem_mem hj)
  have hlow : (-16384 ≤ (if firstAbove s pts = 0 then ((0 : Int), (0 : Int))
        else pts.getD (firstAbove s pts - 1) (0, 0)).1)
      ∧ (-16384 ≤ (if firstAbove s pts = 0 then ((0 : Int), (0 : Int))
          else pts.getD (firstAbove s pts - 1) (0, 0)).2
        ∧ (if firstAbove s pts = 0 then ((0 : Int), (0 : Int))
          else pts.getD (firstAbove s pts - 1) (0, 0)).2 ≤ 16383)
      ∧ (if firstAbove s pts = 0 then ((0 : Int), (0 : Int))
          else pts.getD (firstAbove s pts - 1) (0, 0)).1 ≤ s := by
    by_cases hK0 : firstAbove s pts = 0
    · simp only [hK0, if_true]
      omega
    · simp only [hK0, if_false]
      have h1 := hmem (firstAbove s pts - 1) (by omega)
      have h2 := firstAbove_below s pts (firstAbove s pts - 1) (by omega)
      omega
  have hupp : (pts.getD (firstAbove s pts) (1023, 1023)).1 ≤ 16383
      ∧ (-16384 ≤ (pts.getD (firstAbove s pts) (1023, 1023)).2
        ∧ (pts.getD (firstAbove s pts) (1023, 1023)).2 ≤ 16383)
      ∧ s < (pts.getD (firstAbove s pts) (1023, 1023)).1 := by
    by_cases hKN : firstAbove s pts < pts.length
    · have h1 := hmem (firstAbove s pts) hKN
      have h2 := firstAbove_at s pts hKN
      rw [List.getD_eq_getElem _ _ hKN] at h1 h2 ⊢
      omega
    · simp only [List.getD_eq_getElem?_getD,
        List.getElem?_eq_none (show pts.length ≤ firstAbove s pts by omega), Option.getD_none]
      omega
  exact rescaleInterpolate_eq _ _ s hlow.1 hlow.2.1 hupp.1 hupp.2.1 hlow.2.2 hupp.2.2

theorem firstAbove_of_input (pts : List (Int × Int)) (s : Int)
    (hsorted : pts.Pairwise (fun p q => p.1 < q.1)) (k : Nat) (hk : k < pts.length)
    (hks : pts[k].1 = s) : firstAbove s pts = k + 1 := by
  have hK := firstAbove_le s pts
  have hpair := List.pairwise_iff_getElem.mp hsorted
  have h1 : k < firstAbove s pts := by
    by_contra hcon
    have hKN : firstAbove s pts < pts.length := by omega
    have hat := firstAbove_at s pts hKN
    rw [List.getD_eq_getElem _ _ hKN] at hat
    rcases Nat.eq_or_lt_of_le (Nat.le_of_not_lt hcon) with heq | hlt
    · simp only [heq] at hat
      omega
    · have := hpair _ _ hKN hk hlt
      omega
  have h2 : firstAbove s pts ≤ k + 1 := by
    by_contra hcon
    have hk1 : k + 1 < pts.length := by omega
    have hbelow := firstAbove_below s pts (k + 1) (by omega)
    rw [List.getD_eq_getElem _ _ hk1] at hbelow
    have := hpair _ _ hk hk1 (Nat.lt_succ_self k)
    omega
  omega

theorem sorted_input_ge (pts : List (Int × Int))
    (hsorted : pts.Pairwise (fun p q => p.1 < q.1)) (h0 : ∀ p ∈ pts, 0 ≤ p.1) :
    ∀ (k : Nat) (hk : k < pts.length), (k : Int) ≤ pts[k].1 := by
  intro k
  induction k with
  | zero =>
    intro hk
    exact_mod_cast h0 _ (List.getElem_mem hk)
  | succ k ih =>
    intro hk
    have h1 := ih (by omega)
    have h2 := List.pairwise_iff_getElem.mp hsorted k (k + 1) (by omega) hk (Nat.lt_succ_self k)
    push_cast
    omega

/-- Every table of levels (inputs and outputs in 0..1023) with strictly
increasing inputs is a valid rescaling table. -/
theorem validRescale_of_levels (pts : List (Int × Int))
    (hsorted : pts.Pairwise (fun p q => p.1 < q.1))
    (hlev : ∀ p ∈ pts, (0 ≤ p.1 ∧ p.1 ≤ 1023) ∧ (0 ≤ p.2 ∧ p.2 ≤ 1023)) :
    ValidRescale pts := by
  refine ⟨?_, hsorted, fun p hp => ?_⟩
  · by_contra hcon
    have hk : 1024 < pts.length := by omega
    have h1 := sorted_input_ge pts hsorted (fun p hp => (hlev p hp).1.1) 1024 hk
    have h2 := (hlev _ (List.getElem_mem hk)).1.2
    omega
  · have := hlev p hp
    omega

/-- On the board with a 32-bit `int`, beyond the tables of levels: for every
rescale table with `N` control points, `0 ≤ N ≤ 16383`,
whose inputs are strictly increasing and whose inputs and outputs lie in
-16384..16383, and every normalised value `s` in [0,1022], the rescaled value is
`min(1022, o1 + ((o2 - o1) * (s - i1)) / (i2 - i1))` with truncating division,
where `(i1, o1)` is the last table point with input at most `s` (or `(0, 0)`) and
`(i2, o2)` is the next table point (or `(1023, 1023)`); a table with no control
point leaves `s` unchanged, and a value equal to the input of a control point
maps to the output of that point, capped at 1022. -/
theorem rescale_reference (pts : List (Int × Int)) (s : Int) (hv : ValidRescale pts)
    (hs0 : 0 ≤ s) (hs1 : s ≤ 1022) :
    rescale Target.due (rescaleArray pts) s = some (rescaleRef pts s)
      ∧ rescale Target.due (rescaleArray []) s = some s
      ∧ ∀ (k : Nat) (hk : k < pts.length), pts[k].1 = s →
          rescale Target.due (rescaleArray pts) s = some (min 1022 pts[k].2) := by
  refine ⟨rescale_eq_ref pts s hv hs0 hs1, ?_, ?_⟩
  · rw [rescale_eq_ref [] s ⟨by simp, List.Pairwise.nil, by simp⟩ hs0 hs1]
    have h : rescaleRef [] s = min 1022 (0 + Int.tdiv ((1023 - 0) * (s - 0)) (1023 - 0)) := rfl
    rw [h, Int.tdiv_eq_ediv (by omega) (by norm_num)]
    congr 1
    omega
  · intro k hk hks
    rw [rescale_eq_ref pts s hv hs0 hs1]
    obtain ⟨hlo, -⟩ := rescaleRef_bracket pts s hv.2.1
    have hK := firstAbove_of_input pts s hv.2.1 k hk hks
    unfold rescaleRef
    rw [hlo, hK]
    simp only [Nat.add_one_ne_zero, if_false, Nat.add_sub_cancel,
      List.getD_eq_getElem _ _ hk, hks, sub_self, mul_zero, Int.zero_tdiv, add_zero]

/-- An instance on the board with a 32-bit `int`: the table
`{3, 100, 50, 200, 1023, 500, 3}` at the value 200, the input of its second
control point. -/
theorem rescale_reference_witness :
    rescale Target.due (rescaleArray sampleRescale) 200 = some (rescaleRef sampleRescale 200)
      ∧ rescale Target.due (rescaleArray []) 200 = some 200
      ∧ ∀ (k : Nat) (hk : k < sampleRescale.length), sampleRescale[k].1 = 200 →
          rescale Target.due (rescaleArray sampleRescale) 200
            = some (min 1022 sampleRescale[k].2) :=
  rescale_reference sampleRescale 200 ⟨by decide, by decide, by decide⟩ (by decide) (by decide)

/-- Outside the tables of levels the arithmetic is no longer exact: the table
`{2, -32768, -32768, 2000, 32767}` has strictly increasing inputs, and at the
value 1022 the product `(o2 - o1) * (s - i1) = 65535 * 33790` does not fit the
32-bit `long`: the code yields -27072 where the formula yields 1022. -/
theorem rescale_overflow_counterexample :
    List.Pairwise (fun p q : Int × Int => p.1 < q.1) [(-32768, -32768), (2000, 32767)]
      ∧ rescale Target.due (rescaleArray [(-32768, -32768), (2000, 32767)]) 1022
          = some (-27072)
      ∧ rescaleRef [(-32768, -32768), (2000, 32767)] 1022 = 1022 := by
  decide

/-! ## The default gain: the ceiling stays at 1023 -/

theorem toShort_range (x : Int) : -32768 ≤ toShort x ∧ toShort x ≤ 32767 := by
  unfold toShort wrapBits
  norm_num
  omega

theorem updateMaxTotal_default (a : Int) (ha1 : a ≤ 1023) :
    updateMaxTotal 1023 1 1023 a = 1023 := by
  unfold updateMaxTotal
  rw [toShort_eq (by norm_num) (by norm_num)]
  simp only
  split_ifs <;> omega

theorem updateMaxTotal_floor (c a : Int) (ha1 : a ≤ 1023) :
    1023 ≤ updateMaxTotal c 1 1023 a ∧ updateMaxTotal c 1 1023 a ≤ 32767
      ∧ a ≤ updateMaxTotal c 1 1023 a := by
  have h := toShort_range (c - 1)
  unfold updateMaxTotal
  simp only
  split_ifs <;> omega

theorem normalise_default (a : Int) (ha0 : 0 ≤ a) (ha1 : a ≤ 1023) :
    normalise Target.due a 1023 = some a := by
  unfold normalise cMaxSegmentLevel
  rw [toInt_due_eq (by omega) (by omega), toLong_eq (x := a * 1023) (by omega) (by omega),
    toLong_eq (x := 1023) (by omega) (by omega), cdiv_pos (by omega) (by omega)]
  simp only [Option.map_some']
  rw [Int.mul_ediv_cancel _ (by norm_num), toShort_eq (by omega) (by omega)]

theorem normalise_floor (a m : Int) (ha0 : 0 ≤ a) (ha1 : a ≤ 1022) (hm0 : 1023 ≤ m)
    (hm1 : m ≤ 32767) : ∃ n, normalise Target.due a m = some n ∧ 0 ≤ n ∧ n ≤ 1022 := by
  have hq1 : a * 1023 / m ≤ a :=
    Int.ediv_le_of_le_mul (by omega) (Int.mul_le_mul_of_nonneg_left hm0 ha0)
  have hq0 : 0 ≤ a * 1023 / m := Int.ediv_nonneg (by omega) (by omega)
  unfold normalise cMaxSegmentLevel
  rw [toInt_due_eq (by omega) (by omega), toLong_eq (x := a * 1023) (by omega) (by omega),
    toLong_eq (x := m) (by omega) (by omega), cdiv_pos (by omega) (by omega)]
  simp only [Option.map_some']
  rw [toShort_eq (by omega) (by omega)]
  exact ⟨_, rfl, hq0, by omega⟩

theorem persistence_weight_isSome (t : Target) (p w v : Int) (hw : w ≤ 32767) :
    ∃ l, (if w > 0 then
        (cdiv (toLong (toLong (w * p) + toInt t (v * cMaxSegmentLevel)))
          (toLong (w + cMaxSegmentLevel))).map toShort
      else some v) = some l := by
  unfold cdiv cMaxSegmentLevel
  by_cases hpos : w > 0
  · rw [if_pos hpos, toLong_eq (x := w + 1023) (by omega) (by omega), if_neg (by omega)]
    exact ⟨_, rfl⟩
  · rw [if_neg hpos]
    exact ⟨_, rfl⟩

theorem persistence_isSome (t : Target) (p up down v : Int) (hu : up ≤ 32767)
    (hd : down ≤ 32767) : ∃ l, persistence t p up down v = some l := by
  unfold persistence
  by_cases hvp : v < p
  · simp only [hvp, if_true]
    exact persistence_weight_isSome t p down v hd
  · simp only [hvp, if_false]
    exact persistence_weight_isSome t p up v hu

/-- With the default floor and decay, the body of the loop of
`MapBandsToSegments` is defined on a `GainReady` segment; it changes only the
ceiling and the level, the new ceiling is at least 1023, and it is 1023 if the
ceiling was 1023. -/
theorem mapSegment_gainReady (s : LEDSegs) (seg : stripSegment)
    (hfloor : s.stripMaxLevelFloor = 1023) (hdecay : s.stripMaxLevelDecay = 1)
    (hs : ∀ b, b < cSegNumBands → 0 ≤ s.SpectrumLevel b ∧ s.SpectrumLevel b ≤ 1023)
    (hseg : GainReady seg) :
    ∃ m l, mapSegment Target.due s seg = some { seg with segMaxLevel := m, segLevel := l }
      ∧ 1023 ≤ m ∧ m ≤ 32767 ∧ (seg.segMaxLevel = 1023 → m = 1023) := by
  obtain ⟨-, hary, hup, hdown⟩ := hseg
  obtain ⟨a, ha, ha0, ha1⟩ := bandAggregate_range seg s.SpectrumLevel hs
  obtain ⟨hm0, hm1, hma⟩ := updateMaxTotal_floor seg.segMaxLevel a ha1
  have hscale : ∃ v, scaleLevel Target.due seg.segRescaleAry a
      (updateMaxTotal seg.segMaxLevel 1 1023 a) = some v := by
    unfold scaleLevel cMaxSegmentLevel
    by_cases hlt : a < 1023
    · obtain ⟨n, hn, hn0, hn1⟩ := normalise_floor a _ ha0 (by omega) hm0 hm1
      rw [if_pos hlt, hn]
      rcases hary with hnone | ⟨pts, hv, hsome⟩
      · rw [hnone]
        exact ⟨_, rfl⟩
      · rw [hsome]
        simp only
        rw [rescale_eq_ref pts n hv hn0 hn1]
        exact ⟨_, rfl⟩
    · rw [if_neg hlt]
      exact ⟨_, rfl⟩
  obtain ⟨v, hv⟩ := hscale
  obtain ⟨l, hl⟩ := persistence_isSome Target.due seg.segLevel seg.segPersistUp
    seg.segPersistDown v hup hdown
  refine ⟨updateMaxTotal seg.segMaxLevel 1 1023 a, l, ?_, hm0, hm1, fun h => ?_⟩
  · unfold mapSegment
    rw [ha]
    simp only [hdecay, hfloor, hv, hl]
  · rw [h]
    exact updateMaxTotal_default a ha1

/-- One frame of the normalisation keeps an object `GainReadyStrip`, keeps the
set of live segments, and keeps every ceiling that is 1023 at 1023. -/
theorem frame_gainReady (s : LEDSegs) (samples : Nat → Int) (hs : GainReadyStrip s)
    (hsmp : ∀ b, b < cSegNumBands → 0 ≤ samples b ∧ samples b ≤ 1023) :
    ∃ s2, MapBandsToSegments Target.due { s with SpectrumLevel := samples } = some s2
      ∧ GainReadyStrip s2
      ∧ s2.segMaxDefinedIndex = s.segMaxDefinedIndex
      ∧ (∀ k, (s2.SegmentData k).segNumLEDs = (s.SegmentData k).segNumLEDs)
      ∧ ∀ k : Nat, (k : Int) ≤ s.segMaxDefinedIndex → (s.SegmentData k).segNumLEDs ≥ 0 →
          (s.SegmentData k).segMaxLevel = 1023 → (s2.SegmentData k).segMaxLevel = 1023 := by
  obtain ⟨hfloor, hdecay, hmax, hsegs⟩ := hs
  have hbody : ∀ k : Nat, (k : Int) ≤ s.segMaxDefinedIndex →
      (s.SegmentData k).segNumLEDs ≥ 0 →
      ∃ m l, mapSegment Target.due { s with SpectrumLevel := samples } (s.SegmentData k)
          = some { s.SegmentData k with segMaxLevel := m, segLevel := l }
        ∧ 1023 ≤ m ∧ m ≤ 32767 ∧ ((s.SegmentData k).segMaxLevel = 1023 → m = 1023) :=
    fun k hk hlive => mapSegment_gainReady { s with SpectrumLevel := samples }
      (s.SegmentData k) hfloor hdecay hsmp (hsegs k hk hlive)
  have hmap := MapBandsToSegments_eq Target.due { s with SpectrumLevel := samples } hmax
    (fun k hk hlive => by
      obtain ⟨m, l, h, -⟩ := hbody k hk hlive
      rw [h]
      rfl)
  refine ⟨_, hmap, ⟨hfloor, hdecay, hmax, fun k hk hlive => ?_⟩, rfl, fun k => ?_,
    fun k hk hlive hc => ?_⟩
  · simp only at hk hlive ⊢
    by_cases hcond : (k : Int) ≤ s.segMaxDefinedIndex ∧ (s.SegmentData k).segNumLEDs ≥ 0
    · obtain ⟨m, l, h, hm0, hm1, -⟩ := hbody k hcond.1 hcond.2
      obtain ⟨-, hary, hup, hdown⟩ := hsegs k hcond.1 hcond.2
      simp only [if_pos hcond, h, Option.getD_some]
      exact ⟨⟨show -32768 ≤ m by omega, hm1⟩, hary, hup, hdown⟩
    · rw [if_neg hcond] at hlive ⊢
      exact hsegs k hk hlive
  · simp only
    by_cases hcond : (k : Int) ≤ s.segMaxDefinedIndex ∧ (s.SegmentData k).segNumLEDs ≥ 0
    · obtain ⟨m, l, h, -⟩ := hbody k hcond.1 hcond.2
      simp only [if_pos hcond, h, Option.getD_some]
    · rw [if_neg hcond]
  · obtain ⟨m, l, h, -, -, hm⟩ := hbody k hk hlive
    simp only [if_pos (And.intro hk hlive), h, Option.getD_some]
    exact hm hc

/-- A run of frames with band samples in [0,1023] on a `GainReadyStrip` object
is defined and keeps every ceiling that is 1023 at 1023. -/
theorem frames_gainReady (frames : List (Nat → Int))
    (hframes : ∀ samples ∈ frames, ∀ b, b < cSegNumBands → 0 ≤ samples b ∧ samples b ≤ 1023) :
    ∀ s : LEDSegs, GainReadyStrip s →
      ∃ s2, mapFrames Target.due s frames = some s2
        ∧ ∀ k : Nat, (k : Int) ≤ s.segMaxDefinedIndex → (s.SegmentData k).segNumLEDs ≥ 0 →
            (s.SegmentData k).segMaxLevel = 1023 → (s2.SegmentData k).segMaxLevel = 1023 := by
  induction frames with
  | nil =>
    intro s _
    exact ⟨s, rfl, fun k _ _ h => h⟩
  | cons samples rest ih =>
    intro s hs
    obtain ⟨s1, h1, hs1, hmax1, hlive1, hc1⟩ :=
      frame_gainReady s samples hs (hframes samples (List.mem_cons_self _ _))
    obtain ⟨s2, h2, hc2⟩ := ih (fun smp hmem => hframes smp (List.mem_cons_of_mem _ hmem))
      s1 hs1
    refine ⟨s2, ?_, fun k hk hlive hc => ?_⟩
    · unfold mapFrames
      rw [h1]
      exact h2
    · exact hc2 k (by rw [hmax1]; exact hk) (by rw [hlive1]; exact hlive) (hc1 k hk hlive hc)

/-- On the board with a 32-bit `int`: with the default floor 1023 and decay 1, in
an object whose live segments
are `GainReady` (ceilings and persistence weights of type `short`, rescaling
arrays absent or valid), for a live segment `k` whose adaptive ceiling is 1023
and every run of frames with band samples in [0,1023], the normalisation is
defined and the ceiling of segment `k` is 1023 after the run (hence after
every frame); and with that ceiling the normalised value of a raw aggregate
`a < 1023` is `a`. -/
theorem default_ceiling_pinned (s : LEDSegs) (frames : List (Nat → Int)) (k : Nat) (a : Int)
    (hs : GainReadyStrip s)
    (hframes : ∀ samples ∈ frames, ∀ b, b < cSegNumBands → 0 ≤ samples b ∧ samples b ≤ 1023)
    (hk : (k : Int) ≤ s.segMaxDefinedIndex) (hlive : (s.SegmentData k).segNumLEDs ≥ 0)
    (hceil : (s.SegmentData k).segMaxLevel = 1023) (ha0 : 0 ≤ a) (ha1 : a < 1023) :
    (∃ s2, mapFrames Target.due s frames = some s2 ∧ (s2.SegmentData k).segMaxLevel = 1023)
      ∧ updateMaxTotal 1023 1 1023 a = 1023
      ∧ normalise Target.due a (updateMaxTotal 1023 1 1023 a) = some a := by
  obtain ⟨s2, h2, hc2⟩ := frames_gainReady frames hframes s hs
  refine ⟨⟨s2, h2, hc2 k hk hlive hceil⟩, updateMaxTotal_default a (by omega), ?_⟩
  rw [updateMaxTotal_default a (by omega)]
  exact normalise_default a ha0 (by omega)

theorem gainReadyStrip_sample : GainReadyStrip sampleStrip := by
  refine ⟨rfl, rfl, by decide, fun k _ hlive => ?_⟩
  have hk : sampleStrip.SegmentData k
      = if k = 3 ∨ k = 4 then sampleSegment else freedSegment zeroSegment := rfl
  rw [hk] at hlive ⊢
  by_cases h : k = 3 ∨ k = 4
  · rw [if_pos h]
    exact ⟨by decide, Or.inl rfl, by decide, by decide⟩
  · rw [if_neg h] at hlive
    exact absurd hlive (by decide)

theorem sampleFrames_range :
    ∀ samples ∈ sampleFrames, ∀ b, b < cSegNumBands → 0 ≤ samples b ∧ samples b ≤ 1023 := by
  intro samples hmem b hb
  have hb7 : b < 7 := hb
  simp only [sampleFrames, List.mem_cons, List.mem_singleton, List.not_mem_nil, or_false]
    at hmem
  rcases hmem with rfl | rfl | rfl
  · exact ⟨by norm_num, by norm_num⟩
  · exact ⟨by norm_num, by norm_num⟩
  · constructor <;> simp only <;> omega

/-- An instance on the board with a 32-bit `int`: three frames on an object with
two live segments. -/
theorem default_ceiling_pinned_witness :
    (∃ s2, mapFrames Target.due sampleStrip sampleFrames = some s2
        ∧ (s2.SegmentData 3).segMaxLevel = 1023)
      ∧ updateMaxTotal 1023 1 1023 600 = 1023
      ∧ normalise Target.due 600 (updateMaxTotal 1023 1 1023 600) = some 600 :=
  default_ceiling_pinned sampleStrip sampleFrames 3 600 gainReadyStrip_sample
    sampleFrames_range (by decide) (by decide) (by decide) (by decide) (by decide)

/-! ## Rendering: a single segment filled from the bottom -/

theorem walkStep_bottom (t : Target) (s : LEDSegs) (g : SegLocals) (f : Int) (p : Nat)
    (hA : g.Action = cSegActionFromBottom) (hov : g.optOffOverwrite = true)
    (hsp : g.segSpacing1 = 1) (hlo : g.partStart ≤ f + p) (hhi : f + p ≤ g.partEnd)
    (hf0 : -32768 ≤ f + p) (hf1 : f + p + 1 ≤ 32767) :
    walkStep t s g
        { iLED := f + p, LEDIncrement := 1, SpacingCount := 0, bitsary := 0, bitscounter := 0,
          writes := bottomWrites f g.segval g.foreColor g.backColor p } p
      = some { iLED := f + (p + 1 : Nat), LEDIncrement := 1, SpacingCount := 0, bitsary := 0,
               bitscounter := 0,
               writes := bottomWrites f g.segval g.foreColor g.backColor (p + 1) } := by
  have hpos : positionColor t s g
      { iLED := f + p, LEDIncrement := 1, SpacingCount := 0, bitsary := 0, bitscounter := 0,
        writes := bottomWrites f g.segval g.foreColor g.backColor p } p
      = some (if g.segval > (p : Int) then g.foreColor else g.backColor) := by
    unfold positionColor
    rw [if_pos (Or.inl hA)]
  have hnb : g.Action ≠ cSegActionBits := by rw [hA]; decide
  have hnm : g.Action ≠ cSegActionFromMiddle := by rw [hA]; decide
  unfold walkStep
  simp only [decide_True, and_true]
  rw [if_pos ⟨hlo, hhi⟩, hpos]
  simp only [advanceBits, if_neg hnb, hov, or_true, if_true, advanceWalk, if_neg hnm, hsp]
  rw [toShort_eq (x := (1 : Int) - 1) (by norm_num) (by norm_num),
    toShort_eq (x := f + p + 1) (by omega) (by omega)]
  simp only [bottomWrites, List.range_succ, List.map_append, List.map_cons, List.map_nil,
    sub_self, Nat.cast_add, Nat.cast_one, add_assoc]

theorem walk_bottom (t : Target) (s : LEDSegs) (g : SegLocals) (f : Int)
    (hA : g.Action = cSegActionFromBottom) (hov : g.optOffOverwrite = true)
    (hsp : g.segSpacing1 = 1) (hf0 : -32768 ≤ f) :
    ∀ n : Nat, g.partStart ≤ f → f + n ≤ g.partEnd + 1 → f + n ≤ 32767 →
      (List.range n).foldlM (walkStep t s g)
          { iLED := f, LEDIncrement := 1, SpacingCount := 0, bitsary := 0, bitscounter := 0,
            writes := [] }
        = some { iLED := f + n, LEDIncrement := 1, SpacingCount := 0, bitsary := 0,
                 bitscounter := 0,
                 writes := bottomWrites f g.segval g.foreColor g.backColor n } := by
  intro n
  induction n with
  | zero =>
    intro _ _ _
    simp [bottomWrites]
  | succ n ih =>
    intro hlo hhi h32
    rw [foldlM_range_succ, ih hlo (by push_cast at hhi ⊢; omega) (by push_cast at h32 ⊢; omega),
      Option.some_bind]
    exact walkStep_bottom t s g f n hA hov hsp (by omega) (by push_cast at hhi; omega)
      (by omega) (by push_cast at h32; omega)

theorem readPart_zero (s : LEDSegs) : readPart s 0 = some (s.stripParts 0) := by
  unfold readPart
  rw [if_pos ⟨le_refl _, by decide⟩]
  rfl

/-- The calls of `setPixelColor` for a segment filled from the bottom in part 0
(the whole strip, forward), with spacing 0 and no option, that lies inside the
strip. -/
theorem showSegment_bottom (s : LEDSegs) (seg : stripSegment) (f n : Int)
    (hA : seg.segAction = cSegActionFromBottom) (hpart : seg.segPart = 0)
    (hsp : seg.segSpacing = 0) (hopt : seg.segOptions = 0)
    (hfirst : seg.segFirstLED = f) (hnum : seg.segNumLEDs = n)
    (hp0 : s.stripParts 0 = ⟨0, s.nLEDsInStrip, true⟩)
    (hf : 0 ≤ f) (hn : 0 ≤ n) (hfit : f + n ≤ s.nLEDsInStrip) (hN : s.nLEDsInStrip ≤ 32767) :
    showSegment Target.due s seg
      = some (bottomWrites f (litCount Target.due seg.segLevel n) seg.segForeColor
          seg.segBackColor n.toNat) := by
  have hb1 : bitSet 0 cSegOptModulateSegmentBit = false := by decide
  have hb0 : bitSet 0 cSegOptNoOffOverwriteBit = false := by decide
  have hstart : startWalk seg ⟨0, s.nLEDsInStrip, true⟩ = (f, 1) := by
    unfold startWalk startLED
    simp only [hA, hfirst, Bool.true_eq_false, and_false, if_false, true_or, if_true, add_zero]
    rw [toShort_eq (by omega) (by omega)]
  have hloc : segLocals Target.due s seg = some
      { partStart := 0, partEnd := toShort (0 + s.nLEDsInStrip - 1), Action := seg.segAction,
        segNumLEDs := seg.segNumLEDs, segval := litCount Target.due seg.segLevel seg.segNumLEDs,
        foreColor := seg.segForeColor, backColor := seg.segBackColor,
        optOffOverwrite := true, segSpacing1 := toShort (seg.segSpacing + 1),
        segRandomPattern := seg.segRandomPattern, segLevel := seg.segLevel,
        bits := seg.segBitsPtr.getD [0] } := by
    unfold segLocals
    rw [hpart, readPart_zero, hp0]
    simp only [hopt, hb1, hb0, Bool.not_false, Bool.false_eq_true, if_false, Option.map_some']
  unfold showSegment
  rw [hloc, hpart, readPart_zero, hp0]
  simp only [hstart, hnum]
  have hwalk := walk_bottom Target.due s
    { partStart := 0, partEnd := toShort (0 + s.nLEDsInStrip - 1), Action := seg.segAction,
      segNumLEDs := n, segval := litCount Target.due seg.segLevel n,
      foreColor := seg.segForeColor, backColor := seg.segBackColor,
      optOffOverwrite := true, segSpacing1 := toShort (seg.segSpacing + 1),
      segRandomPattern := seg.segRandomPattern, segLevel := seg.segLevel,
      bits := seg.segBitsPtr.getD [0] } f hA rfl
    (by simp only [hsp]; rw [toShort_eq (by norm_num) (by norm_num)]; norm_num) (by omega)
    n.toNat hf
    (by simp only; rw [toShort_eq (by omega) (by omega)]; omega) (by omega)
  rw [hwalk]
  rfl

/-- The pixel buffer after the calls `setPixelColor(f + k, c k)` for
`k = 0, ..., n - 1`. -/
theorem foldl_setPixelColor_range (f : Int) (c : Nat → Nat) :
    ∀ (n : Nat) (px : Int → Nat) (i : Int),
      ((List.range n).map (fun (k : Nat) => (f + (k : Int), c k))).foldl setPixelColor px i
        = if f ≤ i ∧ i < f + n then c (i - f).toNat else px i := by
  intro n
  induction n with
  | zero =>
    intro px i
    have : ¬ (f ≤ i ∧ i < f) := by omega
    simp [this]
  | succ n ih =>
    intro px i
    rw [List.range_succ, List.map_append, List.foldl_append]
    simp only [List.map_cons, List.map_nil, List.foldl_cons, List.foldl_nil, setPixelColor]
    by_cases hi : i = f + n
    · subst hi
      have : f ≤ f + (n : Int) ∧ f + (n : Int) < f + ((n + 1 : Nat) : Int) := by
        push_cast; omega
      simp [this]
    · rw [Function.update_noteq hi, ih px i]
      by_cases h1 : f ≤ i ∧ i < f + n
      · have : f ≤ i ∧ i < f + ((n + 1 : Nat) : Int) := by push_cast; omega
        rw [if_pos h1, if_pos this]
      · have : ¬ (f ≤ i ∧ i < f + ((n + 1 : Nat) : Int)) := by push_cast; omega
        rw [if_neg h1, if_neg this]

/-- The loop that calls the display routines does nothing when no segment up to
the highest defined index has a display routine. -/
theorem callDisplayRoutines_none (run : Nat → Int → LEDSegs → LEDSegs) (s : LEDSegs)
    (hmax : s.segMaxDefinedIndex < cMaxSegments)
    (hno : ∀ i : Nat, (i : Int) ≤ s.segMaxDefinedIndex →
      (s.SegmentData i).segDisplayRoutine = none) :
    ∀ (fuel i : Nat), (s.segMaxDefinedIndex + 1 - i).toNat + 1 ≤ fuel →
      callDisplayRoutines run fuel (i : Int) s = some s := by
  intro fuel
  induction fuel with
  | zero => intro i h; omega
  | succ fuel ih =>
    intro i h
    unfold callDisplayRoutines
    by_cases hi : (i : Int) ≤ s.segMaxDefinedIndex
    · have hiM : i < cMaxSegments := by omega
      rw [if_pos hi, readSegment_nat s i hiM]
      simp only [hno i hi]
      have hcM : cMaxSegments = 100 := rfl
      rw [toShort_eq (by omega) (by omega)]
      exact_mod_cast ih (i + 1) (by push_cast; omega)
    · rw [if_neg hi]

/-- The loop over the segments of `ShowSegments` when the segment `j` is the
only one with an action up to the highest defined index. -/
theorem showLoop_single (t : Target) (s : LEDSegs) (j : Nat) (ws : List (Int × Nat))
    (hj : (j : Int) ≤ s.segMaxDefinedIndex)
    (hseg : showSegment t s (s.SegmentData j) = some ws)
    (hact : (s.SegmentData j).segAction ≠ cSegActionNone)
    (hothers : ∀ i : Nat, (i : Int) ≤ s.segMaxDefinedIndex → i ≠ j →
      (s.SegmentData i).segAction = cSegActionNone)
    (init : List (Int × Nat)) :
    ∀ n : Nat, n ≤ cMaxSegments → (n : Int) ≤ s.segMaxDefinedIndex + 1 →
      (List.range n).foldlM (showStep t s) init
        = some (init ++ (if j < n then ws else [])) := by
  intro n
  induction n with
  | zero => intro _ _; simp
  | succ n ih =>
    intro hn hmax
    rw [foldlM_range_succ, ih (by omega) (by push_cast at hmax ⊢; omega), Option.some_bind]
    unfold showStep
    rw [readSegment_nat s n (by omega)]
    simp only
    by_cases hnj : n = j
    · subst hnj
      rw [if_pos hact, hseg]
      simp
    · rw [if_neg (by rw [hothers n (by push_cast at hmax; omega) hnj]; simp)]
      by_cases hjn : j < n
      · simp [hjn, Nat.lt_succ_of_lt hjn]
      · have : ¬ j < n + 1 := by omega
        simp [hjn, this]

set_option maxRecDepth 100000 in
/-- The scenario of the specification evaluated: after `ShowSegments` the LEDs
0..4 hold the foreground color (red), the LEDs 5..9 the background color and
the LEDs 10 and 11 `RGBOff`. -/
theorem scenario_frame :
    (ShowSegments Target.due (fun _ _ st => st) scenarioStrip).map
        (fun st => (List.range 12).map (fun (i : Nat) => st.pixels (i : Int)))
      = some [Color 127 0 0, Color 127 0 0, Color 127 0 0, Color 127 0 0, Color 127 0 0,
          RGBOff, RGBOff, RGBOff, RGBOff, RGBOff, RGBOff, RGBOff] := by
  decide

/-- C4: when the segment `j` is the only segment with an action, it is filled
from the bottom in part 0 (the whole strip, forward), with first LED `f ≥ 0`,
count `n`, spacing 0, no option and `f + n` at most the strip length, and no
segment has a display routine, then `ShowSegments` leaves every LED `i` of the
strip with `f ≤ i < f + n` at the foreground color if `i - f < lit` and at the
background color otherwise, and every other LED of the strip at `RGBOff`; the
lit count for level 512 and count 10 is 5, and in the scenario
`DefineSegment(0, 10, cSegActionFromBottom, RGBRed, cSegBand2)` with level 512 the
LEDs 0..4 end at the foreground color and the LEDs 5..9 at the background color
(`RGBOff`, the default). -/
theorem single_bottom_segment_frame (run : Nat → Int → LEDSegs → LEDSegs) (s : LEDSegs)
    (j : Nat) (f n : Int) (i : Int)
    (hmax : s.segMaxDefinedIndex < cMaxSegments) (hj : (j : Int) ≤ s.segMaxDefinedIndex)
    (hno : ∀ k : Nat, (k : Int) ≤ s.segMaxDefinedIndex →
      (s.SegmentData k).segDisplayRoutine = none)
    (hothers : ∀ k : Nat, (k : Int) ≤ s.segMaxDefinedIndex → k ≠ j →
      (s.SegmentData k).segAction = cSegActionNone)
    (hA : (s.SegmentData j).segAction = cSegActionFromBottom)
    (hpart : (s.SegmentData j).segPart = 0)
    (hsp : (s.SegmentData j).segSpacing = 0) (hopt : (s.SegmentData j).segOptions = 0)
    (hfirst : (s.SegmentData j).segFirstLED = f) (hnum : (s.SegmentData j).segNumLEDs = n)
    (hp0 : s.stripParts 0 = ⟨0, s.nLEDsInStrip, true⟩)
    (hf : 0 ≤ f) (hn : 0 ≤ n) (hfit : f + n ≤ s.nLEDsInStrip) (hN : s.nLEDsInStrip ≤ 32767)
    (hi0 : 0 ≤ i) (hi1 : i < s.nLEDsInStrip) :
    (∃ s2, ShowSegments Target.due run s = some s2
        ∧ s2.pixels i =
            if f ≤ i ∧ i < f + n then
              (if i - f < litCount Target.due (s.SegmentData j).segLevel n
                then (s.SegmentData j).segForeColor else (s.SegmentData j).segBackColor)
            else RGBOff)
      ∧ litCount Target.due 512 10 = 5
      ∧ (ShowSegments Target.due (fun _ _ st => st) scenarioStrip).map
          (fun st => (List.range 12).map (fun (i : Nat) => st.pixels (i : Int)))
        = some [Color 127 0 0, Color 127 0 0, Color 127 0 0, Color 127 0 0, Color 127 0 0,
            RGBOff, RGBOff, RGBOff, RGBOff, RGBOff, RGBOff, RGBOff] := by
  refine ⟨?_, by decide, scenario_frame⟩
  have hhooks := callDisplayRoutines_none run s hmax hno (cMaxSegments + 1) 0 (by omega)
  have hseg := showSegment_bottom s (s.SegmentData j) f n hA hpart hsp hopt hfirst hnum hp0
    hf hn hfit hN
  have hloop := showLoop_single Target.due s j _ hj hseg (by rw [hA]; decide) hothers
    (clearWrites s) (s.segMaxDefinedIndex + 1).toNat (by omega) (by omega)
  rw [if_pos (by omega)] at hloop
  have hshow : ShowSegments Target.due run s = some { s with
      pixels := (clearWrites s ++ bottomWrites f
        (litCount Target.due (s.SegmentData j).segLevel n) (s.SegmentData j).segForeColor
        (s.SegmentData j).segBackColor n.toNat).foldl setPixelColor s.pixels } := by
    unfold ShowSegments
    simp only [Nat.cast_zero] at hhooks
    rw [hhooks]
    simp only
    unfold stripWrites
    rw [hloop]
  refine ⟨_, hshow, ?_⟩
  · simp only [List.foldl_append, clearWrites, bottomWrites]
    have hclear := foldl_setPixelColor_range 0 (fun _ => RGBOff) s.nLEDsInStrip.toNat s.pixels
    simp only [zero_add] at hclear
    rw [foldl_setPixelColor_range f
      (fun k => if litCount Target.due (s.SegmentData j).segLevel n > (k : Int)
        then (s.SegmentData j).segForeColor else (s.SegmentData j).segBackColor)
      n.toNat, hclear i]
    have e1 : ((n.toNat : Nat) : Int) = n := by omega
    have e2 : ((s.nLEDsInStrip.toNat : Nat) : Int) = s.nLEDsInStrip := by omega
    rw [e1, e2]
    by_cases hin : f ≤ i ∧ i < f + n
    · rw [if_pos hin, if_pos hin]
      have e3 : (((i - f).toNat : Nat) : Int) = i - f := by omega
      simp only [e3, gt_iff_lt]
    · rw [if_neg hin, if_neg hin, if_pos ⟨hi0, by omega⟩]

/-- Witness of C4, the scenario `DefineSegment(0, 10, cSegActionFromBottom, RGBRed,
cSegBand2)` with level 512, at LED 3. -/
theorem single_bottom_segment_frame_witness :
    (∃ s2, ShowSegments Target.due (fun _ _ st => st) scenarioStrip = some s2
        ∧ s2.pixels 3 =
            if (0 : Int) ≤ 3 ∧ (3 : Int) < 0 + 10 then
              (if (3 : Int) - 0 < litCount Target.due (scenarioStrip.SegmentData 0).segLevel 10
                then (scenarioStrip.SegmentData 0).segForeColor
                else (scenarioStrip.SegmentData 0).segBackColor)
            else RGBOff)
      ∧ litCount Target.due 512 10 = 5
      ∧ (ShowSegments Target.due (fun _ _ st => st) scenarioStrip).map
          (fun st => (List.range 12).map (fun (i : Nat) => st.pixels (i : Int)))
        = some [Color 127 0 0, Color 127 0 0, Color 127 0 0, Color 127 0 0, Color 127 0 0,
            RGBOff, RGBOff, RGBOff, RGBOff, RGBOff, RGBOff, RGBOff] :=
  single_bottom_segment_frame (fun _ _ st => st) scenarioStrip 0 0 10 3 (by decide) (by decide)
    (fun k hk => by
      have h0 : k = 0 := by
        have : (k : Int) ≤ 0 := hk
        omega
      subst h0
      rfl)
    (fun k hk hne => by
      have : (k : Int) ≤ 0 := hk
      omega)
    rfl rfl rfl rfl rfl rfl rfl (by decide) (by decide) (by decide) (by decide) (by decide)
    (by decide)

/-! ## The segment store: the record that `DefineSegment` writes -/

theorem constrain_part (x : Int) :
    constrain x 0 (cMaxParts - 1) ≥ 0 ∧ constrain x 0 (cMaxParts - 1) < cMaxParts := by
  unfold constrain cMaxParts
  split_ifs <;> omega

theorem modifySegment_cur (s : LEDSegs) (k : Nat) (hk : k < cMaxSegments)
    (hcur : s.segCurrentIndex = (k : Int)) (f : stripSegment → stripSegment) :
    modifySegment s s.segCurrentIndex f = some (withSegment s k (f (s.SegmentData k))) := by
  rw [hcur]
  exact modifySegment_nat s k hk f

theorem defineProperties_record (s : LEDSegs) (k : Nat) (hk : k < cMaxSegments)
    (hcur : s.segCurrentIndex = (k : Int))
    (FirstLED nLEDs Action : Int) (ForeColor : Nat) (Bands PartIndex : Int)
    (hn0 : 0 ≤ nLEDs) (hn1 : nLEDs ≤ s.nLEDsInStrip) (ha : 0 ≤ Action) :
    defineProperties s FirstLED nLEDs Action ForeColor Bands PartIndex
      = some (withSegment s k
          { s.SegmentData k with
            segPart := constrain PartIndex 0 (cMaxParts - 1)
            segFirstLED := FirstLED
            segNumLEDs := nLEDs
            segAction := Action
            segForeColor := ForeColor
            segBands := Bands
            segMaxLevel := s.stripMaxLevelFloor }) := by
  have hcur2 : ∀ g, (withSegment s k g).segCurrentIndex = (k : Int) := fun g => hcur
  unfold defineProperties SetSegment_Part SetSegment_FirstLED SetSegment_NumLEDs
    SetSegment_Action SetSegment_ForeColor SetSegment_Bands
  rw [if_pos (constrain_part PartIndex), modifySegment_cur s k hk hcur, Option.some_bind,
    modifySegment_cur _ k hk (hcur2 _), Option.some_bind, withSegment_withSegment,
    if_pos (show nLEDs ≥ 0 ∧ nLEDs ≤ (withSegment s k _).nLEDsInStrip from ⟨hn0, hn1⟩),
    modifySegment_cur _ k hk (hcur2 _), Option.some_bind, withSegment_withSegment,
    if_pos (show Action ≥ 0 from ha),
    modifySegment_cur _ k hk (hcur2 _), Option.some_bind, withSegment_withSegment,
    modifySegment_cur _ k hk (hcur2 _), Option.some_bind, withSegment_withSegment,
    modifySegment_cur _ k hk (hcur2 _), withSegment_withSegment]
  simp [withSegment]

theorem defineDefaults_record (s : LEDSegs) (k : Nat) (hk : k < cMaxSegments)
    (hcur : s.segCurrentIndex = (k : Int)) :
    defineDefaults s
      = some (withSegment s k
          { s.SegmentData k with
            segBackColor := RGBOff
            segSpacing := 0
            segOptions := 0
            segDisplayRoutine := none
            segBitsPtr := none
            segRandomPattern := 0
            segPersistUp := 0
            segPersistDown := 0 }) := by
  have hcur2 : ∀ g, (withSegment s k g).segCurrentIndex = (k : Int) := fun g => hcur
  unfold defineDefaults SetSegment_BackColor SetSegment_Spacing SetSegment_Options
    SetSegment_DisplayRoutine SetSegment_BitsPtr SetSegment_RandomPattern
    SetSegment_Persistence
  rw [modifySegment_cur s k hk hcur, Option.some_bind,
    if_pos (show (0 : Int) ≥ 0 by decide),
    modifySegment_cur _ k hk (hcur2 _), Option.some_bind, withSegment_withSegment,
    if_pos (show (0 : Int) ≥ 0 by decide),
    modifySegment_cur _ k hk (hcur2 _), Option.some_bind, withSegment_withSegment,
    modifySegment_cur _ k hk (hcur2 _), Option.some_bind, withSegment_withSegment,
    modifySegment_cur _ k hk (hcur2 _), Option.some_bind, withSegment_withSegment,
    if_pos (show (0 : Int) ≥ 0 by decide),
    modifySegment_cur _ k hk (hcur2 _), Option.some_bind, withSegment_withSegment,
    modifySegment_cur _ k hk (hcur2 _), withSegment_withSegment]
  simp [withSegment, cSegNRandomMask]

theorem defineBody_record (s1 : LEDSegs) (k : Nat) (hk : k < cMaxSegments)
    (hcur : s1.segCurrentIndex = (k : Int))
    (FirstLED nLEDs Action : Int) (ForeColor : Nat) (Bands PartIndex : Int)
    (hn0 : 0 ≤ nLEDs) (hn1 : nLEDs ≤ s1.nLEDsInStrip) (ha : 0 ≤ Action) :
    ((defineProperties s1 FirstLED nLEDs Action ForeColor Bands PartIndex).bind fun s2 =>
        (defineDefaults s2).bind fun s3 =>
        (modifySegment s3 (k : Int) (fun g => { g with segRescaleAry := none })).bind fun s4 =>
        (modifySegment s4 (k : Int) (fun g => { g with segLevel := 0 })).bind fun s5 =>
        some (s5, s5.segCurrentIndex))
      = some (withSegment s1 k
                (definedSegment s1.stripMaxLevelFloor FirstLED nLEDs Action ForeColor Bands
                  PartIndex),
              (k : Int)) := by
  have hcur2 : ∀ g, (withSegment s1 k g).segCurrentIndex = (k : Int) := fun g => hcur
  rw [defineProperties_record s1 k hk hcur FirstLED nLEDs Action ForeColor Bands PartIndex hn0
      hn1 ha, Option.some_bind,
    defineDefaults_record _ k hk (hcur2 _), Option.some_bind, withSegment_withSegment,
    modifySegment_nat _ k hk, Option.some_bind, withSegment_withSegment,
    modifySegment_nat _ k hk, Option.some_bind, withSegment_withSegment]
  simp [withSegment, definedSegment, hcur]

/-- `DefineSegment` at a slot `k` that it found, for a count that
`SetSegment_NumLEDs` accepts and an action that `SetSegment_Action` accepts: the
record of slot `k` is `definedSegment`. -/
theorem defineAt_record (s : LEDSegs) (k : Nat) (hk : k < cMaxSegments)
    (FirstLED nLEDs Action : Int) (ForeColor : Nat) (Bands PartIndex : Int)
    (hn0 : 0 ≤ nLEDs) (hn1 : nLEDs ≤ s.nLEDsInStrip) (ha : 0 ≤ Action) :
    defineAt s (k : Int) FirstLED nLEDs Action ForeColor Bands PartIndex
      = some (withSegment { s with segCurrentIndex := (k : Int),
                                   segMaxDefinedIndex := max s.segMaxDefinedIndex (k : Int) } k
                (definedSegment s.stripMaxLevelFloor FirstLED nLEDs Action ForeColor Bands
                  PartIndex),
              (k : Int)) :=
  defineBody_record { s with segCurrentIndex := (k : Int),
                             segMaxDefinedIndex := max s.segMaxDefinedIndex (k : Int) } k hk rfl
    FirstLED nLEDs Action ForeColor Bands PartIndex hn0 hn1 ha

/-- The outcome of `DefineSegment` when the current index is inside the segment
array and some slot is free, for a count and an action that the setters accept:
the slot found holds `definedSegment` and every other record is unchanged. -/
theorem DefineSegment_record (s : LEDSegs) (FirstLED nLEDs Action : Int) (ForeColor : Nat)
    (Bands PartIndex : Int) (hc0 : 0 ≤ s.segCurrentIndex)
    (hc1 : s.segCurrentIndex < cMaxSegments)
    (hfree : ∃ k, k < cMaxSegments ∧ isFreeSlot s k)
    (hn0 : 0 ≤ nLEDs) (hn1 : nLEDs ≤ s.nLEDsInStrip) (ha : 0 ≤ Action) :
    ∃ i, i < cMaxSegments ∧ isFreeSlot s i
      ∧ DefineSegment s FirstLED nLEDs Action ForeColor Bands PartIndex
          = some (withSegment { s with segCurrentIndex := (i : Int),
                                       segMaxDefinedIndex := max s.segMaxDefinedIndex (i : Int) } i
                    (definedSegment s.stripMaxLevelFloor FirstLED nLEDs Action ForeColor Bands
                      PartIndex),
                  (i : Int)) := by
  rcases findFreeSlot_spec s hc0 hc1 cMaxSegments 0 (by omega) with
    ⟨-, h2⟩ | ⟨k, -, hk2, hk3, hk4, -⟩
  · obtain ⟨k, hk, hkf⟩ := hfree
    obtain ⟨j, hj1, hj2⟩ := scanSlot_surj s.segCurrentIndex k hk
    exact absurd (hj2 ▸ hkf) (h2 j (Nat.zero_le _) hj1)
  · refine ⟨scanSlot s.segCurrentIndex k, scanSlot_lt _ _, hk4, ?_⟩
    unfold DefineSegment
    rw [hk3]
    exact defineAt_record s _ (scanSlot_lt _ _) FirstLED nLEDs Action ForeColor Bands PartIndex
      hn0 hn1 ha

/-- C11 (amended): when the current index is inside the segment array and some
slot is free (the condition under which `DefineSegment` succeeds), for every
first LED, every count `n` with `0 ≤ n ≤ nLEDsInStrip` and every action from
`cSegActionNone` up (so every action in `cSegActionNone .. cSegActionBits`),
`DefineSegment` returns an index `i` of the
array whose slot was free, after it slot `i` holds exactly the record
`definedSegment` (the arguments, the part index clamped to `[0, cMaxParts - 1]`,
and the default in every other field, the adaptive ceiling being the current
strip floor), so no field keeps an earlier value; every other slot is
unchanged. -/
theorem define_segment_fields (s : LEDSegs) (FirstLED nLEDs Action : Int) (ForeColor : Nat)
    (Bands PartIndex : Int) (hc0 : 0 ≤ s.segCurrentIndex)
    (hc1 : s.segCurrentIndex < cMaxSegments)
    (hfree : ∃ k, k < cMaxSegments ∧ isFreeSlot s k)
    (hn0 : 0 ≤ nLEDs) (hn1 : nLEDs ≤ s.nLEDsInStrip)
    (ha0 : cSegActionNone ≤ Action) :
    ∃ (s2 : LEDSegs) (i : Nat), i < cMaxSegments ∧ isFreeSlot s i
      ∧ DefineSegment s FirstLED nLEDs Action ForeColor Bands PartIndex = some (s2, (i : Int))
      ∧ s2.SegmentData i
          = definedSegment s.stripMaxLevelFloor FirstLED nLEDs Action ForeColor Bands PartIndex
      ∧ ∀ j, j ≠ i → s2.SegmentData j = s.SegmentData j := by
  obtain ⟨i, hi, hf, hdef⟩ := DefineSegment_record s FirstLED nLEDs Action ForeColor Bands
    PartIndex hc0 hc1 hfree hn0 hn1 ha0
  refine ⟨_, i, hi, hf, hdef, ?_, fun j hj => ?_⟩
  · simp [withSegment]
  · simp [withSegment, Function.update_noteq hj]

/-- Witness of C11: in the object with the slots 3 and 4 taken and the current
index 3, `DefineSegment(20, 160, cSegActionBits, RGBRed, 0x06, 25)` (the count
is the strip length, the part index is clamped to 19). -/
theorem define_segment_fields_witness :
    ∃ (s2 : LEDSegs) (i : Nat), i < cMaxSegments ∧ isFreeSlot sampleStrip i
      ∧ DefineSegment sampleStrip 20 160 cSegActionBits (Color 127 0 0) 0x06 25
          = some (s2, (i : Int))
      ∧ s2.SegmentData i
          = definedSegment sampleStrip.stripMaxLevelFloor 20 160 cSegActionBits (Color 127 0 0)
              0x06 25
      ∧ ∀ j, j ≠ i → s2.SegmentData j = sampleStrip.SegmentData j :=
  define_segment_fields sampleStrip 20 160 cSegActionBits (Color 127 0 0) 0x06 25
    (by decide) (by decide) ⟨0, by decide, by decide⟩ (by decide) (by decide) (by decide)

/-- Counterexample to C11 as stated: after `ResetStrip` on a strip of 160 LEDs,
`DefineSegment(0, 161, cSegActionFromBottom, RGBRed, cSegBand2)` returns 0 and
stores the action, but the count of slot 0 is still -1, not 161
(`SetSegment_NumLEDs` ignores a count above the strip length). -/
theorem define_segment_count_counterexample :
    firstDefine 161 = some (0, -1, cSegActionFromBottom) := by
  decide

/-! ## The segment store: slot reuse after `ResetSegment` -/

/-- C12: for every index `i` in `[0, cMaxSegments)`, `ResetSegment(i)` leaves slot
`i` free (action `cSegActionNone` and count below 0) and leaves the record of
every other slot unchanged (so its action and count), and `SetSegmentIndex(i)`
followed by `DefineSegment` returns `i` again. -/
theorem reset_segment_reuse (s : LEDSegs) (i : Nat) (hi : i < cMaxSegments)
    (FirstLED nLEDs Action : Int) (ForeColor : Nat) (Bands PartIndex : Int) :
    ∃ s1, ResetSegment s (i : Int) = some s1
      ∧ isFreeSlot s1 i
      ∧ (∀ j, j ≠ i → s1.SegmentData j = s.SegmentData j)
      ∧ ∃ s2, DefineSegment (SetSegmentIndex s1 (i : Int)) FirstLED nLEDs Action ForeColor
          Bands PartIndex = some (s2, (i : Int)) := by
  obtain ⟨m, hm⟩ := ResetSegment_nat s i hi
  have hidx : constrain (i : Int) 0 (cMaxSegments - 1) = (i : Int) := by
    unfold constrain cMaxSegments at *
    split_ifs <;> omega
  refine ⟨_, hm, ?_, fun j hj => ?_, ?_⟩
  · simp [isFreeSlot, withSegment, freedSegment, cSegActionNone]
  · simp [withSegment, Function.update_noteq hj]
  · have hcur : (SetSegmentIndex { withSegment s i (freedSegment (s.SegmentData i)) with
          segMaxDefinedIndex := m, segCurrentIndex := -1 } (i : Int)).segCurrentIndex
        = (i : Int) := by
      simp only [SetSegmentIndex, hidx]
    obtain ⟨s2, hs2⟩ := DefineSegment_current_free
      (SetSegmentIndex { withSegment s i (freedSegment (s.SegmentData i)) with
          segMaxDefinedIndex := m, segCurrentIndex := -1 } (i : Int))
      FirstLED nLEDs Action ForeColor Bands PartIndex
      (by rw [hcur]; omega) (by rw [hcur]; exact_mod_cast hi)
      (by rw [hcur]; simp [isFreeSlot, SetSegmentIndex, withSegment, freedSegment,
            cSegActionNone])
    exact ⟨s2, by rw [hs2, hcur]⟩

/-- Witness of C12: slot 4 of the sample object, which is defined, is freed and
defined again. -/
theorem reset_segment_reuse_witness :
    ∃ s1, ResetSegment sampleStrip ((4 : Nat) : Int) = some s1
      ∧ isFreeSlot s1 4
      ∧ (∀ j, j ≠ 4 → s1.SegmentData j = sampleStrip.SegmentData j)
      ∧ ∃ s2, DefineSegment (SetSegmentIndex s1 ((4 : Nat) : Int)) 0 10 cSegActionFromBottom
          (Color 127 0 0) 0x02 0 = some (s2, ((4 : Nat) : Int)) :=
  reset_segment_reuse sampleStrip 4 (by decide) 0 10 cSegActionFromBottom (Color 127 0 0) 0x02 0

/-! ## The timers: `DefineTimer` -/

theorem modifyTimer_nat (b : Board) (k : Nat) (hk : k < cMaxTimers) (f : LEDTimer → LEDTimer) :
    modifyTimer b (k : Int) f = some (withTimer b k (f (b.strip.Timers k))) := by
  unfold modifyTimer withTimer
  rw [if_pos ⟨by omega, by exact_mod_cast hk⟩]
  simp

theorem withTimer_withTimer (b : Board) (i : Nat) (x y : LEDTimer) :
    withTimer (withTimer b i x) i y = withTimer b i y := by
  simp [withTimer]

theorem findFreeTimer_spec (b : Board) :
    ∀ n i : Nat, i + n = cMaxTimers →
      (findFreeTimer b n i = none ∧ ∀ j, i ≤ j → j < cMaxTimers → ¬ isFreeTimer b j)
      ∨ ∃ k, i ≤ k ∧ k < cMaxTimers ∧ findFreeTimer b n i = some k ∧ isFreeTimer b k
          ∧ ∀ j, i ≤ j → j < k → ¬ isFreeTimer b j := by
  intro n
  induction n with
  | zero =>
    intro i hi
    left
    exact ⟨rfl, fun j hj1 hj2 => by omega⟩
  | succ n ih =>
    intro i hi
    unfold findFreeTimer
    by_cases hfree : isFreeTimer b i
    · right
      have hfree2 := hfree
      unfold isFreeTimer at hfree2
      rw [if_pos hfree2]
      exact ⟨i, le_refl _, by omega, rfl, hfree, fun j hj1 hj2 => by omega⟩
    · have hfree2 := hfree
      unfold isFreeTimer at hfree2
      rw [if_neg hfree2]
      rcases ih (i + 1) (by omega) with ⟨h1, h2⟩ | ⟨k, hk1, hk2, hk3, hk4, hk5⟩
      · left
        refine ⟨h1, fun j hj1 hj2 => ?_⟩
        rcases Nat.eq_or_lt_of_le hj1 with rfl | hlt
        · exact hfree
        · exact h2 j hlt hj2
      · right
        refine ⟨k, by omega, hk2, hk3, hk4, fun j hj1 hj2 => ?_⟩
        rcases Nat.eq_or_lt_of_le hj1 with rfl | hlt
        · exact hfree
        · exact hk5 j hlt hj2

/-- The body of `DefineTimer` at the slot `h` that the search found. -/
theorem defineTimer_at (b : Board) (h : Nat) (hh : h < cMaxTimers)
    (expirationMS repeatMS : Nat) (timerSub ptr : Option Nat) :
    ((SetTimerExpiration b (h : Int) expirationMS).bind fun b1 =>
      (SetTimerRepeat b1 (h : Int) repeatMS).bind fun b2 =>
      (modifyTimer b2 (h : Int)
        (fun x => { x with timerSub := timerSub, timerPtr := ptr })).map fun b3 =>
      (b3, (h : Int)))
      = some (withTimer b h ⟨toULong (expirationMS + b.millis), repeatMS, timerSub, ptr⟩,
              (h : Int)) := by
  unfold SetTimerExpiration SetTimerRepeat
  rw [modifyTimer_nat b h hh, Option.some_bind, modifyTimer_nat _ h hh, Option.some_bind,
    modifyTimer_nat _ h hh, withTimer_withTimer, withTimer_withTimer]
  simp [withTimer]

/-- The two outcomes of `DefineTimer`: every timer `1 .. cMaxTimers - 1` is armed,
the state is unchanged and 0 is returned; or the free timer with the smallest
index is set up and its index is returned. -/
theorem DefineTimer_spec (b : Board) (expirationMS repeatMS : Nat)
    (timerSub ptr : Option Nat) :
    (DefineTimer b expirationMS repeatMS timerSub ptr = some (b, 0)
        ∧ ∀ k, 1 ≤ k → k < cMaxTimers → ¬ isFreeTimer b k)
      ∨ ∃ h, 1 ≤ h ∧ h < cMaxTimers ∧ isFreeTimer b h
          ∧ (∀ j, 1 ≤ j → j < h → ¬ isFreeTimer b j)
          ∧ DefineTimer b expirationMS repeatMS timerSub ptr
              = some (withTimer b h
                        ⟨toULong (expirationMS + b.millis), repeatMS, timerSub, ptr⟩,
                      (h : Int)) := by
  rcases findFreeTimer_spec b (cMaxTimers - 1) 1 (by decide) with
    ⟨h1, h2⟩ | ⟨k, hk1, hk2, hk3, hk4, hk5⟩
  · left
    refine ⟨?_, h2⟩
    unfold DefineTimer
    rw [h1]
  · right
    refine ⟨k, hk1, hk2, hk4, hk5, ?_⟩
    unfold DefineTimer
    rw [hk3]
    exact defineTimer_at b k hk2 expirationMS repeatMS timerSub ptr

/-- C14: `DefineTimer` always returns; it returns 0 if and only if every timer
with a handle in `1 .. cMaxTimers - 1` is armed (expiration not 0), and when it
returns 0 the state, so the timer table, is unchanged. -/
theorem define_timer_full (b : Board) (offset rpt : Nat) (callback context : Option Nat) :
    ∃ (b2 : Board) (r : Int),
      DefineTimer b offset rpt callback context = some (b2, r)
        ∧ (r = 0 ↔ ∀ k, 1 ≤ k → k < cMaxTimers → ¬ isFreeTimer b k)
        ∧ (r = 0 → b2 = b) := by
  rcases DefineTimer_spec b offset rpt callback context with ⟨h1, h2⟩ | ⟨h, h1, h2, h3, -, h5⟩
  · exact ⟨_, _, h1, ⟨fun _ => h2, fun _ => rfl⟩, fun _ => rfl⟩
  · have hne : ((h : Nat) : Int) ≠ 0 := by omega
    exact ⟨_, _, h5, ⟨fun hr => absurd hr hne, fun hall => absurd h3 (hall h h1 h2)⟩,
      fun hr => absurd hr hne⟩

/-! ## The timers: one pass of `CheckTimers` seen from one timer -/

theorem callsOf_append (h : Nat) (xs ys : List TimerCall) :
    callsOf h (xs ++ ys) = callsOf h xs ++ callsOf h ys := by
  simp [callsOf]

theorem nextExpiration_pos (tm : LEDTimer) (now : Nat) (h : 0 < nextExpiration tm now) :
    0 < tm.timerExpiration := by
  unfold nextExpiration at h
  split at h
  · rename_i hc
    exact hc.1
  · omega

/-- One pass of the loop of `CheckTimers` (timer `i`), seen from the timer `h`,
when the routines leave timer `h` and the clock alone. -/
theorem checkTimer_slot (run : Nat → Int → Option Nat → Board → Board) (h : Nat)
    (hq : LeavesTimer h run) (b : Board) (log : List TimerCall) (hr : HasRoutines b)
    (i : Nat) (hi1 : 1 ≤ i) (hi2 : i < cMaxTimers) :
    ∃ b2 log2, checkTimer run (b, log) i = some (b2, log2)
      ∧ b2.millis = b.millis ∧ HasRoutines b2
      ∧ (i = h → b2.strip.Timers h = slotAfter (b.strip.Timers h) b.millis
            ∧ callsOf h log2 = callsOf h log ++ slotCalls (b.strip.Timers h) h b.millis)
      ∧ (i ≠ h → b2.strip.Timers h = b.strip.Timers h ∧ callsOf h log2 = callsOf h log) := by
  unfold checkTimer
  simp only []
  by_cases harm : (b.strip.Timers i).timerExpiration > 0
  · by_cases hdue : (b.strip.Timers i).timerExpiration ≤ b.millis
    · rw [if_pos harm, if_pos hdue]
      have hsub := hr i hi2 hi1 harm
      obtain ⟨r, hrsub⟩ := Option.ne_none_iff_exists'.mp hsub
      rw [hrsub]
      obtain ⟨hq1, hq2, hq3⟩ := hq r (i : Int) (b.strip.Timers i).timerPtr b
      refine ⟨_, _, rfl, hq2, ?_, ?_, ?_⟩
      · intro j hj2 hj1 hjarm
        by_cases hji : j = i
        · subst hji
          simp only [Function.update_same] at hjarm ⊢
          exact hq3 hr j hj2 hj1 (nextExpiration_pos _ _ hjarm)
        · simp only [Function.update_noteq hji] at hjarm ⊢
          exact hq3 hr j hj2 hj1 hjarm
      · intro hih
        subst hih
        constructor
        · simp only [Function.update_same, hq1, hq2]
          unfold slotAfter
          rw [if_pos ⟨harm, hdue⟩]
        · rw [callsOf_append]
          congr 1
          unfold slotCalls
          rw [if_pos ⟨harm, hdue⟩, hrsub]
          simp [callsOf]
      · intro hih
        constructor
        · simp only [Function.update_noteq (Ne.symm hih), hq1]
        · rw [callsOf_append]
          have : callsOf h [(⟨r, (i : Int), (b.strip.Timers i).timerPtr⟩ : TimerCall)] = [] := by
            simp only [callsOf, List.filter_cons, List.filter_nil]
            rw [if_neg]
            simp only [decide_eq_true_eq]
            omega
          rw [this, List.append_nil]
    · rw [if_pos harm, if_neg hdue]
      refine ⟨b, log, rfl, rfl, hr, fun hih => ?_, fun _ => ⟨rfl, rfl⟩⟩
      subst hih
      unfold slotAfter slotCalls
      rw [if_neg (fun hc => hdue hc.2), if_neg (fun hc => hdue hc.2)]
      simp
  · rw [if_neg harm]
    refine ⟨b, log, rfl, rfl, hr, fun hih => ?_, fun _ => ⟨rfl, rfl⟩⟩
    subst hih
    unfold slotAfter slotCalls
    rw [if_neg (fun hc => harm hc.1), if_neg (fun hc => harm hc.1)]
    simp

/-- The loop of `CheckTimers` after `n` passes, seen from the timer `h`. -/
theorem checkLoop_slot (run : Nat → Int → Option Nat → Board → Board) (h : Nat)
    (hq : LeavesTimer h run) (b : Board) (hr : HasRoutines b) :
    ∀ n : Nat, n ≤ cMaxTimers - 1 →
      ∃ b2 log, (List.range n).foldlM (fun st j => checkTimer run st (j + 1)) (b, [])
          = some (b2, log)
        ∧ b2.millis = b.millis ∧ HasRoutines b2
        ∧ (h ≤ n → 1 ≤ h → b2.strip.Timers h = slotAfter (b.strip.Timers h) b.millis
              ∧ callsOf h log = slotCalls (b.strip.Timers h) h b.millis)
        ∧ (¬ (h ≤ n ∧ 1 ≤ h) → b2.strip.Timers h = b.strip.Timers h ∧ callsOf h log = []) := by
  intro n
  induction n with
  | zero =>
    intro _
    refine ⟨b, [], rfl, rfl, hr, fun h0 h1 => by omega, fun _ => ⟨rfl, rfl⟩⟩
  | succ n ih =>
    intro hn
    obtain ⟨b1, log1, hfold, hm1, hr1, hdone, htodo⟩ := ih (by omega)
    obtain ⟨b2, log2, hstep, hm2, hr2, hsame, hother⟩ :=
      checkTimer_slot run h hq b1 log1 hr1 (n + 1) (by omega) (by unfold cMaxTimers at *; omega)
    rw [foldlM_range_succ, hfold, Option.some_bind, hstep]
    refine ⟨b2, log2, rfl, by rw [hm2, hm1], hr2, fun h0 h1 => ?_, fun hnot => ?_⟩
    · by_cases hlast : n + 1 = h
      · obtain ⟨e1, e2⟩ := hsame hlast
        obtain ⟨e3, e4⟩ := htodo (by omega)
        rw [e1, e2, e3, e4, hm1]
        simp
      · obtain ⟨e1, e2⟩ := hother hlast
        obtain ⟨e3, e4⟩ := hdone (by omega) h1
        rw [e1, e2, e3, e4]
        exact ⟨rfl, rfl⟩
    · have hlast : n + 1 ≠ h := by omega
      obtain ⟨e1, e2⟩ := hother hlast
      obtain ⟨e3, e4⟩ := htodo (by omega)
      rw [e1, e2, e3, e4]
      exact ⟨rfl, rfl⟩

/-- A pass of `CheckTimers` seen from the timer `h` (a handle in
`1 .. cMaxTimers - 1`), when every armed timer has a routine and the routines
leave timer `h` and the clock alone: the pass returns, timer `h` is as
`slotAfter` says and the calls with the index `h` are those of `slotCalls`. -/
theorem CheckTimers_slot (run : Nat → Int → Option Nat → Board → Board) (h : Nat)
    (hh1 : 1 ≤ h) (hh2 : h < cMaxTimers) (hq : LeavesTimer h run) (b : Board)
    (hr : HasRoutines b) :
    ∃ b2 log, CheckTimers run b = some (b2, log)
      ∧ b2.millis = b.millis ∧ HasRoutines b2
      ∧ b2.strip.Timers h = slotAfter (b.strip.Timers h) b.millis
      ∧ callsOf h log = slotCalls (b.strip.Timers h) h b.millis := by
  obtain ⟨b2, log, hfold, hm, hr2, hdone, -⟩ :=
    checkLoop_slot run h hq b hr (cMaxTimers - 1) (le_refl _)
  obtain ⟨e1, e2⟩ := hdone (by unfold cMaxTimers at *; omega) hh1
  exact ⟨b2, log, hfold, hm, hr2, e1, e2⟩

/-! ## The timers: one-shot and repeating timers -/

/-- C15: a one-shot timer (repeat 0) defined by `DefineTimer` at the clock `t0`
(the clock of `b0`) with the offset `d`, `0 < t0 + d < 2^32`, got the handle `h`.
On any later board `b` whose timer `h` is still as defined and whose armed
timers have routines, when no routine changes timer `h` or the clock, a pass of
`CheckTimers` returns; at a clock below `t0 + d` it makes no call for `h` and
leaves the slot unchanged; at a clock of `t0 + d` or more it calls the routine
exactly once, with the handle and the context, and leaves the slot free
(expiration 0), and then no later pass calls it again. -/
theorem one_shot_timer (run : Nat → Int → Option Nat → Board → Board) (b0 b1 : Board)
    (d r : Nat) (ctx : Option Nat) (h : Nat)
    (hdef : DefineTimer b0 d 0 (some r) ctx = some (b1, (h : Int))) (hh : h ≠ 0)
    (hpos : 0 < b0.millis + d) (hwrap : b0.millis + d < 4294967296)
    (hq : LeavesTimer h run) (b : Board) (hslot : b.strip.Timers h = b1.strip.Timers h)
    (hr : HasRoutines b) :
    ∃ b2 log, CheckTimers run b = some (b2, log)
      ∧ (b.millis < b0.millis + d →
          b2.strip.Timers h = b.strip.Timers h ∧ callsOf h log = [])
      ∧ (b0.millis + d ≤ b.millis →
          (b2.strip.Timers h).timerExpiration = 0 ∧ callsOf h log = [⟨r, (h : Int), ctx⟩]
            ∧ ∀ b3, b3.strip.Timers h = b2.strip.Timers h → HasRoutines b3 →
                ∃ b4 log2, CheckTimers run b3 = some (b4, log2) ∧ callsOf h log2 = []
                  ∧ b4.strip.Timers h = b3.strip.Timers h) := by
  have hrec : b1.strip.Timers h = ⟨b0.millis + d, 0, some r, ctx⟩ ∧ 1 ≤ h ∧ h < cMaxTimers := by
    rcases DefineTimer_spec b0 d 0 (some r) ctx with ⟨h1, -⟩ | ⟨k, hk1, hk2, -, -, hk5⟩
    · rw [h1] at hdef
      simp only [Option.some.injEq, Prod.mk.injEq] at hdef
      omega
    · rw [hk5] at hdef
      simp only [Option.some.injEq, Prod.mk.injEq] at hdef
      obtain ⟨hb, hkh⟩ := hdef
      have hkh2 : k = h := by omega
      subst hkh2
      refine ⟨?_, hk1, hk2⟩
      rw [← hb]
      simp only [withTimer, Function.update_same, toULong]
      rw [Nat.add_comm d, Nat.mod_eq_of_lt hwrap]
  obtain ⟨htm, hh1, hh2⟩ := hrec
  rw [← hslot] at htm
  obtain ⟨b2, log, hpass, -, -, hafter, hcalls⟩ := CheckTimers_slot run h hh1 hh2 hq b hr
  refine ⟨b2, log, hpass, fun hlt => ?_, fun hge => ?_⟩
  · rw [hafter, hcalls]
    unfold slotAfter slotCalls
    rw [htm]
    simp only []
    rw [if_neg (by omega), if_neg (by omega)]
    exact ⟨rfl, rfl⟩
  · have hexp : (b2.strip.Timers h).timerExpiration = 0 := by
      rw [hafter]
      unfold slotAfter nextExpiration
      rw [htm]
      simp only []
      rw [if_pos ⟨by omega, hge⟩]
      simp
    refine ⟨hexp, ?_, fun b3 hb3 hr3 => ?_⟩
    · rw [hcalls]
      unfold slotCalls
      rw [htm]
      simp only []
      rw [if_pos ⟨by omega, hge⟩]
    · obtain ⟨b4, log2, hpass2, -, -, hafter2, hcalls2⟩ :=
        CheckTimers_slot run h hh1 hh2 hq b3 hr3
      refine ⟨b4, log2, hpass2, ?_, ?_⟩
      · rw [hcalls2]
        unfold slotCalls
        rw [if_neg (by rw [hb3, hexp]; omega)]
      · rw [hafter2]
        unfold slotAfter
        rw [if_neg (by rw [hb3, hexp]; omega)]

theorem leavesTimer_idle (h : Nat) : LeavesTimer h idleRun :=
  fun _ _ _ _ => ⟨rfl, rfl, fun hr => hr⟩

/-- When timer 1 is free, `DefineTimer` sets it up and returns 1. -/
theorem DefineTimer_first (b : Board) (hfree : isFreeTimer b 1) (expirationMS repeatMS : Nat)
    (timerSub ptr : Option Nat) :
    DefineTimer b expirationMS repeatMS timerSub ptr
      = some (withTimer b 1 ⟨toULong (expirationMS + b.millis), repeatMS, timerSub, ptr⟩,
              ((1 : Nat) : Int)) := by
  have hfind : findFreeTimer b (cMaxTimers - 1) 1 = some 1 := by
    show findFreeTimer b (30 + 1) 1 = some 1
    unfold findFreeTimer
    unfold isFreeTimer at hfree
    rw [if_pos hfree]
  unfold DefineTimer
  rw [hfind]
  exact defineTimer_at b 1 (by decide) expirationMS repeatMS timerSub ptr

/-- Witness of C15: `DefineTimer(100, 0, routine 1)` at the clock 0 gets the handle
1; the pass at the clock 50 makes no call and leaves the timer as it is, the
pass at the clock 100 calls the routine once and frees the timer. -/
theorem one_shot_timer_witness :
    (∃ b2 log, CheckTimers idleRun (timerBoard 100 0 50) = some (b2, log)
        ∧ b2.strip.Timers 1 = (timerBoard 100 0 50).strip.Timers 1 ∧ callsOf 1 log = [])
      ∧ ∃ b2 log, CheckTimers idleRun (timerBoard 100 0 100) = some (b2, log)
        ∧ (b2.strip.Timers 1).timerExpiration = 0 ∧ callsOf 1 log = [⟨1, 1, none⟩] := by
  have hdef := DefineTimer_first emptyBoard (by decide) 100 0 (some 1) none
  constructor
  · obtain ⟨b2, log, hpass, hbefore, -⟩ :=
      one_shot_timer idleRun emptyBoard _ 100 1 none 1 hdef (by decide) (by decide) (by decide)
        (leavesTimer_idle 1) (timerBoard 100 0 50) (by decide) (by decide)
    exact ⟨b2, log, hpass, hbefore (by decide)⟩
  · obtain ⟨b2, log, hpass, -, hafter⟩ :=
      one_shot_timer idleRun emptyBoard _ 100 1 none 1 hdef (by decide) (by decide) (by decide)
        (leavesTimer_idle 1) (timerBoard 100 0 100) (by decide) (by decide)
    exact ⟨b2, log, hpass, (hafter (by decide)).1, (hafter (by decide)).2.1⟩

/-- C16: a repeating timer (repeat `rpt > 0`) with the handle `h` and the
expiration `e`, `0 < e ≤ now`, on a board whose armed timers have routines, when
no routine changes timer `h` or the clock, `e + rpt < 2^32` and `now + 1 < 2^32`:
a pass of `CheckTimers` at the clock `now` returns, calls the routine exactly
once (with the handle and the context) and sets the expiration to `e + rpt` if
that is later than `now` and to `now + 1` otherwise; the new expiration is later
than `now`, the repeat is kept. -/
theorem repeating_timer (run : Nat → Int → Option Nat → Board → Board) (b : Board) (h : Nat)
    (hh1 : 1 ≤ h) (hh2 : h < cMaxTimers) (e rpt r : Nat) (ctx : Option Nat)
    (hslot : b.strip.Timers h = ⟨e, rpt, some r, ctx⟩) (hrpt : 0 < rpt)
    (he0 : 0 < e) (he1 : e ≤ b.millis)
    (hw1 : e + rpt < 4294967296) (hw2 : b.millis + 1 < 4294967296)
    (hq : LeavesTimer h run) (hr : HasRoutines b) :
    ∃ b2 log, CheckTimers run b = some (b2, log)
      ∧ callsOf h log = [⟨r, (h : Int), ctx⟩]
      ∧ b2.strip.Timers h
          = ⟨if e + rpt > b.millis then e + rpt else b.millis + 1, rpt, some r, ctx⟩
      ∧ (b2.strip.Timers h).timerExpiration > b.millis
      ∧ b2.millis = b.millis := by
  obtain ⟨b2, log, hpass, hm, -, hafter, hcalls⟩ := CheckTimers_slot run h hh1 hh2 hq b hr
  have hrec : b2.strip.Timers h
      = ⟨if e + rpt > b.millis then e + rpt else b.millis + 1, rpt, some r, ctx⟩ := by
    rw [hafter]
    unfold slotAfter nextExpiration toULong
    rw [hslot]
    simp only []
    rw [if_pos ⟨he0, he1⟩, if_pos ⟨he0, hrpt⟩, Nat.mod_eq_of_lt hw1, Nat.mod_eq_of_lt hw2]
    by_cases hc : e + rpt > b.millis
    · rw [if_neg (by omega), if_pos hc]
    · rw [if_pos (by omega), if_neg hc]
  refine ⟨b2, log, hpass, ?_, hrec, ?_, hm⟩
  · rw [hcalls]
    unfold slotCalls
    rw [hslot]
    simp only []
    rw [if_pos ⟨he0, he1⟩]
  · rw [hrec]
    simp only []
    split_ifs <;> omega

/-- Witness of C16: the timer of `DefineTimer(100, 50, routine 1)` at the clock 0
is called once by the pass at the clock 100 and armed again for 150. -/
theorem repeating_timer_witness :
    ∃ b2 log, CheckTimers idleRun (timerBoard 100 50 100) = some (b2, log)
      ∧ callsOf 1 log = [⟨1, ((1 : Nat) : Int), none⟩]
      ∧ b2.strip.Timers 1
          = ⟨if 100 + 50 > (timerBoard 100 50 100).millis then 100 + 50
              else (timerBoard 100 50 100).millis + 1, 50, some 1, none⟩
      ∧ (b2.strip.Timers 1).timerExpiration > (timerBoard 100 50 100).millis
      ∧ b2.millis = (timerBoard 100 50 100).millis :=
  repeating_timer idleRun (timerBoard 100 50 100) 1 (by decide) (by decide) 100 50 1 none
    (by decide) (by decide) (by decide) (by decide) (by decide) (by decide)
    (leavesTimer_idle 1) (by decide)

/-! ## The timers: a routine that cancels its timer and defines a new one -/

/-- C17, the code at a failing input: timer 1 is a one-shot timer that expires
at the clock 100 and the pass runs at the clock 100.  Its routine cancels timer
1 and defines a new timer, which gets the free slot with the smallest index,
slot 1 again: when the routine returns, slot 1 holds the new timer (expiration
200).  `CheckTimers` then goes on with slot 1 as if it still held the timer that
fired: a new one-shot timer is freed (expiration 0), and a new repeating timer
(repeat 50) is moved from 200 to 250. -/
theorem callback_timer_lost :
    (rearmRun 100 0 1 1 none (timerBoard 100 0 100)).strip.Timers 1 = ⟨200, 0, some 1, none⟩
      ∧ passOutcome (rearmRun 100 0) (timerBoard 100 0 100)
          = some (⟨0, 0, some 1, none⟩, [⟨1, 1, none⟩])
      ∧ (rearmRun 100 50 1 1 none (timerBoard 100 0 100)).strip.Timers 1
          = ⟨200, 50, some 1, none⟩
      ∧ passOutcome (rearmRun 100 50) (timerBoard 100 0 100)
          = some (⟨250, 50, some 1, none⟩, [⟨1, 1, none⟩]) := by
  decide

/-! ## The timers: `CancelTimer` -/

/-- C18: `CancelTimer(h)` with `h ≤ 0` or `h ≥ cMaxTimers` leaves the state
unchanged; with `1 ≤ h < cMaxTimers` it sets the expiration and the repeat of
slot `h` to 0 (the slot is free) and leaves every other slot unchanged; a free
slot stays free; and a second `CancelTimer(h)` changes nothing more. -/
theorem cancel_timer_effect (b : Board) (h : Int) :
    ((h ≤ 0 ∨ h ≥ cMaxTimers) → CancelTimer b h = b)
      ∧ ((1 ≤ h ∧ h < cMaxTimers) →
          (CancelTimer b h).strip.Timers h.toNat
              = { b.strip.Timers h.toNat with
                  timerExpiration := 0, timerRepeat := 0, timerPtr := none }
            ∧ isFreeTimer (CancelTimer b h) h.toNat
            ∧ ∀ j, j ≠ h.toNat → (CancelTimer b h).strip.Timers j = b.strip.Timers j)
      ∧ (∀ j, isFreeTimer b j → isFreeTimer (CancelTimer b h) j)
      ∧ CancelTimer (CancelTimer b h) h = CancelTimer b h := by
  by_cases hin : h > 0 ∧ h < cMaxTimers
  · have hc : CancelTimer b h = withTimer b h.toNat
        { b.strip.Timers h.toNat with
          timerExpiration := 0, timerRepeat := 0, timerPtr := none } := by
      unfold CancelTimer withTimer
      rw [if_pos hin]
    refine ⟨fun hout => by omega, fun _ => ⟨?_, ?_, fun j hj => ?_⟩, fun j hj => ?_, ?_⟩
    · rw [hc]
      simp [withTimer]
    · rw [hc]
      simp [isFreeTimer, withTimer]
    · rw [hc]
      simp [withTimer, Function.update_noteq hj]
    · rw [hc]
      unfold isFreeTimer at *
      by_cases hj2 : j = h.toNat
      · subst hj2
        simp [withTimer]
      · simp [withTimer, Function.update_noteq hj2, hj]
    · rw [hc]
      unfold CancelTimer
      rw [if_pos hin]
      simp [withTimer]
  · have hc : ∀ b : Board, CancelTimer b h = b := by
      intro b
      unfold CancelTimer
      rw [if_neg hin]
    refine ⟨fun _ => hc b, fun hin2 => absurd ⟨by omega, hin2.2⟩ hin, fun j hj => ?_, ?_⟩
    · rw [hc]
      exact hj
    · rw [hc, hc]

/-! ## The timers: `DefineTimer` without the pointer argument -/

/-- C19, the code at a failing input: on the empty board at the clock 0,
`DefineTimer(100, 0, routine 1, NULL)` creates timer 1 and returns 1, while
`DefineTimer(100, 0, routine 1)` returns nothing that is defined (its body ends
without a `return` statement). -/
theorem define_timer_no_return :
    (DefineTimer emptyBoard 100 0 (some 1) none).map (fun r => (r.2, r.1.strip.Timers 1))
        = some (1, ⟨100, 0, some 1, none⟩)
      ∧ (DefineTimer3 emptyBoard 100 0 (some 1)).map (fun r => (r.2, r.1.strip.Timers 1))
        = none := by
  decide

/-! ## Rendering: the spacing test of the walk -/

theorem segLocals_fields (t : Target) (s : LEDSegs) (seg : stripSegment) (g : SegLocals)
    (hg : segLocals t s seg = some g) :
    g.Action = seg.segAction ∧ g.segSpacing1 = toShort (seg.segSpacing + 1)
      ∧ g.bits = seg.segBitsPtr.getD [0] := by
  unfold segLocals at hg
  cases hpart : readPart s seg.segPart with
  | none => simp [hpart] at hg
  | some part =>
    simp only [hpart, Option.map_eq_some'] at hg
    obtain ⟨fc, -, rfl⟩ := hg
    exact ⟨rfl, rfl, rfl⟩

/-- The countdown of `SpacingCount`: from the value `(-d) mod m` it goes to
`(-(d + 1)) mod m`, where `m = segSpacing + 1` (`segSpacing1` is `m` stored in a
`short`). -/
theorem spacing_countdown (m c d : Int) (hm1 : 1 ≤ m) (hm2 : m ≤ 32768) (hc : c = (-d) % m) :
    toShort ((if c = 0 then toShort m else c) - 1) = (-(d + 1)) % m := by
  have hc0 : 0 ≤ c := by rw [hc]; exact Int.emod_nonneg _ (by omega)
  have hc1 : c < m := by rw [hc]; exact Int.emod_lt_of_pos _ (by omega)
  have hq : -d = c + m * ((-d) / m) := by
    have := Int.emod_add_ediv (-d) m
    rw [← hc] at this
    omega
  by_cases hz : c = 0
  · rw [if_pos hz]
    have hrhs : (-(d + 1)) % m = m - 1 := by
      have : -(d + 1) = (m - 1) + m * ((-d) / m - 1) := by
        rw [mul_sub, mul_one]
        omega
      rw [this, Int.add_mul_emod_self_left, Int.emod_eq_of_lt (by omega) (by omega)]
    rw [hrhs]
    by_cases hbig : m = 32768
    · subst hbig
      decide
    · rw [toShort_eq (x := m) (by omega) (by omega), toShort_eq (by omega) (by omega)]
  · rw [if_neg hz]
    have hrhs : (-(d + 1)) % m = c - 1 := by
      have : -(d + 1) = (c - 1) + m * ((-d) / m) := by omega
      rw [this, Int.add_mul_emod_self_left, Int.emod_eq_of_lt (by omega) (by omega)]
    rw [hrhs, toShort_eq (by omega) (by omega)]

theorem neg_emod_eq_zero (d m : Int) : (-d) % m = 0 ↔ d % m = 0 := by
  constructor
  · intro h
    exact Int.emod_eq_zero_of_dvd ((Int.dvd_neg).mp (Int.dvd_of_emod_eq_zero h))
  · intro h
    exact Int.emod_eq_zero_of_dvd ((Int.dvd_neg).mpr (Int.dvd_of_emod_eq_zero h))

theorem advanceWalk_fields (g : SegLocals) (ns : Bool) (w : Walk) :
    (advanceWalk g ns w).SpacingCount
        = (if g.Action = cSegActionFromMiddle ∧ ¬ w.LEDIncrement ≤ 0 then w.SpacingCount
            else toShort ((if ns then g.segSpacing1 else w.SpacingCount) - 1))
      ∧ (advanceWalk g ns w).LEDIncrement
        = (if g.Action = cSegActionFromMiddle then
            (if w.LEDIncrement ≤ 0 then toShort (-(toShort (w.LEDIncrement - 1)))
              else toShort (-(toShort (w.LEDIncrement + 1))))
            else w.LEDIncrement)
      ∧ (advanceWalk g ns w).bitsary = w.bitsary
      ∧ (advanceWalk g ns w).bitscounter = w.bitscounter
      ∧ (advanceWalk g ns w).writes = w.writes := by
  unfold advanceWalk
  by_cases hm : g.Action = cSegActionFromMiddle
  · by_cases hinc : w.LEDIncrement ≤ 0
    · simp [hm, hinc]
    · simp [hm, hinc]
  · simp [hm]

theorem advanceBits_fields (g : SegLocals) (w : Walk) (hbc : w.bitscounter < 32) :
    (advanceBits g w).SpacingCount = w.SpacingCount
      ∧ (advanceBits g w).LEDIncrement = w.LEDIncrement
      ∧ (advanceBits g w).bitscounter < 32
      ∧ 32 * (advanceBits g w).bitsary + (advanceBits g w).bitscounter
          ≤ 32 * w.bitsary + w.bitscounter + 1 := by
  unfold advanceBits
  by_cases hb : g.Action = cSegActionBits
  · rw [if_pos hb]
    by_cases hfull : w.bitscounter + 1 ≥ 32
    · rw [if_pos hfull]
      refine ⟨rfl, rfl, ?_, ?_⟩
      · show 0 < 32
        decide
      · show 32 * (w.bitsary + 1) + 0 ≤ 32 * w.bitsary + w.bitscounter + 1
        omega
    · rw [if_neg hfull]
      refine ⟨rfl, rfl, ?_, ?_⟩
      · show w.bitscounter + 1 < 32
        omega
      · show 32 * w.bitsary + (w.bitscounter + 1) ≤ 32 * w.bitsary + w.bitscounter + 1
        omega
  · rw [if_neg hb]
    exact ⟨rfl, rfl, hbc, by omega⟩

theorem advanceWalk_from (g : SegLocals) (ns : Bool) (w wq : Walk)
    (h1 : wq.SpacingCount = w.SpacingCount) (h2 : wq.LEDIncrement = w.LEDIncrement)
    (h3 : wq.bitscounter < 32)
    (h4 : 32 * wq.bitsary + wq.bitscounter ≤ 32 * w.bitsary + w.bitscounter + 1) :
    (advanceWalk g ns wq).SpacingCount = (advanceWalk g ns w).SpacingCount
      ∧ (advanceWalk g ns wq).LEDIncrement = (advanceWalk g ns w).LEDIncrement
      ∧ (advanceWalk g ns wq).bitscounter < 32
      ∧ 32 * (advanceWalk g ns wq).bitsary + (advanceWalk g ns wq).bitscounter
          ≤ 32 * w.bitsary + w.bitscounter + 1 := by
  obtain ⟨a1, a2, -, -, -⟩ := advanceWalk_fields g ns w
  obtain ⟨c1, c2, c3, c4, -⟩ := advanceWalk_fields g ns wq
  rw [a1, a2, c1, c2, c3, c4, h1, h2]
  exact ⟨rfl, rfl, h3, h4⟩

/-- The step of the walk at the position `p`: it returns unless a bit is read
past the end of the bit source; it moves `SpacingCount` and `LEDIncrement` as
`advanceWalk` does, it advances the bit cursor by at most one bit, and when the
spacing test fails it makes no call of `setPixelColor`. -/
theorem walkStep_fields (t : Target) (s : LEDSegs) (g : SegLocals) (w : Walk) (p : Nat)
    (hbits : g.Action = cSegActionBits → w.bitsary < g.bits.length)
    (hbc : w.bitscounter < 32) :
    ∃ w2, walkStep t s g w p = some w2
      ∧ (w2.SpacingCount = (advanceWalk g (decide (w.SpacingCount = 0)) w).SpacingCount
        ∧ w2.LEDIncrement = (advanceWalk g (decide (w.SpacingCount = 0)) w).LEDIncrement
        ∧ w2.bitscounter < 32
        ∧ 32 * w2.bitsary + w2.bitscounter ≤ 32 * w.bitsary + w.bitscounter + 1)
      ∧ (w.SpacingCount ≠ 0 → w2.writes = w.writes) := by
  obtain ⟨a1, a2, a3, a4, a5⟩ := advanceWalk_fields g (decide (w.SpacingCount = 0)) w
  unfold walkStep
  simp only []
  by_cases hin : w.iLED ≥ g.partStart ∧ w.iLED ≤ g.partEnd ∧ decide (w.SpacingCount = 0) = true
  · rw [if_pos hin]
    have hcol : ∃ c, positionColor t s g w p = some c := by
      unfold positionColor
      by_cases h1 : g.Action = cSegActionFromBottom ∨ g.Action = cSegActionFromTop
          ∨ g.Action = cSegActionFromMiddle
      · rw [if_pos h1]
        exact ⟨_, rfl⟩
      · rw [if_neg h1]
        by_cases h2 : g.Action = cSegActionAll
        · rw [if_pos h2]
          exact ⟨_, rfl⟩
        · rw [if_neg h2]
          by_cases h3 : g.Action = cSegActionRandom
          · rw [if_pos h3]
            exact ⟨_, rfl⟩
          · rw [if_neg h3]
            by_cases h4 : g.Action = cSegActionBits
            · rw [if_pos h4, List.getElem?_eq_getElem (hbits h4)]
              exact ⟨_, rfl⟩
            · rw [if_neg h4]
              exact ⟨_, rfl⟩
    obtain ⟨c, hc⟩ := hcol
    rw [hc]
    simp only []
    have hz : w.SpacingCount = 0 := by simpa using hin.2.2
    obtain ⟨b1, b2, b3, b4⟩ := advanceBits_fields g w hbc
    refine ⟨_, rfl, advanceWalk_from g _ w _ ?_ ?_ ?_ ?_, fun hne => absurd hz hne⟩
    · split_ifs
      · exact b1
      · exact b1
    · split_ifs
      · exact b2
      · exact b2
    · split_ifs
      · exact b3
      · exact b3
    · split_ifs
      · exact b4
      · exact b4
  · rw [if_neg hin]
    exact ⟨_, rfl, ⟨rfl, rfl, by rw [a4]; exact hbc, by rw [a3, a4]; omega⟩, fun _ => a5⟩

theorem walkBefore_succ (t : Target) (s : LEDSegs) (seg : stripSegment) (g : SegLocals)
    (part : Parts) (p : Nat) :
    walkBefore t s seg g part (p + 1)
      = (walkBefore t s seg g part p).bind (fun w => walkStep t s g w p) := by
  unfold walkBefore
  rw [foldlM_range_succ]

theorem startWalk_middle (seg : stripSegment) (part : Parts)
    (hm : seg.segAction = cSegActionFromMiddle) : (startWalk seg part).2 = 0 := by
  unfold startWalk
  simp only [hm]
  rw [if_neg (by decide), if_neg (by decide)]
  simp

/-- At a position where the spacing test fails, the step of the walk returns
and makes no call of `setPixelColor`. -/
theorem walkStep_skip (t : Target) (s : LEDSegs) (g : SegLocals) (w : Walk) (p : Nat)
    (hne : w.SpacingCount ≠ 0) :
    ∃ w2, walkStep t s g w p = some w2 ∧ w2.writes = w.writes := by
  obtain ⟨-, -, -, -, a5⟩ := advanceWalk_fields g (decide (w.SpacingCount = 0)) w
  unfold walkStep
  simp only []
  rw [if_neg (fun hc => hne (by simpa using hc.2.2))]
  exact ⟨_, rfl, a5⟩

/-- The invariant of the walk of a segment with a spacing `k` in `0 .. 32767`:
when the loop reaches the position `p`, `SpacingCount` is `(-d) mod (k + 1)` for
the distance `d` of `p`, and in a segment filled from the middle `LEDIncrement`
is `-p` for an even `p` and `p` for an odd `p`; the bit cursor has moved by at
most `p` bits.  The walk reaches `p` unless it reads past the bit source. -/
theorem walk_spacing_inv (t : Target) (s : LEDSegs) (seg : stripSegment) (g : SegLocals)
    (part : Parts) (hg : segLocals t s seg = some g)
    (hk0 : 0 ≤ seg.segSpacing) (hk1 : seg.segSpacing ≤ 32767) :
    ∀ p : Nat, p ≤ 32768 →
      (seg.segAction = cSegActionBits → p ≤ 32 * (seg.segBitsPtr.getD [0]).length) →
      ∃ w, walkBefore t s seg g part p = some w
        ∧ w.SpacingCount = (-(walkDistance seg.segAction p)) % (seg.segSpacing + 1)
        ∧ (seg.segAction = cSegActionFromMiddle →
            w.LEDIncrement = if p % 2 = 0 then -(p : Int) else (p : Int))
        ∧ w.bitscounter < 32 ∧ 32 * w.bitsary + w.bitscounter ≤ p := by
  obtain ⟨hA, hsp, hgb⟩ := segLocals_fields t s seg g hg
  intro p
  induction p with
  | zero =>
    intro _ _
    refine ⟨_, rfl, ?_, fun hm => ?_, ?_, ?_⟩
    · unfold walkDistance
      split_ifs <;> simp
    · simp [startWalk_middle seg part hm]
    · show (0 : Nat) < 32
      decide
    · show 32 * 0 + 0 ≤ 0
      decide
  | succ p ih =>
    intro hp hbits
    obtain ⟨w, hw, hcount, hinc, hbc, hcur⟩ := ih (by omega) (fun hb => by have := hbits hb; omega)
    have hbits2 : g.Action = cSegActionBits → w.bitsary < g.bits.length := by
      intro hb
      rw [hA] at hb
      have := hbits hb
      rw [hgb]
      omega
    obtain ⟨w2, hstep, ⟨f1, f2, f3, f4⟩, -⟩ := walkStep_fields t s g w p hbits2 hbc
    obtain ⟨a1, a2, -, -, -⟩ := advanceWalk_fields g (decide (w.SpacingCount = 0)) w
    rw [a1] at f1
    rw [a2] at f2
    rw [hA, hsp] at f1
    rw [hA] at f2
    simp only [decide_eq_true_eq] at f1
    have hdown := spacing_countdown (seg.segSpacing + 1) w.SpacingCount
      (walkDistance seg.segAction p) (by omega) (by omega) hcount
    refine ⟨w2, by rw [walkBefore_succ, hw, Option.some_bind, hstep], ?_, fun hm => ?_, f3,
      by omega⟩
    · by_cases hm : seg.segAction = cSegActionFromMiddle
      · have hi := hinc hm
        by_cases hev : p % 2 = 0
        · rw [if_pos hev] at hi
          rw [if_neg (by rw [hi]; omega)] at f1
          rw [f1, hdown]
          congr 2
          unfold walkDistance
          rw [if_pos hm, if_pos hm]
          push_cast
          omega
        · rw [if_neg hev] at hi
          rw [if_pos ⟨hm, by rw [hi]; omega⟩] at f1
          rw [f1, hcount]
          congr 2
          unfold walkDistance
          rw [if_pos hm, if_pos hm]
          push_cast
          omega
      · rw [if_neg (fun hc => hm hc.1)] at f1
        rw [f1, hdown]
        congr 2
        unfold walkDistance
        rw [if_neg hm, if_neg hm]
        push_cast
        rfl
    · have hi := hinc hm
      rw [if_pos hm] at f2
      by_cases hev : p % 2 = 0
      · rw [if_pos hev] at hi
        rw [if_pos (by rw [hi]; omega), hi] at f2
        rw [f2, if_neg (by omega), toShort_eq (x := -(p : Int) - 1) (by omega) (by omega),
          toShort_eq (by omega) (by omega)]
        push_cast
        omega
      · rw [if_neg hev] at hi
        rw [if_neg (by rw [hi]; omega), hi] at f2
        rw [f2, if_pos (by omega)]
        by_cases hlast : p = 32767
        · subst hlast
          decide
        · rw [toShort_eq (x := (p : Int) + 1) (by omega) (by omega),
            toShort_eq (by omega) (by omega)]
          push_cast
          ring

/-- C20 (amended): for every segment, whatever its action, with a spacing `k`
in `0 .. 32767` (the non-negative values of a `short`), the walk reaches every
logical position `p ≤ 32767` (for the action `cSegActionBits`, as long as the bit
source holds `p` bits), and there the spacing test `SpacingCount == 0` passes if
and only if `p` is retained: if and only if `p mod (k + 1) = 0` for every action
other than `cSegActionFromMiddle`, and if and only if
`((p + 1) div 2) mod (k + 1) = 0` for `cSegActionFromMiddle`.  Position 0 is
always retained, and at a position that fails the test the step of the walk
makes no call of `setPixelColor`. -/
theorem spacing_test (t : Target) (s : LEDSegs) (seg : stripSegment) (g : SegLocals)
    (part : Parts) (hg : segLocals t s seg = some g)
    (hk0 : 0 ≤ seg.segSpacing) (hk1 : seg.segSpacing ≤ 32767) (p : Nat) (hp : p ≤ 32767)
    (hbits : seg.segAction = cSegActionBits → p ≤ 32 * (seg.segBitsPtr.getD [0]).length) :
    ∃ w, walkBefore t s seg g part p = some w
      ∧ (w.SpacingCount = 0 ↔ spacingRetained seg.segAction seg.segSpacing p)
      ∧ (seg.segAction ≠ cSegActionFromMiddle →
          (spacingRetained seg.segAction seg.segSpacing p ↔ (p : Int) % (seg.segSpacing + 1) = 0))
      ∧ (seg.segAction = cSegActionFromMiddle →
          (spacingRetained seg.segAction seg.segSpacing p
            ↔ (((p : Int) + 1) / 2) % (seg.segSpacing + 1) = 0))
      ∧ spacingRetained seg.segAction seg.segSpacing 0
      ∧ (¬ spacingRetained seg.segAction seg.segSpacing p →
          ∃ w2, walkStep t s g w p = some w2 ∧ w2.writes = w.writes) := by
  obtain ⟨w, hw, hcount, -, -, -⟩ :=
    walk_spacing_inv t s seg g part hg hk0 hk1 p (by omega) hbits
  have hiff : w.SpacingCount = 0 ↔ spacingRetained seg.segAction seg.segSpacing p := by
    unfold spacingRetained
    rw [hcount]
    exact neg_emod_eq_zero _ _
  refine ⟨w, hw, hiff, fun hm => ?_, fun hm => ?_, ?_, fun hnot => ?_⟩
  · unfold spacingRetained walkDistance
    rw [if_neg hm]
  · unfold spacingRetained walkDistance
    rw [if_pos hm]
  · unfold spacingRetained walkDistance
    split_ifs <;> simp
  · exact walkStep_skip t s g w p (fun hz => hnot (hiff.mp hz))

/-- The calls of `setPixelColor` that `ShowSegments` makes for a segment are
those of the walk when it has passed the last position. -/
theorem showSegment_walk (t : Target) (s : LEDSegs) (seg : stripSegment) (g : SegLocals)
    (part : Parts) (hg : segLocals t s seg = some g) (hpart : readPart s seg.segPart = some part) :
    showSegment t s seg
      = (walkBefore t s seg g part seg.segNumLEDs.toNat).map (fun w => w.writes) := by
  unfold showSegment walkBefore
  rw [hg, hpart]

/-- Witness of C20: position 3 of the segment of 10 LEDs that is filled from the
middle with the spacing 1. -/
theorem spacing_test_witness :
    ∃ g, segLocals Target.due sampleStrip middleSegment = some g
      ∧ ∃ w, walkBefore Target.due sampleStrip middleSegment g (sampleStrip.stripParts 0) 3
            = some w
        ∧ (w.SpacingCount = 0
            ↔ spacingRetained middleSegment.segAction middleSegment.segSpacing 3)
        ∧ (middleSegment.segAction ≠ cSegActionFromMiddle →
            (spacingRetained middleSegment.segAction middleSegment.segSpacing 3
              ↔ ((3 : Nat) : Int) % (middleSegment.segSpacing + 1) = 0))
        ∧ (middleSegment.segAction = cSegActionFromMiddle →
            (spacingRetained middleSegment.segAction middleSegment.segSpacing 3
              ↔ ((((3 : Nat) : Int) + 1) / 2) % (middleSegment.segSpacing + 1) = 0))
        ∧ spacingRetained middleSegment.segAction middleSegment.segSpacing 0
        ∧ (¬ spacingRetained middleSegment.segAction middleSegment.segSpacing 3 →
            ∃ w2, walkStep Target.due sampleStrip g w 3 = some w2 ∧ w2.writes = w.writes) := by
  obtain ⟨g, hg⟩ := Option.isSome_iff_exists.mp
    (by decide : (segLocals Target.due sampleStrip middleSegment).isSome = true)
  exact ⟨g, hg, spacing_test Target.due sampleStrip middleSegment g (sampleStrip.stripParts 0) hg
    (by decide) (by decide) 3 (by decide) (by decide)⟩

/-- Counterexample to C20 as stated: in the segment of 10 LEDs from LED 0 that is
filled from the middle with the spacing 1, position 2 fails the spacing test
(`SpacingCount` is 1 there) although `2 mod 2 = 0`, and position 3 passes it
although `3 mod 2 = 1`; the positions written are 0, 3, 4, 7 and 8, which are the
LEDs 4, 6, 2, 8 and 0. -/
theorem spacing_middle_counterexample :
    spacingCountAt Target.due sampleStrip middleSegment 2 = some 1
      ∧ (2 : Int) % (middleSegment.segSpacing + 1) = 0
      ∧ spacingCountAt Target.due sampleStrip middleSegment 3 = some 0
      ∧ (3 : Int) % (middleSegment.segSpacing + 1) ≠ 0
      ∧ (showSegment Target.due sampleStrip middleSegment).map (List.map Prod.fst)
          = some [4, 6, 2, 8, 0] := by
  decide

/-! ## Failing inputs of the parts, the rendering and the accessors -/

/-- C23, the code at a failing input: after `ResetStrip` on a strip of 160 LEDs,
`DefinePart(1, 160, 160, true)` is stored as the part (start 160, length 160)
(start and length are each limited to the strip length, their sum is not), and
for the segment `DefineSegment(0, 1, cSegActionAll, RGBRed, cSegBand2, 1)`
`ShowSegments` calls `setPixelColor(160, RGBRed)`: the index 160 is not below
the number of LEDs. -/
theorem pixel_index_past_strip :
    pastEndStrip.map (fun s => (s.nLEDsInStrip, s.stripParts 1)) = some (160, ⟨160, 160, true⟩)
      ∧ (pastEndStrip.bind (fun s => showSegment Target.due s (s.SegmentData 0)))
          = some [(160, Color 127 0 0)]
      ∧ (pastEndStrip.bind (stripWrites Target.due)).map
          (fun ws => ws.any (fun w => decide (160 ≤ w.1))) = some true := by
  decide

/-- C24, the code at a failing input: with the rescaling array
`{2, 0, 1023, 1023, 0}` of the documentation, for the normalised value 1023
(which the normalisation yields for the aggregate 600 and the ceiling 600) the
search ends with `iscale = 5`, the bracket is from `(1023, 0)` to
`(1023, 1023)`, its width `peak2 - peak1` is 0 and the interpolation divides by
it; so the body of `MapBandsToSegments` for the segment of `peakStrip` is
undefined. -/
theorem rescale_bracket_width_zero :
    normalise Target.due 600 600 = some 1023
      ∧ rescaleScan docRescale 5 1023 (docRescale.length + 1) 1 = some 5
      ∧ rescaleLower docRescale 5 = some (1023, 0)
      ∧ rescaleUpper docRescale 5 5 = some (1023, 1023)
      ∧ rescaleInterpolate Target.due (1023, 0) (1023, 1023) 1023 = none
      ∧ rescale Target.due docRescale 1023 = none
      ∧ ((peakStrip (some docRescale)).bind
          (fun s => mapSegment Target.due s (s.SegmentData 0))).isNone = true := by
  decide

/-- C25, the code at a failing input: after `ResetStrip`, `DefineSegment(0, 0,
cSegActionFromBottom, RGBRed, cSegBand2)` and
`SetSegment_Options(cSegOptModulateSegment)` slot 0 holds a segment with the
count 0, the action `cSegActionFromBottom` and the options 2; for it the
modulated color divides by `segNumLEDs = 0`, and `ShowSegments` is undefined. -/
theorem modulate_divides_by_zero :
    emptyModulatedStrip.map
        (fun s => ((s.SegmentData 0).segNumLEDs, (s.SegmentData 0).segAction,
          (s.SegmentData 0).segOptions, s.segMaxDefinedIndex)) = some (0, 1, 2, 0)
      ∧ modulateChannel Target.due 0 127 0 0 = none
      ∧ (emptyModulatedStrip.bind (fun s => showSegment Target.due s (s.SegmentData 0))).isNone
          = true
      ∧ (emptyModulatedStrip.bind (ShowSegments Target.due idleDisplay)).isNone = true := by
  decide

/-- C26, the code at a failing input: after `ResetStrip` on a strip of 160 LEDs
part 0 is (0, 160, up); `DefinePart(0, 10, 20, false)` leaves it so, but
`SetPart_Start(0, 10)`, `SetPart_Len(0, 20)` and `SetPart_Up(0, false)` each
change it. -/
theorem part_zero_changed :
    freshStrip.map (fun s => s.stripParts 0) = some ⟨0, 160, true⟩
      ∧ (freshStrip.bind (fun s => DefinePart s 0 10 20 false)).map (fun s => s.stripParts 0)
          = some ⟨0, 160, true⟩
      ∧ (freshStrip.bind (fun s => SetPart_Start s 0 10)).map (fun s => s.stripParts 0)
          = some ⟨10, 160, true⟩
      ∧ (freshStrip.bind (fun s => SetPart_Len s 0 20)).map (fun s => s.stripParts 0)
          = some ⟨0, 20, true⟩
      ∧ (freshStrip.bind (fun s => SetPart_Up s 0 false)).map (fun s => s.stripParts 0)
          = some ⟨0, 160, false⟩ := by
  decide

/-- C30, the code at a failing input: after `ResetStrip` and `DefineSegment(0, 10,
cSegActionFromBottom, RGBRed, cSegBand2)` the current segment has the ceiling
1023 and the level 0.  `SetSegment_MaxLevel(0, 700)` (with the index) sets the
ceiling to 700 and keeps the level; `SetSegment_MaxLevel(700)` (without the
index) keeps the ceiling 1023 and sets the level to 700. -/
theorem max_level_setter_sets_level :
    oneSegmentStrip.bind (fun s => (GetSegment_MaxLevel_current s).bind fun m =>
        (GetSegment_Level_current s).map fun l => (s.segCurrentIndex, m, l))
        = some (0, 1023, 0)
      ∧ ((oneSegmentStrip.bind (fun s => SetSegment_MaxLevel s s.segCurrentIndex 700)).bind
          (fun s => (GetSegment_MaxLevel_current s).bind fun m =>
            (GetSegment_Level_current s).map fun l => (m, l))) = some (700, 0)
      ∧ ((oneSegmentStrip.bind (fun s => SetSegment_MaxLevel_current s 700)).bind
          (fun s => (GetSegment_MaxLevel_current s).bind fun m =>
            (GetSegment_Level_current s).map fun l => (m, l))) = some (1023, 700) := by
  decide

/-! ## Colors -/

theorem Color_value (r g b : Nat) (hr : r < 256) (hb : b < 256) :
    Color r g b = 65536 * g + 256 * r + b := by
  unfold Color
  have h1 : g <<< 16 ||| r <<< 8 = 2 ^ 8 * (2 ^ 8 * g + r) := by
    rw [Nat.shiftLeft_eq, Nat.shiftLeft_eq, Nat.mul_comm g (2 ^ 16),
      ← Nat.mul_add_lt_is_or (by omega) g]
    omega
  rw [h1, ← Nat.mul_add_lt_is_or (by omega : b < 2 ^ 8)]
  omega

theorem Colorvals_value (c : Nat) :
    Colorvals c = (c / 256 % 128, c / 65536 % 128, c % 128) := by
  unfold Colorvals
  have h127 : (0x7F : Nat) = 2 ^ 7 - 1 := by norm_num
  rw [h127, Nat.and_pow_two_sub_one_eq_mod, Nat.and_pow_two_sub_one_eq_mod,
    Nat.and_pow_two_sub_one_eq_mod, Nat.shiftRight_eq_div_pow, Nat.shiftRight_eq_div_pow]

/-- C27: for all channel values `r`, `g`, `b` in 0..127, `Color(r, g, b)` is
`(g << 16) | (r << 8) | b` (the number `65536 g + 256 r + b`), and
`Colorvals(Color(r, g, b))` returns exactly `(r, g, b)`, in the order red, green,
blue. -/
theorem color_roundtrip (r g b : Nat) (hr : r ≤ 127) (hg : g ≤ 127) (hb : b ≤ 127) :
    Color r g b = (g <<< 16) ||| (r <<< 8) ||| b
      ∧ Color r g b = 65536 * g + 256 * r + b
      ∧ Colorvals (Color r g b) = (r, g, b) := by
  refine ⟨rfl, Color_value r g b (by omega) (by omega), ?_⟩
  rw [Colorvals_value, Color_value r g b (by omega) (by omega)]
  have e1 : (65536 * g + 256 * r + b) / 256 % 128 = r := by omega
  have e2 : (65536 * g + 256 * r + b) / 65536 % 128 = g := by omega
  have e3 : (65536 * g + 256 * r + b) % 128 = b := by omega
  rw [e1, e2, e3]

/-- Witness of C27: the color `RGBGold = Color(110, 15, 7)`. -/
theorem color_roundtrip_witness :
    Color 110 15 7 = (15 <<< 16) ||| (110 <<< 8) ||| 7
      ∧ Color 110 15 7 = 65536 * 15 + 256 * 110 + 7
      ∧ Colorvals (Color 110 15 7) = (110, 15, 7) :=
  color_roundtrip 110 15 7 (by decide) (by decide) (by decide)

/-! ## Bit fields: access to the bytes -/

theorem getD_set (l : List Nat) (i j a : Nat) (hi : i < l.length) :
    (l.set i a).getD j 0 = if i = j then a else l.getD j 0 := by
  simp only [List.getD_eq_getElem?_getD, List.getElem?_set]
  by_cases h : i = j
  · subst h
    simp [hi]
  · simp [h]

theorem readByte_nat (l : List Nat) (k : Nat) (hk : k < l.length) :
    readByte l (k : Int) = some (l.getD k 0) := by
  unfold readByte
  rw [if_pos (by omega)]
  simp [List.getD_eq_getElem?_getD, List.getElem?_eq_getElem hk]

theorem writeByte_nat (l : List Nat) (k v : Nat) (hk : k < l.length) :
    writeByte l (k : Int) v = some (l.set k v) := by
  unfold writeByte
  rw [if_pos ⟨by omega, by simpa using hk⟩]
  simp

theorem bit_test (x k : Nat) : decide (((x >>> k) &&& 1) ≠ 0) = x.testBit k := by
  unfold Nat.testBit
  rw [Nat.and_comm]
  generalize 1 &&& x >>> k = y
  by_cases hy : y = 0
  · subst hy
    rfl
  · simp [hy, bne]

theorem BitRead_nat (l : List Nat) (i : Nat) (hi : i / 8 < l.length) :
    BitRead (i : Int) l = some ((l.getD (i / 8) 0).testBit (i % 8)) := by
  unfold BitRead
  have h1 : ((i : Int) / 8) = ((i / 8 : Nat) : Int) := by omega
  have h2 : ((i : Int) % 8).toNat = i % 8 := by omega
  rw [h1, readByte_nat l _ hi, h2]
  simp [bit_test]

/-! ## Bit fields: the rotation to the left -/

theorem carry_bit (x : Nat) : decide (x &&& 0x80 ≠ 0) = x.testBit 7 := by
  have h128 : (0x80 : Nat) = 2 ^ 7 := by norm_num
  rw [h128]
  by_cases hb : x.testBit 7 = true
  · rw [hb]
    simp only [ne_eq, decide_eq_true_eq]
    intro h0
    have h1 : (x &&& 2 ^ 7).testBit 7 = true := by
      rw [Nat.testBit_and, hb, Nat.testBit_two_pow_self]
      rfl
    rw [h0] at h1
    simp at h1
  · have hb2 : x.testBit 7 = false := by simpa using hb
    rw [hb2]
    simp only [ne_eq, decide_eq_false_iff_not, not_not]
    apply Nat.eq_of_testBit_eq
    intro i
    simp only [Nat.testBit_and, Nat.testBit_two_pow, Nat.zero_testBit]
    by_cases hi : 7 = i
    · subst hi
      simp [hb2]
    · simp [hi]

theorem leftByte_bit (x c b : Nat) (hb : b < 8) :
    (((x <<< 1) ||| (if c ≠ 0 then 1 else 0)) % 256).testBit b
      = if b = 0 then decide (c ≠ 0) else x.testBit (b - 1) := by
  have h256 : (256 : Nat) = 2 ^ 8 := by norm_num
  rw [h256, Nat.testBit_mod_two_pow, Nat.testBit_or, Nat.testBit_shiftLeft]
  by_cases hb0 : b = 0
  · subst hb0
    by_cases hc : c = 0
    · simp [hc]
    · simp [hc]
  · have hb1 : b ≥ 1 := by omega
    have hone : ∀ y : Nat, y ≤ 1 → y.testBit b = false := by
      intro y hy
      exact Nat.testBit_lt_two_pow (Nat.lt_of_le_of_lt hy (Nat.one_lt_two_pow (by omega)))
    rw [hone _ (by split_ifs <;> omega)]
    simp [hb, hb0, hb1]

theorem leftByte_nat (buf : List Nat) (c k : Nat) (hk : k < buf.length) :
    leftByte (buf, c) k
      = some (buf.set k (((buf.getD k 0 <<< 1) ||| (if c ≠ 0 then 1 else 0)) % 256),
              buf.getD k 0 &&& 0x80) := by
  unfold leftByte
  simp only []
  rw [readByte_nat buf k hk]
  simp only []
  rw [writeByte_nat buf k _ hk]
  rfl

/-- The inner loop of the left rotation after `k` bytes: the bytes from `k` on
are unchanged, in a byte before `k` bit 0 is the carry (the carry `c0` at the
start for byte 0, bit 7 of the byte before for the others) and bit `b ≥ 1` is the
old bit `b - 1`; `lastcarry` is bit 7 of the old byte `k - 1`. -/
theorem leftLoop (buf : List Nat) (c0 : Nat) :
    ∀ k, k ≤ buf.length →
      ∃ bk ck, (List.range k).foldlM leftByte (buf, c0) = some (bk, ck)
        ∧ bk.length = buf.length
        ∧ (∀ j, k ≤ j → bk.getD j 0 = buf.getD j 0)
        ∧ (∀ j, j < k → ∀ b, b < 8 →
            (bk.getD j 0).testBit b
              = if b = 0 then (if j = 0 then decide (c0 ≠ 0) else (buf.getD (j - 1) 0).testBit 7)
                else (buf.getD j 0).testBit (b - 1))
        ∧ decide (ck ≠ 0)
            = (if k = 0 then decide (c0 ≠ 0) else (buf.getD (k - 1) 0).testBit 7) := by
  intro k
  induction k with
  | zero =>
    intro _
    exact ⟨buf, c0, rfl, rfl, fun _ _ => rfl, fun j hj => by omega, by simp⟩
  | succ k ih =>
    intro hk
    obtain ⟨bk, ck, hfold, hlen, hrest, hdone, hcarry⟩ := ih (by omega)
    rw [foldlM_range_succ, hfold, Option.some_bind, leftByte_nat bk ck k (by omega)]
    refine ⟨_, _, rfl, by rw [List.length_set, hlen], fun j hj => ?_, fun j hj b hb => ?_, ?_⟩
    · rw [getD_set bk k j _ (by omega), if_neg (by omega)]
      exact hrest j (by omega)
    · rw [getD_set bk k j _ (by omega)]
      by_cases hjk : k = j
      · subst hjk
        rw [if_pos rfl, leftByte_bit _ _ b hb, hcarry, hrest k (le_refl _)]
      · rw [if_neg hjk]
        exact hdone j (by omega) b hb
    · rw [carry_bit, hrest k (le_refl _)]
      simp

/-- One rotation to the left of a field of `w ≥ 1` bits in a buffer of
`(w + 7) / 8` bytes: bit 0 of the whole buffer becomes the old bit `w - 1`, every
other bit `i` of the buffer the old bit `i - 1`. -/
theorem rotateLeftOnce_bits (w : Nat) (buf : List Nat) (hw1 : 1 ≤ w) (hw2 : w ≤ 32767)
    (hlen : buf.length = (w + 7) / 8) :
    ∃ buf1, rotateLeftOnce Target.due (w : Int) (((w + 7) / 8 : Nat) - 1 : Int) buf = some buf1
      ∧ buf1.length = buf.length
      ∧ ∀ i, i < 8 * buf.length →
          (buf1.getD (i / 8) 0).testBit (i % 8)
            = if i = 0 then (buf.getD ((w - 1) / 8) 0).testBit ((w - 1) % 8)
              else (buf.getD ((i - 1) / 8) 0).testBit ((i - 1) % 8) := by
  have hnb : 1 ≤ (w + 7) / 8 := by omega
  have hlast : ((((w + 7) / 8 : Nat) : Int) - 1) = (((w + 7) / 8 - 1 : Nat) : Int) := by omega
  unfold rotateLeftOnce
  rw [hlast, readByte_nat buf _ (by omega)]
  simp only []
  have hrange : ((((w + 7) / 8 - 1 : Nat) : Int) + 1).toNat = buf.length := by omega
  rw [hrange]
  obtain ⟨bk, ck, hfold, hlen2, -, hdone, -⟩ := leftLoop buf
    ((buf.getD ((w + 7) / 8 - 1) 0 >>>
      (toInt Target.due ((w : Int) - 1) % 8).toNat) &&& 1) buf.length (le_refl _)
  rw [hfold]
  refine ⟨bk, rfl, hlen2, fun i hi => ?_⟩
  rw [hdone (i / 8) (by omega) (i % 8) (by omega)]
  have hshift : (toInt Target.due ((w : Int) - 1) % 8).toNat = (w - 1) % 8 := by
    rw [toInt_due_eq (by omega) (by omega)]
    omega
  by_cases hi0 : i = 0
  · subst hi0
    simp only [Nat.zero_mod, Nat.zero_div, if_true]
    rw [bit_test, hshift]
    congr 2
    omega
  · rw [if_neg hi0]
    by_cases hb0 : i % 8 = 0
    · rw [if_pos hb0, if_neg (by omega)]
      have e1 : (i - 1) / 8 = i / 8 - 1 := by omega
      have e2 : (i - 1) % 8 = 7 := by omega
      rw [e1, e2]
    · rw [if_neg hb0]
      have e1 : (i - 1) / 8 = i / 8 := by omega
      have e2 : (i - 1) % 8 = i % 8 - 1 := by omega
      rw [e1, e2]

theorem lastbyte_due (w : Nat) (hw : w ≤ 32767) :
    toShort (toInt Target.due (toInt Target.due ((w : Int) + 7) / 8 - 1))
      = (((w + 7) / 8 : Nat) : Int) - 1 := by
  rw [toInt_due_eq (x := (w : Int) + 7) (by omega) (by omega),
    toInt_due_eq (by omega) (by omega), toShort_eq (by omega) (by omega)]
  omega

/-- `BitRotate` with `nbits = n > 0` is `n` passes of the rotation to the left. -/
theorem BitRotate_left (w : Nat) (buf : List Nat) (hw : w ≤ 32767) (n : Nat) (hn1 : 1 ≤ n)
    (hn2 : n ≤ 32767) :
    BitRotate Target.due (w : Int) buf (n : Int)
      = (List.range n).foldlM
          (fun ary _ => rotateLeftOnce Target.due (w : Int) ((((w + 7) / 8 : Nat) : Int) - 1) ary)
          buf := by
  unfold BitRotate
  simp only []
  rw [lastbyte_due w hw, if_pos (by omega : (n : Int) > 0),
    toInt_due_eq (by omega) (by omega), toShort_eq (by omega) (by omega)]
  simp only [Int.toNat_ofNat, if_pos (by omega : (n : Int) > 0)]

theorem BitRotate_one (w : Nat) (buf : List Nat) (hw : w ≤ 32767) :
    BitRotate Target.due (w : Int) buf 1
      = rotateLeftOnce Target.due (w : Int) ((((w + 7) / 8 : Nat) : Int) - 1) buf := by
  have h := BitRotate_left w buf hw 1 (le_refl _) (by omega)
  rw [show ((1 : Nat) : Int) = 1 from rfl] at h
  rw [h, show List.range 1 = [0] from rfl]
  simp only [List.foldlM_cons, List.foldlM_nil]
  cases rotateLeftOnce Target.due (w : Int) ((((w + 7) / 8 : Nat) : Int) - 1) buf <;> rfl

/-- The rotation to the left by `n` passes is defined and keeps the length of
the buffer. -/
theorem rotateLeft_passes (w : Nat) (hw1 : 1 ≤ w) (hw2 : w ≤ 32767) :
    ∀ (n : Nat) (buf : List Nat), buf.length = (w + 7) / 8 →
      ∃ bufn, (List.range n).foldlM
          (fun ary _ => rotateLeftOnce Target.due (w : Int) ((((w + 7) / 8 : Nat) : Int) - 1) ary)
          buf = some bufn ∧ bufn.length = buf.length := by
  intro n
  induction n with
  | zero =>
    intro buf _
    exact ⟨buf, rfl, rfl⟩
  | succ n ih =>
    intro buf hlen
    obtain ⟨bufn, hfold, hlen2⟩ := ih buf hlen
    obtain ⟨buf1, hstep, hlen3, -⟩ := rotateLeftOnce_bits w bufn hw1 hw2 (by rw [hlen2, hlen])
    rw [foldlM_range_succ, hfold, Option.some_bind, hstep]
    exact ⟨buf1, rfl, by rw [hlen3, hlen2]⟩

/-- C28: for every width `w` in `1 .. 32767` and every buffer of `ceil(w/8)`
bytes, `BitRotate(w, buffer, 1)` returns and keeps the length of the buffer, and
the field read with `BitRead` satisfies: new bit 0 = old bit `w - 1`, and new bit
`i` = old bit `i - 1` for `1 ≤ i < w` (all these reads are defined);
`BitRotate(w, buffer, n)` with `n > 0` is the same as `n` calls
`BitRotate(w, ., 1)` one after the other, and is defined; and
`BitRotate(w, buffer, 0)` leaves the buffer unchanged. -/
theorem bit_rotate_left (w : Nat) (buf : List Nat) (hw1 : 1 ≤ w) (hw2 : w ≤ 32767)
    (hlen : buf.length = (w + 7) / 8) :
    (∃ buf1, BitRotate Target.due (w : Int) buf 1 = some buf1
        ∧ buf1.length = buf.length
        ∧ BitRead 0 buf1 = BitRead ((w : Int) - 1) buf
        ∧ (∀ i : Nat, 1 ≤ i → i < w → BitRead (i : Int) buf1 = BitRead ((i : Int) - 1) buf)
        ∧ (∀ i : Nat, i < w →
            (BitRead (i : Int) buf).isSome = true ∧ (BitRead (i : Int) buf1).isSome = true))
      ∧ (∀ n : Nat, 1 ≤ n → n ≤ 32767 →
          BitRotate Target.due (w : Int) buf (n : Int)
              = (List.range n).foldlM (fun ary _ => BitRotate Target.due (w : Int) ary 1) buf
            ∧ ∃ bufn, BitRotate Target.due (w : Int) buf (n : Int) = some bufn
                ∧ bufn.length = buf.length)
      ∧ BitRotate Target.due (w : Int) buf 0 = some buf := by
  refine ⟨?_, fun n hn1 hn2 => ⟨?_, ?_⟩, ?_⟩
  · obtain ⟨buf1, hstep, hlen1, hbits⟩ := rotateLeftOnce_bits w buf hw1 hw2 hlen
    refine ⟨buf1, by rw [BitRotate_one w buf hw2, hstep], hlen1, ?_, fun i hi1 hi2 => ?_,
      fun i hi => ?_⟩
    · have h0 := hbits 0 (by omega)
      rw [if_pos rfl] at h0
      have e : ((w : Int) - 1) = ((w - 1 : Nat) : Int) := by omega
      rw [e, BitRead_nat buf (w - 1) (by omega)]
      have := BitRead_nat buf1 0 (by omega)
      rw [show ((0 : Nat) : Int) = 0 from rfl] at this
      rw [this, h0]
    · have hi := hbits i (by omega)
      rw [if_neg (by omega)] at hi
      have e : ((i : Int) - 1) = ((i - 1 : Nat) : Int) := by omega
      rw [e, BitRead_nat buf (i - 1) (by omega), BitRead_nat buf1 i (by omega), hi]
    · rw [BitRead_nat buf i (by omega), BitRead_nat buf1 i (by omega)]
      exact ⟨rfl, rfl⟩
  · have hfun : (fun (ary : List Nat) (_ : Nat) => BitRotate Target.due (w : Int) ary 1)
        = (fun ary _ =>
            rotateLeftOnce Target.due (w : Int) ((((w + 7) / 8 : Nat) : Int) - 1) ary) := by
      funext ary _
      exact BitRotate_one w ary hw2
    rw [BitRotate_left w buf hw2 n hn1 hn2, hfun]
  · rw [BitRotate_left w buf hw2 n hn1 hn2]
    exact rotateLeft_passes w hw1 hw2 n buf hlen
  · unfold BitRotate
    simp only []
    have hnone : toShort (toInt Target.due (if (0 : Int) > 0 then 0 else -0)) = 0 := by decide
    rw [hnone]
    rfl

/-- Witness of C28: a field of 12 bits in the two bytes `0x81, 0x08` (the bits 0,
7 and 11 are set). -/
theorem bit_rotate_left_witness :
    (∃ buf1, BitRotate Target.due ((12 : Nat) : Int) [0x81, 0x08] 1 = some buf1
        ∧ buf1.length = [0x81, 0x08].length
        ∧ BitRead 0 buf1 = BitRead (((12 : Nat) : Int) - 1) [0x81, 0x08]
        ∧ (∀ i : Nat, 1 ≤ i → i < 12 →
            BitRead (i : Int) buf1 = BitRead ((i : Int) - 1) [0x81, 0x08])
        ∧ (∀ i : Nat, i < 12 →
            (BitRead (i : Int) [0x81, 0x08]).isSome = true
              ∧ (BitRead (i : Int) buf1).isSome = true))
      ∧ (∀ n : Nat, 1 ≤ n → n ≤ 32767 →
          BitRotate Target.due ((12 : Nat) : Int) [0x81, 0x08] (n : Int)
              = (List.range n).foldlM
                  (fun ary _ => BitRotate Target.due ((12 : Nat) : Int) ary 1) [0x81, 0x08]
            ∧ ∃ bufn, BitRotate Target.due ((12 : Nat) : Int) [0x81, 0x08] (n : Int) = some bufn
                ∧ bufn.length = [0x81, 0x08].length)
      ∧ BitRotate Target.due ((12 : Nat) : Int) [0x81, 0x08] 0 = some [0x81, 0x08] :=
  bit_rotate_left 12 [0x81, 0x08] (by decide) (by decide) (by decide)

/-! ## Bit fields: the rotation to the right -/

/-- C29, the code at a failing input: a field of 12 bits in two bytes with only
bit 0 set, `{0x01, 0x00}`.  `BitRotate(12, buffer, -1)` gives `{0x00, 0x80}`: the
old bit 0 went to bit 15 of the buffer, outside the field, the new bit 11 is 0
and no bit of the field is set.  Likewise the field with only bit 11 set,
rotated to the left by 5 and then to the right by 5, has no bit set. -/
theorem bit_rotate_right_loses_bit :
    BitRead 0 [0x01, 0x00] = some true
      ∧ BitRotate Target.due 12 [0x01, 0x00] (-1) = some [0x00, 0x80]
      ∧ (BitRotate Target.due 12 [0x01, 0x00] (-1)).bind (BitRead 11) = some false
      ∧ (BitRotate Target.due 12 [0x01, 0x00] (-1)).map (fieldBits 12)
          = some (List.replicate 12 (some false))
      ∧ BitRead 11 [0x00, 0x08] = some true
      ∧ ((BitRotate Target.due 12 [0x00, 0x08] 5).bind
            (fun ary => BitRotate Target.due 12 ary (-5))).map (fieldBits 12)
          = some (List.replicate 12 (some false))
      ∧ BitRotate Target.due 16 [0x01, 0x00] (-1) = some [0x00, 0x80] := by
  decide

/-! ## Rendering: filling from the top and from the bottom of a reversed part -/

theorem toShort_toShort_add (x y : Int) : toShort (toShort x + y) = toShort (x + y) := by
  unfold toShort wrapBits
  norm_num
  omega

theorem readPart_nat (s : LEDSegs) (k : Nat) (hk : k < cMaxParts) :
    readPart s (k : Int) = some (s.stripParts k) := by
  unfold readPart
  rw [if_pos ⟨by omega, by exact_mod_cast hk⟩]
  simp

/-- The step of the walk does not tell `cSegActionFromTop` from
`cSegActionFromBottom`. -/
theorem walkStep_top_bottom (t : Target) (s : LEDSegs) (g : SegLocals) (w : Walk) (p : Nat) :
    walkStep t s { g with Action := cSegActionFromTop } w p
      = walkStep t s { g with Action := cSegActionFromBottom } w p := by
  have h1 : cSegActionFromTop ≠ cSegActionBits := by decide
  have h2 : cSegActionFromBottom ≠ cSegActionBits := by decide
  have h3 : cSegActionFromTop ≠ cSegActionFromMiddle := by decide
  have h4 : cSegActionFromBottom ≠ cSegActionFromMiddle := by decide
  simp only [walkStep, positionColor, advanceBits, advanceWalk, if_neg h1, if_neg h2, if_neg h3,
    if_neg h4, true_or, or_true, if_true]

/-- The start of the two walks: the segment filled from the top with the first
LED `L - f - n` in the forward part `(S, L)` and the segment filled from the
bottom with the first LED `f` in the reversed part `(S, L)` both start at the
LED `S + L - 1 - f` and go down. -/
theorem startWalk_top_bottom (seg : stripSegment) (S L f n : Int) :
    startWalk { seg with segAction := cSegActionFromTop, segFirstLED := L - f - n,
                         segNumLEDs := n } ⟨S, L, true⟩
        = (toShort (S + L - 1 - f), -1)
      ∧ startWalk { seg with segAction := cSegActionFromBottom, segFirstLED := f,
                             segNumLEDs := n } ⟨S, L, false⟩
        = (toShort (S + L - 1 - f), -1) := by
  have e1 : toShort (toShort (L - f - n + S) + n - 1) = toShort (S + L - 1 - f) := by
    have e : toShort (L - f - n + S) + n - 1 = toShort (L - f - n + S) + (n - 1) := by ring
    rw [e, toShort_toShort_add]
    congr 1
    ring
  have e2 : toShort (toShort (S + L - (f + n)) + n - 1) = toShort (S + L - 1 - f) := by
    have e : toShort (S + L - (f + n)) + n - 1 = toShort (S + L - (f + n)) + (n - 1) := by ring
    rw [e, toShort_toShort_add]
    congr 1
    ring
  constructor
  · simp [startWalk, startLED, cSegActionFromTop, cSegActionFromBottom, cSegActionRandom,
      cSegActionBits, cSegActionFromMiddle, e1]
  · simp [startWalk, startLED, cSegActionFromTop, cSegActionFromBottom, cSegActionRandom,
      cSegActionBits, cSegActionFromMiddle, e2]

/-- The local variables of the two mirrored segments: those of the segment
filled from the bottom are those of the segment filled from the top with the
other action. -/
theorem segLocals_mirror (t : Target) (s : LEDSegs) (seg : stripSegment) (pf pr : Nat)
    (S L f n : Int) (hpf : pf < cMaxParts) (hpr : pr < cMaxParts)
    (hfwd : s.stripParts pf = ⟨S, L, true⟩) (hrev : s.stripParts pr = ⟨S, L, false⟩) :
    segLocals t s (mirrorBottom seg f n pr)
      = (segLocals t s (mirrorTop seg L f n pf)).map
          (fun g => { g with Action := cSegActionFromBottom })
      ∧ ∀ g, segLocals t s (mirrorTop seg L f n pf) = some g → g.Action = cSegActionFromTop := by
  unfold segLocals mirrorTop mirrorBottom
  simp only [readPart_nat s pf hpf, readPart_nat s pr hpr, hfwd, hrev]
  cases (if bitSet seg.segOptions cSegOptModulateSegmentBit = true then
      modulateColor t seg.segBackColor seg.segForeColor (litCount t seg.segLevel n) n
    else some seg.segForeColor) with
  | none => exact ⟨rfl, fun g hg => by simp at hg⟩
  | some fc =>
    refine ⟨rfl, fun g hg => ?_⟩
    simp only [Option.map_some', Option.some.injEq] at hg
    rw [← hg]

theorem foldlM_congr {β : Type} (f g : β → Nat → Option β) (h : ∀ b i, f b i = g b i)
    (l : List Nat) (b : β) : l.foldlM f b = l.foldlM g b := by
  have : f = g := by
    funext b i
    exact h b i
  rw [this]

/-- The two mirrored segments make the same calls of `setPixelColor`, in the
same order. -/
theorem showSegment_mirror (t : Target) (s : LEDSegs) (seg : stripSegment) (pf pr : Nat)
    (S L f n : Int) (hpf : pf < cMaxParts) (hpr : pr < cMaxParts)
    (hfwd : s.stripParts pf = ⟨S, L, true⟩) (hrev : s.stripParts pr = ⟨S, L, false⟩) :
    showSegment t s (mirrorTop seg L f n pf) = showSegment t s (mirrorBottom seg f n pr) := by
  obtain ⟨hloc, hact⟩ := segLocals_mirror t s seg pf pr S L f n hpf hpr hfwd hrev
  obtain ⟨hsT, hsB⟩ := startWalk_top_bottom seg S L f n
  have hpT : readPart s (mirrorTop seg L f n pf).segPart = some ⟨S, L, true⟩ := by
    rw [← hfwd]
    exact readPart_nat s pf hpf
  have hpB : readPart s (mirrorBottom seg f n pr).segPart = some ⟨S, L, false⟩ := by
    rw [← hrev]
    exact readPart_nat s pr hpr
  have hnT : (mirrorTop seg L f n pf).segNumLEDs = n := rfl
  have hnB : (mirrorBottom seg f n pr).segNumLEDs = n := rfl
  have hwT : startWalk (mirrorTop seg L f n pf) ⟨S, L, true⟩ = (toShort (S + L - 1 - f), -1) :=
    hsT
  have hwB : startWalk (mirrorBottom seg f n pr) ⟨S, L, false⟩
      = (toShort (S + L - 1 - f), -1) := hsB
  unfold showSegment
  rw [hloc, hpT, hpB, hnT, hnB]
  cases hg : segLocals t s (mirrorTop seg L f n pf) with
  | none => rfl
  | some g =>
    have hA := hact g hg
    have hgT : g = { g with Action := cSegActionFromTop } := by
      rw [← hA]
    simp only [Option.map_some', hwT, hwB]
    rw [hgT]
    rw [foldlM_congr _ _ (walkStep_top_bottom t s g)]

theorem advanceWalk_iLED (g : SegLocals) (ns : Bool) (w : Walk) :
    (advanceWalk g ns w).iLED = toShort (w.iLED + (advanceWalk g ns w).LEDIncrement) := by
  unfold advanceWalk
  split_ifs <;> rfl

/-- What a step of the walk returns: `advanceWalk` applied to a record that has
the `iLED`, `LEDIncrement` and `SpacingCount` of the record before the step. -/
theorem walkStep_result (t : Target) (s : LEDSegs) (g : SegLocals) (w w2 : Walk) (p : Nat)
    (h : walkStep t s g w p = some w2) :
    ∃ wq, w2 = advanceWalk g (decide (w.SpacingCount = 0)) wq ∧ wq.iLED = w.iLED
      ∧ wq.LEDIncrement = w.LEDIncrement ∧ wq.SpacingCount = w.SpacingCount := by
  unfold walkStep at h
  simp only [] at h
  by_cases hin : w.iLED ≥ g.partStart ∧ w.iLED ≤ g.partEnd ∧ decide (w.SpacingCount = 0) = true
  · rw [if_pos hin] at h
    cases hc : positionColor t s g w p with
    | none => simp [hc] at h
    | some c =>
      rw [hc] at h
      simp only [Option.some.injEq] at h
      have hab : (advanceBits g w).iLED = w.iLED ∧ (advanceBits g w).LEDIncrement = w.LEDIncrement
          ∧ (advanceBits g w).SpacingCount = w.SpacingCount := by
        unfold advanceBits
        split_ifs <;> exact ⟨rfl, rfl, rfl⟩
      refine ⟨_, h.symm, ?_, ?_, ?_⟩
      · split_ifs
        · exact hab.1
        · exact hab.1
      · split_ifs
        · exact hab.2.1
        · exact hab.2.1
      · split_ifs
        · exact hab.2.2
        · exact hab.2.2
  · rw [if_neg hin] at h
    simp only [Option.some.injEq] at h
    exact ⟨w, h.symm, rfl, rfl, rfl⟩

/-- In a segment whose action is not `cSegActionFromMiddle` the walk moves by the
same increment at every step: when it starts at the LED `toShort a` with the
increment `d`, the position `k` addresses the LED `toShort (a + k * d)`. -/
theorem walk_iLED_linear (t : Target) (s : LEDSegs) (seg : stripSegment) (g : SegLocals)
    (part : Parts) (a d : Int) (hnm : g.Action ≠ cSegActionFromMiddle)
    (hstart : startWalk seg part = (toShort a, d)) :
    ∀ (k : Nat) (w : Walk), walkBefore t s seg g part k = some w →
      w.LEDIncrement = d ∧ w.iLED = toShort (a + (k : Int) * d) := by
  intro k
  induction k with
  | zero =>
    intro w hw
    unfold walkBefore at hw
    simp only [List.range_zero, List.foldlM_nil, hstart] at hw
    have hw2 := Option.some.inj hw
    rw [← hw2]
    simp
  | succ k ih =>
    intro w2 hw2
    rw [walkBefore_succ] at hw2
    cases hw : walkBefore t s seg g part k with
    | none => simp [hw] at hw2
    | some w =>
      rw [hw, Option.some_bind] at hw2
      obtain ⟨hinc, hled⟩ := ih w hw
      obtain ⟨wq, hres, hq1, hq2, -⟩ := walkStep_result t s g w w2 k hw2
      obtain ⟨-, a2, -, -, -⟩ := advanceWalk_fields g (decide (w.SpacingCount = 0)) wq
      rw [if_neg hnm, hq2, hinc] at a2
      have hi := advanceWalk_iLED g (decide (w.SpacingCount = 0)) wq
      rw [a2, hq1, hled] at hi
      rw [hres]
      refine ⟨a2, ?_⟩
      rw [hi, toShort_toShort_add]
      congr 1
      push_cast
      ring

/-- The walk of a segment whose action is not `cSegActionBits` reaches every
position. -/
theorem walk_total (t : Target) (s : LEDSegs) (g : SegLocals)
    (hnb : g.Action ≠ cSegActionBits) :
    ∀ (n : Nat) (w0 : Walk), w0.bitscounter < 32 →
      ∃ w, (List.range n).foldlM (walkStep t s g) w0 = some w ∧ w.bitscounter < 32 := by
  intro n
  induction n with
  | zero =>
    intro w0 h0
    exact ⟨w0, rfl, h0⟩
  | succ n ih =>
    intro w0 h0
    obtain ⟨w, hw, hbc⟩ := ih w0 h0
    obtain ⟨w2, hstep, ⟨-, -, hbc2, -⟩, -⟩ :=
      walkStep_fields t s g w n (fun hb => absurd hb hnb) hbc
    exact ⟨w2, by rw [foldlM_range_succ, hw, Option.some_bind, hstep], hbc2⟩

theorem modulateColor_isSome (t : Target) (bc fc : Nat) (segval n : Int) (hn : n ≠ 0) :
    (modulateColor t bc fc segval n).isSome = true := by
  unfold modulateColor modulateChannel cdiv
  simp only [if_neg hn, Option.map_some']
  rfl

set_option maxRecDepth 100000 in
/-- The example of the documentation of the parts, evaluated for the level 512:
`DefineSegment(40, 10, cSegActionFromTop, RGBBlue, -1)` in part 0 and
`DefineSegment(0, 10, cSegActionFromBottom, RGBBlue, -1, 1)` in the reversed part
`DefinePart(1, 40, 10, false)` make the same calls of `setPixelColor`. -/
theorem doc_mirror_example :
    docTopWrites 512
        = some [(49, 127), (48, 127), (47, 127), (46, 127), (45, 127), (44, 0), (43, 0), (42, 0),
            (41, 0), (40, 0)]
      ∧ docBottomWrites 512
        = some [(49, 127), (48, 127), (47, 127), (46, 127), (45, 127), (44, 0), (43, 0), (42, 0),
            (41, 0), (40, 0)] := by
  decide

/-- C21: for every part window (start `S`, length `L`), first LED `f`, count `n`
and every segment `seg` (its spacing, options, colors, level), when the part
`pf` is the forward part `(S, L)` and the part `pr` the reversed part `(S, L)`:
the segment filled from the top with the first LED `L - f - n` and the count `n`
in `pf` and the segment filled from the bottom with the first LED `f` and the
count `n` in `pr` make exactly the same calls of `setPixelColor` (same LEDs,
same colors, same order); the calls are defined unless the modulate option is
set and `n = 0`; and in both walks the logical position `k` addresses the LED
`S + L - 1 - f - k` (as a `short`).  The example of the documentation
(`DefineSegment(40, 10, cSegActionFromTop, ..)` in part 0 and
`DefineSegment(0, 10, cSegActionFromBottom, .., 1)` after
`DefinePart(1, 40, 10, false)`) gives the same calls at the level 512. -/
theorem top_bottom_mirror (t : Target) (s : LEDSegs) (seg : stripSegment) (pf pr : Nat)
    (S L f n : Int) (hpf : pf < cMaxParts) (hpr : pr < cMaxParts)
    (hfwd : s.stripParts pf = ⟨S, L, true⟩) (hrev : s.stripParts pr = ⟨S, L, false⟩) :
    showSegment t s (mirrorTop seg L f n pf) = showSegment t s (mirrorBottom seg f n pr)
      ∧ ((bitSet seg.segOptions cSegOptModulateSegmentBit = false ∨ n ≠ 0) →
          (showSegment t s (mirrorTop seg L f n pf)).isSome = true)
      ∧ (∀ (g : SegLocals) (k : Nat) (w : Walk),
          segLocals t s (mirrorTop seg L f n pf) = some g →
          walkBefore t s (mirrorTop seg L f n pf) g ⟨S, L, true⟩ k = some w →
          w.iLED = toShort (S + L - 1 - f - k))
      ∧ (∀ (g : SegLocals) (k : Nat) (w : Walk),
          segLocals t s (mirrorBottom seg f n pr) = some g →
          walkBefore t s (mirrorBottom seg f n pr) g ⟨S, L, false⟩ k = some w →
          w.iLED = toShort (S + L - 1 - f - k))
      ∧ docTopWrites 512 = docBottomWrites 512 := by
  obtain ⟨hloc, hact⟩ := segLocals_mirror t s seg pf pr S L f n hpf hpr hfwd hrev
  obtain ⟨hsT, hsB⟩ := startWalk_top_bottom seg S L f n
  refine ⟨showSegment_mirror t s seg pf pr S L f n hpf hpr hfwd hrev, fun hdef => ?_,
    fun g k w hg hw => ?_, fun g k w hg hw => ?_, ?_⟩
  · have hpT : readPart s (mirrorTop seg L f n pf).segPart = some ⟨S, L, true⟩ := by
      rw [← hfwd]
      exact readPart_nat s pf hpf
    have hsome : (segLocals t s (mirrorTop seg L f n pf)).isSome = true := by
      unfold segLocals
      rw [hpT]
      simp only [Option.isSome_map']
      by_cases hmod : bitSet (mirrorTop seg L f n pf).segOptions cSegOptModulateSegmentBit = true
      · rw [if_pos hmod]
        have hmod2 : bitSet seg.segOptions cSegOptModulateSegmentBit = true := hmod
        have hn : n ≠ 0 := by
          rcases hdef with h | h
          · rw [h] at hmod2
            exact absurd hmod2 (by decide)
          · exact h
        exact modulateColor_isSome t _ _ _ _ hn
      · rw [if_neg hmod]
        rfl
    obtain ⟨g, hg⟩ := Option.isSome_iff_exists.mp hsome
    have hA := hact g hg
    obtain ⟨w, hw, -⟩ := walk_total t s g (by rw [hA]; decide)
      (mirrorTop seg L f n pf).segNumLEDs.toNat
      { iLED := (startWalk (mirrorTop seg L f n pf) ⟨S, L, true⟩).1,
        LEDIncrement := (startWalk (mirrorTop seg L f n pf) ⟨S, L, true⟩).2,
        SpacingCount := 0, bitsary := 0, bitscounter := 0, writes := [] }
      (by show (0 : Nat) < 32; decide)
    unfold showSegment
    rw [hg, hpT]
    simp only []
    rw [hw]
    rfl
  · have hA := hact g hg
    have h := (walk_iLED_linear t s (mirrorTop seg L f n pf) g ⟨S, L, true⟩ (S + L - 1 - f) (-1)
      (by rw [hA]; decide) hsT k w hw).2
    rw [h]
    congr 1
    ring
  · have hB : g.Action = cSegActionFromBottom := by
      rw [hloc] at hg
      cases hgT : segLocals t s (mirrorTop seg L f n pf) with
      | none => simp [hgT] at hg
      | some gT =>
        rw [hgT] at hg
        simp only [Option.map_some', Option.some.injEq] at hg
        rw [← hg]
    have h := (walk_iLED_linear t s (mirrorBottom seg f n pr) g ⟨S, L, false⟩ (S + L - 1 - f)
      (-1) (by rw [hB]; decide) hsB k w hw).2
    rw [h]
    congr 1
    ring
  · rw [doc_mirror_example.1, doc_mirror_example.2]

/-- Witness of C21: in the sample strip with the part 1 set to the reversed
window `(40, 10)` and the part 2 to the forward window `(40, 10)`, the sample
segment with `f = 2` and `n = 5`. -/
theorem top_bottom_mirror_witness :
    showSegment Target.due
        { sampleStrip with stripParts := fun i =>
            if i = 1 then ⟨40, 10, false⟩ else if i = 2 then ⟨40, 10, true⟩ else ⟨0, 160, true⟩ }
        (mirrorTop sampleSegment 10 2 5 2)
      = showSegment Target.due
        { sampleStrip with stripParts := fun i =>
            if i = 1 then ⟨40, 10, false⟩ else if i = 2 then ⟨40, 10, true⟩ else ⟨0, 160, true⟩ }
        (mirrorBottom sampleSegment 2 5 1) :=
  (top_bottom_mirror Target.due
    { sampleStrip with stripParts := fun i =>
        if i = 1 then ⟨40, 10, false⟩ else if i = 2 then ⟨40, 10, true⟩ else ⟨0, 160, true⟩ }
    sampleSegment 2 1 40 10 2 5 (by decide) (by decide) rfl rfl).1

/-! ## Rendering: the segments of a frame are written in index order -/

/-- The rule of a step of the walk for the calls of `setPixelColor`: at a
position inside the window of the part that passes the spacing test, the color
`c` of the position is written to the LED `iLED` unless `c` is the background
color and the option `cSegOptNoOffOverwrite` is set; at any other position
nothing is written. -/
theorem walkStep_writes (t : Target) (s : LEDSegs) (g : SegLocals) (w w2 : Walk) (p : Nat)
    (h : walkStep t s g w p = some w2) :
    (¬ (w.iLED ≥ g.partStart ∧ w.iLED ≤ g.partEnd ∧ w.SpacingCount = 0) →
        w2.writes = w.writes)
      ∧ ((w.iLED ≥ g.partStart ∧ w.iLED ≤ g.partEnd ∧ w.SpacingCount = 0) →
          ∃ c, positionColor t s g w p = some c
            ∧ w2.writes = if c ≠ g.backColor ∨ g.optOffOverwrite = true
                then w.writes ++ [(w.iLED, c)] else w.writes) := by
  unfold walkStep at h
  simp only [] at h
  by_cases hin : w.iLED ≥ g.partStart ∧ w.iLED ≤ g.partEnd ∧ decide (w.SpacingCount = 0) = true
  · have hin2 : w.iLED ≥ g.partStart ∧ w.iLED ≤ g.partEnd ∧ w.SpacingCount = 0 :=
      ⟨hin.1, hin.2.1, by simpa using hin.2.2⟩
    rw [if_pos hin] at h
    refine ⟨fun hnot => absurd hin2 hnot, fun _ => ?_⟩
    cases hc : positionColor t s g w p with
    | none => simp [hc] at h
    | some c =>
      rw [hc] at h
      simp only [Option.some.injEq] at h
      have hab : (advanceBits g w).writes = w.writes := by
        unfold advanceBits
        split_ifs <;> rfl
      refine ⟨c, rfl, ?_⟩
      rw [← h, (advanceWalk_fields g _ _).2.2.2.2]
      by_cases hwr : c ≠ g.backColor ∨ g.optOffOverwrite = true
      · rw [if_pos hwr, if_pos hwr]
        show (advanceBits g w).writes ++ [(w.iLED, c)] = _
        rw [hab]
      · rw [if_neg hwr, if_neg hwr]
        exact hab
  · have hin2 : ¬ (w.iLED ≥ g.partStart ∧ w.iLED ≤ g.partEnd ∧ w.SpacingCount = 0) :=
      fun hc => hin ⟨hc.1, hc.2.1, by simpa using hc.2.2⟩
    rw [if_neg hin] at h
    simp only [Option.some.injEq] at h
    refine ⟨fun _ => ?_, fun hyes => absurd hyes hin2⟩
    rw [← h]
    exact (advanceWalk_fields g _ _).2.2.2.2

set_option maxRecDepth 100000 in
/-- C36 (failing input): after `ResetStrip()` and `ResetSegment(0)` the current
index is -1; the first pass of the slot scan of `DefineSegment` computes
`iseg = 0 + (-1) = -1` and reads `SegmentData[-1]`, outside the table, so the
scan and `DefineSegment` are undefined although every slot is free. -/
theorem slot_scan_reads_before_table :
    afterResetSegment.map (fun s => s.segCurrentIndex) = some (-1)
      ∧ afterResetSegment.map (fun s => decide (∀ k, k < cMaxSegments → isFreeSlot s k))
          = some true
      ∧ afterResetSegment.map (fun s => readSegment s (toShort (0 + s.segCurrentIndex)))
          = some none
      ∧ afterResetSegment.map (fun s => findFreeSlot s cMaxSegments 0) = some none
      ∧ afterResetSegment.map
          (fun s => (DefineSegment s 0 10 cSegActionFromBottom (Color 127 0 0) 0x02 0).map
            (fun r => r.2))
          = some none := by
  decide

set_option maxRecDepth 100000 in
/-- C37 (failing input): after `ResetStrip()`, `EnableDeadAirDetect(10)` and
`DisableDeadAirDetect()` the member `DeadAirDetectTimerID` still holds 1; the
call `DefineTimer(5000, 0, routine 7, NULL)` of the user returns the index 1
and arms timer 1; a second `DisableDeadAirDetect()` cancels that timer of the
user, and `EnableDeadAirDetect(10)` cancels it and takes its slot. -/
theorem dead_air_cancels_user_timer :
    userTimerBoard.map (fun r => (r.2, r.1.strip.DeadAirDetectTimerID, timerView r.1 1))
        = some (1, 1, (5000, 0, some 7))
      ∧ userTimerBoard.map (fun r => timerView (DisableDeadAirDetect r.1) 1)
        = some (0, 0, some 7)
      ∧ userTimerBoard.bind
          (fun r => (EnableDeadAirDetect Target.due r.1 10).map (fun b => timerView b 1))
        = some (1000, 1000, some teCheckForDeadAir) := by
  decide

/-- C40 (failing input): on the board with a 16-bit `int` the product
`33 * 1023 = 33759` does not fit (it wraps to -31777; 32 is the largest factor
that fits); the normalisation of the aggregate 100 under the ceiling 1023 gives
-28 where exact arithmetic (and the board with a 32-bit `int`) gives 100, and
the smoothing of the value 100 with the weight 10 from the level 0 gives -27
where exact arithmetic gives 99. -/
theorem mega_product_overflows :
    toInt Target.mega (33 * cMaxSegmentLevel) = -31777
      ∧ toInt Target.mega (32 * cMaxSegmentLevel) = 32 * 1023
      ∧ normalise Target.mega 100 1023 = some (-28)
      ∧ normalise Target.due 100 1023 = some 100
      ∧ persistence Target.mega 0 10 10 100 = some (-27)
      ∧ persistence Target.due 0 10 10 100 = some 99
      ∧ (10 * 0 + 100 * 1023) / (10 + 1023) = (99 : Int) := by
  decide

/-! ## The smoothing step never overshoots -/

theorem blend_between (w a b : Int) (hw : 0 < w) (hab : a ≤ b) :
    a ≤ (w * b + a * 1023) / (w + 1023) ∧ (w * a + b * 1023) / (w + 1023) ≤ b
      ∧ a ≤ (w * a + b * 1023) / (w + 1023) ∧ (w * b + a * 1023) / (w + 1023) ≤ b
      ∧ (a < b → (w * b + a * 1023) / (w + 1023) ≤ b - 1) := by
  have hwab : w * a ≤ w * b := Int.mul_le_mul_of_nonneg_left hab (by omega)
  have e1 : a * (w + 1023) = w * a + a * 1023 := by ring
  have e2 : b * (w + 1023) = w * b + b * 1023 := by ring
  refine ⟨?_, ?_, ?_, ?_, fun hlt => ?_⟩
  · exact Int.le_ediv_of_mul_le (by omega) (by rw [e1]; omega)
  · exact Int.ediv_le_of_le_mul (by omega) (by rw [e2]; omega)
  · exact Int.le_ediv_of_mul_le (by omega) (by rw [e1]; omega)
  · exact Int.ediv_le_of_le_mul (by omega) (by rw [e2]; omega)
  · have : (w * b + a * 1023) / (w + 1023) < b :=
      Int.ediv_lt_of_lt_mul (by omega) (by rw [e2]; omega)
    omega

/-- On the board with a 32-bit `int`, for every previous level `p` and new
value `v` in [0,1023] and persistence weights of type `short` of which the one
that the step selects (`persistence_down` if `v < p`, else `persistence_up`) is
positive, the smoothing step returns a level `r` that does not overshoot: if
`v < p` then `v ≤ r ≤ p - 1`, and if `v ≥ p` then `p ≤ r ≤ v`. -/
theorem smoothing_no_overshoot (p v up down : Int) (hp0 : 0 ≤ p) (hp1 : p ≤ 1023)
    (hv0 : 0 ≤ v) (hv1 : v ≤ 1023) (hu1 : up ≤ 32767) (hd1 : down ≤ 32767)
    (hd0 : v < p → 0 < down) (hu0 : p ≤ v → 0 < up) :
    ∃ r, persistence Target.due p up down v = some r
      ∧ (v < p → v ≤ r ∧ r ≤ p - 1) ∧ (p ≤ v → p ≤ r ∧ r ≤ v) := by
  refine ⟨persistenceRef p up down v, persistence_due_eq p v up down hp0 hp1 hv0 hv1 hu1 hd1,
    fun hlt => ?_, fun hge => ?_⟩
  · have hw := hd0 hlt
    obtain ⟨h1, -, -, -, h5⟩ := blend_between down v p hw (by omega)
    unfold persistenceRef
    simp only [hlt, if_true]
    rw [if_neg (by omega)]
    exact ⟨h1, h5 hlt⟩
  · have hw := hu0 hge
    obtain ⟨-, h2, h3, -, -⟩ := blend_between up p v hw hge
    unfold persistenceRef
    simp only [not_lt.mpr hge, if_false]
    rw [if_neg (by omega)]
    exact ⟨h3, h2⟩

/-- An instance on the board with a 32-bit `int`: a falling level (800 to 200,
weight 1023 gives 500). -/
theorem smoothing_no_overshoot_witness :
    ∃ r, persistence Target.due 800 0 1023 200 = some r
      ∧ ((200 : Int) < 800 → 200 ≤ r ∧ r ≤ 800 - 1) ∧ ((800 : Int) ≤ 200 → 800 ≤ r ∧ r ≤ 200) :=
  smoothing_no_overshoot 800 200 0 1023 (by decide) (by decide) (by decide) (by decide)
    (by decide) (by decide) (by decide) (by decide)

/-! ## Rendering: the modulated foreground color -/

theorem modulateRef_between (bc fc : Nat) (lit n : Int) (hn1 : 1 ≤ n) (hl0 : 0 ≤ lit)
    (hl1 : lit ≤ n) :
    (min bc fc : Nat) ≤ modulateRef bc fc lit n ∧ modulateRef bc fc lit n ≤ (max bc fc : Nat)
      ∧ (lit = n → modulateRef bc fc lit n = fc) ∧ (lit = 0 → modulateRef bc fc lit n = bc) := by
  unfold modulateRef
  rcases Nat.le_total bc fc with h | h
  · have hd0 : 0 ≤ (fc : Int) - bc := by omega
    have hp0 : 0 ≤ ((fc : Int) - bc) * lit := Int.mul_nonneg hd0 hl0
    have hp1 : ((fc : Int) - bc) * lit ≤ ((fc : Int) - bc) * n :=
      Int.mul_le_mul_of_nonneg_left hl1 hd0
    rw [Int.tdiv_eq_ediv hp0 (by omega)]
    have hq0 : 0 ≤ (((fc : Int) - bc) * lit) / n := Int.ediv_nonneg hp0 (by omega)
    have hq1 : (((fc : Int) - bc) * lit) / n ≤ (fc : Int) - bc :=
      Int.ediv_le_of_le_mul (by omega) hp1
    rw [Nat.min_eq_left h, Nat.max_eq_right h]
    refine ⟨by omega, by omega, fun he => ?_, fun he => ?_⟩
    · rw [he, Int.mul_ediv_cancel _ (by omega)]
      omega
    · rw [he]
      simp
  · have hd0 : 0 ≤ (bc : Int) - fc := by omega
    have hneg : ((fc : Int) - bc) * lit = -(((bc : Int) - fc) * lit) := by ring
    have hp0 : 0 ≤ ((bc : Int) - fc) * lit := Int.mul_nonneg hd0 hl0
    have hp1 : ((bc : Int) - fc) * lit ≤ ((bc : Int) - fc) * n :=
      Int.mul_le_mul_of_nonneg_left hl1 hd0
    rw [hneg, Int.neg_tdiv, Int.tdiv_eq_ediv hp0 (by omega)]
    have hq0 : 0 ≤ (((bc : Int) - fc) * lit) / n := Int.ediv_nonneg hp0 (by omega)
    have hq1 : (((bc : Int) - fc) * lit) / n ≤ (bc : Int) - fc :=
      Int.ediv_le_of_le_mul (by omega) hp1
    rw [Nat.min_eq_right h, Nat.max_eq_left h]
    refine ⟨by omega, by omega, fun he => ?_, fun he => ?_⟩
    · rw [he, Int.mul_ediv_cancel _ (by omega)]
      omega
    · rw [he]
      simp

/-- One channel of the modulated color on the board with a 32-bit `int`: the
code computes the reference value and passes it unchanged as a `byte`. -/
theorem modulateChannel_due (bc fc : Nat) (lit n : Int) (hbc : bc ≤ 127) (hfc : fc ≤ 127)
    (hn1 : 1 ≤ n) (hn2 : n ≤ 32767) (hl0 : 0 ≤ lit) (hl1 : lit ≤ n) :
    modulateChannel Target.due bc fc lit n = some (modulateRef bc fc lit n).toNat
      ∧ ((modulateRef bc fc lit n).toNat : Int) = modulateRef bc fc lit n
      ∧ (modulateRef bc fc lit n).toNat ≤ 127 := by
  obtain ⟨hlo, hhi, -, -⟩ := modulateRef_between bc fc lit n hn1 hl0 hl1
  have hmax : (max bc fc : Nat) ≤ 127 := max_le hbc hfc
  have hmin : 0 ≤ ((min bc fc : Nat) : Int) := by omega
  have hr0 : 0 ≤ modulateRef bc fc lit n := by omega
  have hr1 : modulateRef bc fc lit n ≤ 127 := by omega
  have hprod : -(127 * 32767) ≤ ((fc : Int) - bc) * lit ∧ ((fc : Int) - bc) * lit ≤ 127 * 32767 := by
    have habs : |((fc : Int) - bc) * lit| ≤ 127 * 32767 := by
      rw [abs_mul]
      exact mul_le_mul (abs_le.mpr ⟨by omega, by omega⟩) (abs_le.mpr ⟨by omega, by omega⟩)
        (abs_nonneg _) (by norm_num)
    exact ⟨by have := (abs_le.mp habs).1; omega, (abs_le.mp habs).2⟩
  refine ⟨?_, by omega, by omega⟩
  unfold modulateChannel cdiv
  rw [if_neg (by omega), toInt_due_eq (by omega) (by omega)]
  simp only [Option.map_some']
  have hq : (bc : Int) + Int.tdiv (((fc : Int) - bc) * lit) n = modulateRef bc fc lit n := rfl
  rw [hq, toInt_due_eq (by omega) (by omega)]
  unfold toByte
  rw [Int.emod_eq_of_lt hr0 (by omega)]


/-- The channels of a color built from 7-bit values are those values. -/
theorem color_parts (r g b : Nat) (hr : r ≤ 127) (hg : g ≤ 127) (hb : b ≤ 127) :
    Colorvals (Color r g b) = (r, g, b) := by
  rw [Colorvals_value, Color_value r g b (by omega) (by omega)]
  have e1 : (65536 * g + 256 * r + b) / 256 % 128 = r := by omega
  have e2 : (65536 * g + 256 * r + b) / 65536 % 128 = g := by omega
  have e3 : (65536 * g + 256 * r + b) % 128 = b := by omega
  rw [e1, e2, e3]


/-- On the board with a 16-bit `int` the channel is the same as long as the count
is at most 258 (so that `127 * n` fits in 16 bits). -/
theorem modulateChannel_mega (bc fc : Nat) (lit n : Int) (hbc : bc ≤ 127) (hfc : fc ≤ 127)
    (hn1 : 1 ≤ n) (hn2 : n ≤ 258) (hl0 : 0 ≤ lit) (hl1 : lit ≤ n) :
    modulateChannel Target.mega bc fc lit n = modulateChannel Target.due bc fc lit n := by
  obtain ⟨hlo, hhi, -, -⟩ := modulateRef_between bc fc lit n hn1 hl0 hl1
  have hmax : (max bc fc : Nat) ≤ 127 := max_le hbc hfc
  have hmin : 0 ≤ ((min bc fc : Nat) : Int) := by omega
  have hprod : -(127 * 258) ≤ ((fc : Int) - bc) * lit ∧ ((fc : Int) - bc) * lit ≤ 127 * 258 := by
    have habs : |((fc : Int) - bc) * lit| ≤ 127 * 258 := by
      rw [abs_mul]
      exact mul_le_mul (abs_le.mpr ⟨by omega, by omega⟩) (abs_le.mpr ⟨by omega, by omega⟩)
        (abs_nonneg _) (by norm_num)
    exact ⟨by have := (abs_le.mp habs).1; omega, (abs_le.mp habs).2⟩
  have hmega : ∀ x : Int, toInt Target.mega x = toShort x := fun _ => rfl
  have hq : (bc : Int) + Int.tdiv (((fc : Int) - bc) * lit) n = modulateRef bc fc lit n := rfl
  unfold modulateChannel cdiv
  rw [if_neg (by omega), if_neg (by omega), hmega, toShort_eq (by omega) (by omega),
    toInt_due_eq (by omega) (by omega)]
  simp only [Option.map_some']
  rw [hq, hmega, toShort_eq (by omega) (by omega), toInt_due_eq (by omega) (by omega)]

theorem Colorvals_le (c : Nat) :
    (Colorvals c).1 ≤ 127 ∧ (Colorvals c).2.1 ≤ 127 ∧ (Colorvals c).2.2 ≤ 127 := by
  rw [Colorvals_value]
  refine ⟨?_, ?_, ?_⟩ <;> simp only [] <;> omega

/-- On the board with a 32-bit `int`, for every back and fore color, every
count `n` in `1 .. 32767` and every lit count `lit` in `[0, n]`, the modulated
foreground color is defined and is `Color(r, g, b)` where each channel is
`back_c + ((fore_c - back_c) * lit) / n` (truncating division) computed on the
7-bit channels that `Colorvals` extracts from the back and the fore color; each
such value lies between the back and the fore channel, is the fore channel when
`lit = n` and the back channel when `lit = 0`; it is the foreground color that
`ShowSegments` uses for a segment with the modulate option; and on the board with
a 16-bit `int` the color is the same for every count up to 258. -/
theorem modulate_color_channels (back fore : Nat) (lit n : Int) (hn1 : 1 ≤ n) (hn2 : n ≤ 32767)
    (hl0 : 0 ≤ lit) (hl1 : lit ≤ n) :
    ∃ r g b : Nat, modulateColor Target.due back fore lit n = some (Color r g b)
      ∧ Colorvals (Color r g b) = (r, g, b)
      ∧ (r : Int) = modulateRef (Colorvals back).1 (Colorvals fore).1 lit n
      ∧ (g : Int) = modulateRef (Colorvals back).2.1 (Colorvals fore).2.1 lit n
      ∧ (b : Int) = modulateRef (Colorvals back).2.2 (Colorvals fore).2.2 lit n
      ∧ (∀ bc fc : Nat,
          (min bc fc : Nat) ≤ modulateRef bc fc lit n ∧ modulateRef bc fc lit n ≤ (max bc fc : Nat)
            ∧ (lit = n → modulateRef bc fc lit n = fc) ∧ (lit = 0 → modulateRef bc fc lit n = bc))
      ∧ (∀ (s : LEDSegs) (seg : stripSegment) (loc : SegLocals),
          bitSet seg.segOptions cSegOptModulateSegmentBit = true →
          segLocals Target.due s seg = some loc →
          some loc.foreColor
            = modulateColor Target.due seg.segBackColor seg.segForeColor
                (litCount Target.due seg.segLevel seg.segNumLEDs) seg.segNumLEDs)
      ∧ (n ≤ 258 →
          modulateColor Target.mega back fore lit n = modulateColor Target.due back fore lit n) := by
  obtain ⟨hb1, hb2, hb3⟩ := Colorvals_le back
  obtain ⟨hf1, hf2, hf3⟩ := Colorvals_le fore
  obtain ⟨c1, e1, l1⟩ := modulateChannel_due _ _ lit n hb1 hf1 hn1 hn2 hl0 hl1
  obtain ⟨c2, e2, l2⟩ := modulateChannel_due _ _ lit n hb2 hf2 hn1 hn2 hl0 hl1
  obtain ⟨c3, e3, l3⟩ := modulateChannel_due _ _ lit n hb3 hf3 hn1 hn2 hl0 hl1
  refine ⟨_, _, _, ?_, (color_parts _ _ _ l1 l2 l3), e1, e2, e3,
    fun bc fc => modulateRef_between bc fc lit n hn1 hl0 hl1, fun s seg loc hopt hloc => ?_,
    fun h258 => ?_⟩
  · unfold modulateColor
    simp only [c1, c2, c3]
  · unfold segLocals at hloc
    cases hpart : readPart s seg.segPart with
    | none => simp [hpart] at hloc
    | some part =>
      simp only [hpart, hopt, if_true, Option.map_eq_some'] at hloc
      obtain ⟨fcol, hfc, rfl⟩ := hloc
      exact hfc.symm
  · unfold modulateColor
    simp only [modulateChannel_mega _ _ lit n hb1 hf1 hn1 h258 hl0 hl1,
      modulateChannel_mega _ _ lit n hb2 hf2 hn1 h258 hl0 hl1,
      modulateChannel_mega _ _ lit n hb3 hf3 hn1 h258 hl0 hl1]

/-- An instance on the board with a 32-bit `int`: red on a dim blue background,
3 of 10 LEDs lit. -/
theorem modulate_color_channels_witness :
    ∃ r g b : Nat,
      modulateColor Target.due (Color 0 0 20) (Color 127 0 0) 3 10 = some (Color r g b)
        ∧ (r : Int) = modulateRef 0 127 3 10 ∧ (g : Int) = modulateRef 0 0 3 10
        ∧ (b : Int) = modulateRef 20 0 3 10 := by
  obtain ⟨r, g, b, h, -, hr, hg, hb, -⟩ :=
    modulate_color_channels (Color 0 0 20) (Color 127 0 0) 3 10 (by decide) (by decide)
      (by decide) (by decide)
  exact ⟨r, g, b, h, hr, hg, hb⟩

/-! ## The segment store: the highest defined index -/

/-- A call preserves the invariant of the segment store: the highest defined
index is in `-1 .. cMaxSegments - 1`, the current index is -1 or inside the
segment array, and every slot that is not free has an index up to the highest
defined index. -/
theorem storeInv_step (s s2 : LEDSegs) (op : StoreOp)
    (hm : -1 ≤ s.segMaxDefinedIndex ∧ s.segMaxDefinedIndex < cMaxSegments)
    (hc : s.segCurrentIndex = -1 ∨ (0 ≤ s.segCurrentIndex ∧ s.segCurrentIndex < cMaxSegments))
    (hinv : ∀ k, k < cMaxSegments → ¬ isFreeSlot s k → (k : Int) ≤ s.segMaxDefinedIndex)
    (h : applyStoreOp s op = some s2) :
    (-1 ≤ s2.segMaxDefinedIndex ∧ s2.segMaxDefinedIndex < cMaxSegments)
      ∧ (s2.segCurrentIndex = -1
          ∨ (0 ≤ s2.segCurrentIndex ∧ s2.segCurrentIndex < cMaxSegments))
      ∧ ∀ k, k < cMaxSegments → ¬ isFreeSlot s2 k → (k : Int) ≤ s2.segMaxDefinedIndex := by
  have hcM : cMaxSegments = 100 := rfl
  cases op with
  | setIndex Idx =>
    simp only [applyStoreOp, Option.some.injEq] at h
    subst h
    have hcon : 0 ≤ constrain Idx 0 ((cMaxSegments : Int) - 1)
        ∧ constrain Idx 0 ((cMaxSegments : Int) - 1) < cMaxSegments := by
      unfold constrain
      rw [hcM]
      split_ifs <;> omega
    refine ⟨?_, Or.inr hcon, fun k hk hfree => ?_⟩
    · show -1 ≤ max s.segMaxDefinedIndex _ ∧ max s.segMaxDefinedIndex _ < (cMaxSegments : Int)
      omega
    · have := hinv k hk hfree
      show (k : Int) ≤ max s.segMaxDefinedIndex _
      omega
  | define FirstLED nLEDs Action ForeColor Bands PartIndex =>
    simp only [applyStoreOp, Option.map_eq_some'] at h
    obtain ⟨r, hr, rfl⟩ := h
    rcases hc with hc | ⟨hc0, hc1⟩
    · exfalso
      unfold DefineSegment at hr
      have hnone : findFreeSlot s cMaxSegments 0 = none := by
        rw [hcM]
        unfold findFreeSlot
        simp only [hc]
        rfl
      rw [hnone] at hr
      exact absurd hr (by simp)
    · rcases DefineSegment_spec s FirstLED nLEDs Action ForeColor Bands PartIndex hc0 hc1 with
        ⟨hfull, -⟩ | ⟨j, g, hj, -, -, hdef⟩
      · rw [hfull] at hr
        have hr2 := Option.some.inj hr
        rw [← hr2]
        exact ⟨hm, Or.inl rfl, hinv⟩
      · rw [hdef] at hr
        have hr2 := Option.some.inj hr
        rw [← hr2]
        have hlt := scanSlot_lt s.segCurrentIndex j
        refine ⟨?_, Or.inr ⟨by show (0 : Int) ≤ ((scanSlot s.segCurrentIndex j : Nat) : Int); omega,
          by show ((scanSlot s.segCurrentIndex j : Nat) : Int) < (cMaxSegments : Int); omega⟩,
          fun k hk hfree => ?_⟩
        · show -1 ≤ max s.segMaxDefinedIndex ((scanSlot s.segCurrentIndex j : Nat) : Int)
            ∧ max s.segMaxDefinedIndex ((scanSlot s.segCurrentIndex j : Nat) : Int)
              < (cMaxSegments : Int)
          omega
        · show (k : Int) ≤ max s.segMaxDefinedIndex ((scanSlot s.segCurrentIndex j : Nat) : Int)
          by_cases hkj : k = scanSlot s.segCurrentIndex j
          · omega
          · have hsame : ¬ isFreeSlot s k := by
              intro hf
              apply hfree
              unfold isFreeSlot withSegment at *
              simp only [Function.update_noteq hkj]
              exact hf
            have := hinv k hk hsame
            omega
  | resetSegment i =>
    simp only [applyStoreOp] at h
    unfold ResetSegment at h
    cases hmod : modifySegment s i
        (fun g => { g with segAction := cSegActionNone, segNumLEDs := -1 }) with
    | none => simp [hmod] at h
    | some s1 =>
      rw [hmod] at h
      simp only [Option.some.injEq] at h
      unfold modifySegment at hmod
      by_cases hi : 0 ≤ i ∧ i < (cMaxSegments : Int)
      · rw [if_pos hi] at hmod
        have hs1 := Option.some.inj hmod
        subst hs1
        subst h
        refine ⟨?_, Or.inl rfl, fun k hk hfree => ?_⟩
        · show -1 ≤ (if s.segMaxDefinedIndex = i then toShort (s.segMaxDefinedIndex - 1)
              else s.segMaxDefinedIndex)
            ∧ (if s.segMaxDefinedIndex = i then toShort (s.segMaxDefinedIndex - 1)
              else s.segMaxDefinedIndex) < (cMaxSegments : Int)
          by_cases he : s.segMaxDefinedIndex = i
          · rw [if_pos he, toShort_eq (by omega) (by omega)]
            omega
          · rw [if_neg he]
            exact hm
        · show (k : Int) ≤ (if s.segMaxDefinedIndex = i then toShort (s.segMaxDefinedIndex - 1)
              else s.segMaxDefinedIndex)
          have hki : k ≠ i.toNat := by
            intro hki
            apply hfree
            unfold isFreeSlot
            show (Function.update s.SegmentData i.toNat _ k).segNumLEDs < 0
              ∧ (Function.update s.SegmentData i.toNat _ k).segAction = cSegActionNone
            rw [hki, Function.update_same]
            exact ⟨show (-1 : Int) < 0 by decide, rfl⟩
          have hsame : ¬ isFreeSlot s k := by
            intro hf
            apply hfree
            unfold isFreeSlot at *
            show (Function.update s.SegmentData i.toNat _ k).segNumLEDs < 0
              ∧ (Function.update s.SegmentData i.toNat _ k).segAction = cSegActionNone
            rw [Function.update_noteq hki]
            exact hf
          have := hinv k hk hsame
          by_cases he : s.segMaxDefinedIndex = i
          · rw [if_pos he, toShort_eq (by omega) (by omega)]
            omega
          · rw [if_neg he]
            exact this
      · rw [if_neg hi] at hmod
        exact absurd hmod (by simp)
  | resetSegments =>
    simp only [applyStoreOp] at h
    rw [ResetSegments_eq] at h
    have h2 := Option.some.inj h
    subst h2
    refine ⟨⟨le_refl _, by show (-1 : Int) < (cMaxSegments : Int); omega⟩, Or.inl rfl,
      fun k hk hfree => ?_⟩
    exfalso
    apply hfree
    unfold isFreeSlot
    simp only [if_pos hk]
    exact ⟨show (-1 : Int) < 0 by decide, rfl⟩


theorem storeInv_run (ops : List StoreOp) :
    ∀ (s s2 : LEDSegs),
      (-1 ≤ s.segMaxDefinedIndex ∧ s.segMaxDefinedIndex < cMaxSegments) →
      (s.segCurrentIndex = -1 ∨ (0 ≤ s.segCurrentIndex ∧ s.segCurrentIndex < cMaxSegments)) →
      (∀ k, k < cMaxSegments → ¬ isFreeSlot s k → (k : Int) ≤ s.segMaxDefinedIndex) →
      applyStoreOps s ops = some s2 →
      (-1 ≤ s2.segMaxDefinedIndex ∧ s2.segMaxDefinedIndex < cMaxSegments)
        ∧ (s2.segCurrentIndex = -1
            ∨ (0 ≤ s2.segCurrentIndex ∧ s2.segCurrentIndex < cMaxSegments))
        ∧ ∀ k, k < cMaxSegments → ¬ isFreeSlot s2 k → (k : Int) ≤ s2.segMaxDefinedIndex := by
  induction ops with
  | nil =>
    intro s s2 hm hc hinv h
    have h2 : s = s2 := Option.some.inj h
    subst h2
    exact ⟨hm, hc, hinv⟩
  | cons op ops ih =>
    intro s s2 hm hc hinv h
    unfold applyStoreOps at h
    rw [List.foldlM_cons] at h
    cases h1 : applyStoreOp s op with
    | none =>
      rw [h1] at h
      exact absurd h (by simp)
    | some s1 =>
      rw [h1] at h
      obtain ⟨a1, a2, a3⟩ := storeInv_step s s1 op hm hc hinv h1
      exact ih s1 s2 a1 a2 a3 h

/-- A call that the statement admits returns. -/
theorem storeOp_defined (s : LEDSegs) (op : StoreOp) (h : storeOpAllowed s op) :
    (applyStoreOp s op).isSome = true := by
  cases op with
  | setIndex Idx => rfl
  | define FirstLED nLEDs Action ForeColor Bands PartIndex =>
    have h2 : 0 ≤ s.segCurrentIndex ∧ s.segCurrentIndex < cMaxSegments := h
    simp only [applyStoreOp, Option.isSome_map']
    rcases DefineSegment_spec s FirstLED nLEDs Action ForeColor Bands PartIndex h2.1 h2.2 with
      ⟨hfull, -⟩ | ⟨j, g, -, -, -, hdef⟩
    · rw [hfull]
      rfl
    · rw [hdef]
      rfl
  | resetSegment i =>
    have h2 : 0 ≤ i ∧ i < cMaxSegments := h
    simp only [applyStoreOp]
    obtain ⟨m, hm⟩ := ResetSegment_nat s i.toNat (by omega)
    rw [show ((i.toNat : Nat) : Int) = i by omega] at hm
    rw [hm]
    rfl
  | resetSegments =>
    simp only [applyStoreOp]
    rw [ResetSegments_eq]
    rfl

/-- C39: in every state `s` that a sequence of calls of `SetSegmentIndex`,
`DefineSegment`, `ResetSegment` and `ResetSegments` reaches from the state of
`ResetStrip` (a call of `DefineSegment` with the current index -1, or of
`ResetSegment` with an index outside the segment array, is undefined in the
embedding, so that the sequences that run are those of the statement), every
slot that is not free (count `≥ 0` or an action other than `cSegActionNone`) has
an index up to `segMaxDefinedIndex`, and so it is one of the indices
`0 .. segMaxDefinedIndex` that the loops of `MapBandsToSegments` and
`ShowSegments` visit; and in `s` every call that the statement admits returns. -/
theorem defined_slots_below_max (s0 : LEDSegs) (rnd : Nat → Nat) (ops : List StoreOp)
    (s : LEDSegs)
    (h : (ResetStrip s0 rnd).bind (fun s1 => applyStoreOps s1 ops) = some s) :
    (∀ k, k < cMaxSegments → ¬ isFreeSlot s k →
        (k : Int) ≤ s.segMaxDefinedIndex ∧ k ∈ List.range (s.segMaxDefinedIndex + 1).toNat)
      ∧ (∀ op, storeOpAllowed s op → (applyStoreOp s op).isSome = true) := by
  obtain ⟨s1, hs1, hc, hmax, hfree⟩ := ResetStrip_spec s0 rnd
  rw [hs1, Option.some_bind] at h
  obtain ⟨-, -, hinv⟩ := storeInv_run ops s1 s
    (by rw [hmax]; exact ⟨le_refl _, by show (-1 : Int) < (cMaxSegments : Int); decide⟩)
    (Or.inr (by rw [hc]; exact ⟨le_refl _, by show (0 : Int) < (cMaxSegments : Int); decide⟩))
    (fun k hk hnf => absurd (hfree k hk) hnf) h
  refine ⟨fun k hk hnf => ?_, fun op hop => storeOp_defined s op hop⟩
  have hle := hinv k hk hnf
  refine ⟨hle, ?_⟩
  rw [List.mem_range]
  omega

set_option maxRecDepth 100000 in
theorem sampleStoreOps_run :
    ((ResetStrip zeroStrip sampleRandom).bind
      (fun s1 => applyStoreOps s1 sampleStoreOps)).isSome = true := by
  decide

/-- Witness of C39: the sample run of the segment store. -/
theorem defined_slots_below_max_witness :
    ∃ s, (ResetStrip zeroStrip sampleRandom).bind (fun s1 => applyStoreOps s1 sampleStoreOps)
        = some s
      ∧ ∀ k, k < cMaxSegments → ¬ isFreeSlot s k →
          (k : Int) ≤ s.segMaxDefinedIndex ∧ k ∈ List.range (s.segMaxDefinedIndex + 1).toNat := by
  obtain ⟨s, hs⟩ := Option.isSome_iff_exists.mp sampleStoreOps_run
  exact ⟨s, hs, (defined_slots_below_max zeroStrip sampleRandom sampleStoreOps s hs).1⟩

/-! ## Rendering: the LEDs of a segment filled from the middle -/

/-- The zig-zag of a segment filled from the middle: when the walk reaches the
position `p`, `LEDIncrement` is `-p` for an even `p` and `p` for an odd `p`, and
`iLED` is the LED `middleLED m p` (as a `short`), where the walk starts at the
LED `toShort m`. -/
theorem walk_middle_inv (t : Target) (s : LEDSegs) (seg : stripSegment) (g : SegLocals)
    (part : Parts) (m : Int) (hm : g.Action = cSegActionFromMiddle)
    (hstart : startWalk seg part = (toShort m, 0)) :
    ∀ (p : Nat) (w : Walk), p ≤ 32767 → walkBefore t s seg g part p = some w →
      w.LEDIncrement = (if p % 2 = 0 then -(p : Int) else (p : Int))
        ∧ w.iLED = toShort (middleLED m p) := by
  intro p
  induction p with
  | zero =>
    intro w _ hw
    unfold walkBefore at hw
    simp only [List.range_zero, List.foldlM_nil, hstart] at hw
    have hw2 := Option.some.inj hw
    rw [← hw2]
    simp [middleLED]
  | succ p ih =>
    intro w2 hp hw2
    rw [walkBefore_succ] at hw2
    cases hw : walkBefore t s seg g part p with
    | none => simp [hw] at hw2
    | some w =>
      rw [hw, Option.some_bind] at hw2
      obtain ⟨hinc, hled⟩ := ih w (by omega) hw
      obtain ⟨wq, hres, hq1, hq2, -⟩ := walkStep_result t s g w w2 p hw2
      obtain ⟨-, a2, -, -, -⟩ := advanceWalk_fields g (decide (w.SpacingCount = 0)) wq
      have hi := advanceWalk_iLED g (decide (w.SpacingCount = 0)) wq
      rw [if_pos hm, hq2, hinc] at a2
      rw [hq1, hled] at hi
      rw [hres]
      by_cases hev : p % 2 = 0
      · rw [if_pos hev] at a2
        rw [if_pos (by omega)] at a2
        rw [toShort_eq (x := -(p : Int) - 1) (by omega) (by omega),
          toShort_eq (by omega) (by omega)] at a2
        refine ⟨by rw [a2, if_neg (by omega)]; push_cast; omega, ?_⟩
        have e2 : middleLED m p + -(-(p : Int) - 1) = middleLED m (p + 1) := by
          unfold middleLED
          rw [if_pos hev, if_neg (by omega)]
          push_cast
          omega
        rw [hi, a2, toShort_toShort_add, e2]
      · rw [if_neg hev] at a2
        rw [if_neg (by omega)] at a2
        have e : toShort (-toShort ((p : Int) + 1)) = -((p : Int) + 1) := by
          rw [toShort_eq (x := (p : Int) + 1) (by omega) (by omega),
            toShort_eq (by omega) (by omega)]
        rw [e] at a2
        refine ⟨by rw [a2, if_pos (by omega)]; push_cast; omega, ?_⟩
        have e2 : middleLED m p + -((p : Int) + 1) = middleLED m (p + 1) := by
          unfold middleLED
          rw [if_neg hev, if_pos (by omega)]
          push_cast
          omega
        rw [hi, a2, toShort_toShort_add, e2]


/-- The local variables of a segment are defined when its part index is inside
the part array and, under the modulate option, its count is not 0. -/
theorem segLocals_defined (t : Target) (s : LEDSegs) (seg : stripSegment) (part : Parts)
    (hpart : readPart s seg.segPart = some part)
    (hmod : bitSet seg.segOptions cSegOptModulateSegmentBit = false ∨ seg.segNumLEDs ≠ 0) :
    ∃ g, segLocals t s seg = some g := by
  apply Option.isSome_iff_exists.mp
  unfold segLocals
  rw [hpart]
  simp only [Option.isSome_map']
  by_cases hm : bitSet seg.segOptions cSegOptModulateSegmentBit = true
  · rw [if_pos hm]
    rcases hmod with h | h
    · rw [h] at hm
      exact absurd hm (by decide)
    · exact modulateColor_isSome t _ _ _ _ h
  · rw [if_neg hm]
    rfl

/-- The start of the walk of a segment filled from the middle: the centre LED,
with the increment 0, whatever the direction of the part. -/
theorem startWalk_middle_eq (seg : stripSegment) (part : Parts)
    (hA : seg.segAction = cSegActionFromMiddle) :
    startWalk seg part
      = (toShort (part.start + seg.segFirstLED + (seg.segNumLEDs - 1) / 2), 0) := by
  have e : toShort (toShort (seg.segFirstLED + part.start) + (seg.segNumLEDs - 1) / 2)
      = toShort (part.start + seg.segFirstLED + (seg.segNumLEDs - 1) / 2) := by
    rw [toShort_toShort_add,
      show seg.segFirstLED + part.start + (seg.segNumLEDs - 1) / 2
        = part.start + seg.segFirstLED + (seg.segNumLEDs - 1) / 2 from by ring]
  simp [startWalk, startLED, hA, cSegActionFromMiddle, cSegActionFromBottom, cSegActionRandom,
    cSegActionBits, cSegActionFromTop, e]

theorem middleLED_pairs (m : Int) :
    middleLED m 0 = m
      ∧ ∀ j : Nat, 1 ≤ j → middleLED m (2 * j - 1) = m + j ∧ middleLED m (2 * j) = m - j := by
  refine ⟨by simp [middleLED], fun j hj => ⟨?_, ?_⟩⟩
  · unfold middleLED
    rw [if_neg (by omega)]
    have : (2 * j - 1 + 1) / 2 = j := by omega
    rw [this]
  · unfold middleLED
    rw [if_pos (by omega)]
    have : 2 * j / 2 = j := by omega
    rw [this]

theorem middleLED_range (b n : Int) (p : Nat) (hp : (p : Int) < n) :
    b ≤ middleLED (b + (n - 1) / 2) p ∧ middleLED (b + (n - 1) / 2) p ≤ b + n - 1 := by
  unfold middleLED
  split_ifs <;> constructor <;> omega

theorem middleLED_onto (b n x : Int) (hx0 : b ≤ x) (hx1 : x ≤ b + n - 1) :
    ∃ p : Nat, (p : Int) < n ∧ middleLED (b + (n - 1) / 2) p = x := by
  by_cases hle : x ≤ b + (n - 1) / 2
  · refine ⟨(2 * (b + (n - 1) / 2 - x)).toNat, by omega, ?_⟩
    unfold middleLED
    rw [if_pos (by omega)]
    omega
  · refine ⟨(2 * (x - (b + (n - 1) / 2)) - 1).toNat, by omega, ?_⟩
    unfold middleLED
    rw [if_neg (by omega)]
    omega

theorem middleLED_inj (m : Int) (p q : Nat) (h : middleLED m p = middleLED m q) : p = q := by
  unfold middleLED at h
  split_ifs at h <;> omega

/-- C31: for every segment filled from the middle with a count `n` in
`1 .. 32767` in a part with the start `S` (whatever the direction of the part),
with the base LED `b = S + first LED` such that `b` and `b + n - 1` are values of
a `short`: the walk reaches every logical position `p < n` and addresses there
the LED `middleLED m p` for the centre `m = b + (n - 1) div 2`, which lies in
`[b, b + n - 1]`; `middleLED m 0 = m`, `middleLED m (2j - 1) = m + j` and
`middleLED m (2j) = m - j` for `j ≥ 1`; every LED of `[b, b + n - 1]` is the LED
of a position `p < n`, and two positions never have the same LED. -/
theorem middle_addressing (t : Target) (s : LEDSegs) (seg : stripSegment) (part : Parts)
    (hA : seg.segAction = cSegActionFromMiddle) (hpart : readPart s seg.segPart = some part)
    (hn1 : 1 ≤ seg.segNumLEDs) (hn2 : seg.segNumLEDs ≤ 32767)
    (hb0 : -32768 ≤ part.start + seg.segFirstLED)
    (hb1 : part.start + seg.segFirstLED + seg.segNumLEDs - 1 ≤ 32767) :
    (∀ p : Nat, (p : Int) < seg.segNumLEDs →
        ledAt t s seg p
            = some (middleLED (part.start + seg.segFirstLED + (seg.segNumLEDs - 1) / 2) p)
          ∧ part.start + seg.segFirstLED
              ≤ middleLED (part.start + seg.segFirstLED + (seg.segNumLEDs - 1) / 2) p
          ∧ middleLED (part.start + seg.segFirstLED + (seg.segNumLEDs - 1) / 2) p
              ≤ part.start + seg.segFirstLED + seg.segNumLEDs - 1)
      ∧ (∀ m : Int, middleLED m 0 = m
          ∧ ∀ j : Nat, 1 ≤ j → middleLED m (2 * j - 1) = m + j ∧ middleLED m (2 * j) = m - j)
      ∧ (∀ x : Int, part.start + seg.segFirstLED ≤ x →
          x ≤ part.start + seg.segFirstLED + seg.segNumLEDs - 1 →
          ∃ p : Nat, (p : Int) < seg.segNumLEDs
            ∧ middleLED (part.start + seg.segFirstLED + (seg.segNumLEDs - 1) / 2) p = x)
      ∧ (∀ (m : Int) (p q : Nat), middleLED m p = middleLED m q → p = q) := by
  refine ⟨fun p hp => ?_, middleLED_pairs, fun x hx0 hx1 => middleLED_onto _ _ x hx0 hx1,
    middleLED_inj⟩
  obtain ⟨hr0, hr1⟩ := middleLED_range (part.start + seg.segFirstLED) seg.segNumLEDs p hp
  refine ⟨?_, hr0, hr1⟩
  obtain ⟨g, hg⟩ := segLocals_defined t s seg part hpart (Or.inr (by omega))
  obtain ⟨hgA, -, -⟩ := segLocals_fields t s seg g hg
  have hstart := startWalk_middle_eq seg part hA
  obtain ⟨w, hw, -⟩ := walk_total t s g (by rw [hgA, hA]; decide) p
    { iLED := (startWalk seg part).1, LEDIncrement := (startWalk seg part).2,
      SpacingCount := 0, bitsary := 0, bitscounter := 0, writes := [] }
    (by show (0 : Nat) < 32; decide)
  have hw2 : walkBefore t s seg g part p = some w := hw
  obtain ⟨-, hled⟩ := walk_middle_inv t s seg g part _ (by rw [hgA, hA]) hstart p w
    (by omega) hw2
  unfold ledAt
  rw [hg, hpart]
  simp only [hw2, Option.map_some']
  rw [hled, toShort_eq (by omega) (by omega)]

/-- Witness of C31: position 3 of the segment of 10 LEDs from LED 0 that is
filled from the middle, in part 0 of the sample strip (the LED 6). -/
theorem middle_addressing_witness :
    ledAt Target.due sampleStrip middleSegment 3
      = some (middleLED ((sampleStrip.stripParts 0).start + middleSegment.segFirstLED
          + (middleSegment.segNumLEDs - 1) / 2) 3) :=
  ((middle_addressing Target.due sampleStrip middleSegment (sampleStrip.stripParts 0)
    (by decide) (by decide) (by decide) (by decide) (by decide) (by decide)).1 3
      (by decide)).1

/-! ## Rendering: interleaved segments -/

/-- The value of `SpacingCount` when the walk reaches the position `p`, for a
spacing `k` in `0 .. 32767`: `(-d) mod (k + 1)` for the distance `d` of `p`. -/
theorem walk_spacing_defined (t : Target) (s : LEDSegs) (seg : stripSegment) (g : SegLocals)
    (part : Parts) (hg : segLocals t s seg = some g)
    (hk0 : 0 ≤ seg.segSpacing) (hk1 : seg.segSpacing ≤ 32767) :
    ∀ (p : Nat) (w : Walk), p ≤ 32767 → walkBefore t s seg g part p = some w →
      w.SpacingCount = (-(walkDistance seg.segAction p)) % (seg.segSpacing + 1) := by
  obtain ⟨hA, hsp, -⟩ := segLocals_fields t s seg g hg
  intro p
  induction p with
  | zero =>
    intro w _ hw
    unfold walkBefore at hw
    simp only [List.range_zero, List.foldlM_nil] at hw
    have hw2 := Option.some.inj hw
    rw [← hw2]
    unfold walkDistance
    split_ifs <;> simp
  | succ p ih =>
    intro w2 hp hw2
    rw [walkBefore_succ] at hw2
    cases hw : walkBefore t s seg g part p with
    | none => simp [hw] at hw2
    | some w =>
      rw [hw, Option.some_bind] at hw2
      have hcount := ih w (by omega) hw
      obtain ⟨wq, hres, -, hq2, hq3⟩ := walkStep_result t s g w w2 p hw2
      obtain ⟨a1, -, -, -, -⟩ := advanceWalk_fields g (decide (w.SpacingCount = 0)) wq
      rw [hq2, hq3, hA, hsp] at a1
      simp only [decide_eq_true_eq] at a1
      have hdown := spacing_countdown (seg.segSpacing + 1) w.SpacingCount
        (walkDistance seg.segAction p) (by omega) (by omega) hcount
      rw [hres, a1]
      by_cases hm : seg.segAction = cSegActionFromMiddle
      · obtain ⟨hinc, -⟩ := walk_middle_inv t s seg g part _ (by rw [hA, hm])
          (startWalk_middle_eq seg part hm) p w (by omega) hw
        by_cases hev : p % 2 = 0
        · rw [if_pos hev] at hinc
          rw [if_neg (by rw [hinc]; omega), hdown]
          have e : walkDistance seg.segAction p + 1 = walkDistance seg.segAction (p + 1) := by
            unfold walkDistance
            rw [if_pos hm, if_pos hm]
            push_cast
            omega
          rw [e]
        · rw [if_neg hev] at hinc
          rw [if_pos ⟨hm, by rw [hinc]; omega⟩, hcount]
          have e : walkDistance seg.segAction p = walkDistance seg.segAction (p + 1) := by
            unfold walkDistance
            rw [if_pos hm, if_pos hm]
            push_cast
            omega
          rw [e]
      · rw [if_neg (fun hc => hm hc.1), hdown]
        have e : walkDistance seg.segAction p + 1 = walkDistance seg.segAction (p + 1) := by
          unfold walkDistance
          rw [if_neg hm, if_neg hm]
          push_cast
          rfl
        rw [e]

/-- Every call of `setPixelColor` of a walk is made at a position that passes
the spacing test, for the LED that the walk addresses there. -/
theorem walk_writes_where (t : Target) (s : LEDSegs) (seg : stripSegment) (g : SegLocals)
    (part : Parts) :
    ∀ (n : Nat) (w : Walk), walkBefore t s seg g part n = some w →
      ∀ x ∈ w.writes, ∃ (q : Nat) (wq : Walk), q < n ∧ walkBefore t s seg g part q = some wq
        ∧ wq.SpacingCount = 0 ∧ wq.iLED = x.1 := by
  intro n
  induction n with
  | zero =>
    intro w hw
    unfold walkBefore at hw
    simp only [List.range_zero, List.foldlM_nil] at hw
    have hw2 := Option.some.inj hw
    rw [← hw2]
    intro x hx
    simp at hx
  | succ n ih =>
    intro w2 hw2
    rw [walkBefore_succ] at hw2
    cases hw : walkBefore t s seg g part n with
    | none => simp [hw] at hw2
    | some w =>
      rw [hw, Option.some_bind] at hw2
      obtain ⟨hskip, hwrite⟩ := walkStep_writes t s g w w2 n hw2
      have hold : ∀ x ∈ w.writes, ∃ (q : Nat) (wq : Walk), q < n + 1
          ∧ walkBefore t s seg g part q = some wq ∧ wq.SpacingCount = 0 ∧ wq.iLED = x.1 := by
        intro x hx
        obtain ⟨q, wq, h1, h2, h3, h4⟩ := ih w hw x hx
        exact ⟨q, wq, by omega, h2, h3, h4⟩
      by_cases hin : w.iLED ≥ g.partStart ∧ w.iLED ≤ g.partEnd ∧ w.SpacingCount = 0
      · obtain ⟨c, -, hwr⟩ := hwrite hin
        rw [hwr]
        by_cases hc : c ≠ g.backColor ∨ g.optOffOverwrite = true
        · rw [if_pos hc]
          intro x hx
          rcases List.mem_append.mp hx with h1 | h1
          · exact hold x h1
          · have hx2 : x = (w.iLED, c) := by simpa using h1
            rw [hx2]
            exact ⟨n, w, by omega, hw, hin.2.2, rfl⟩
        · rw [if_neg hc]
          exact hold
      · rw [hskip hin]
        exact hold


/-- The start of the walk in a configuration in which no LED index leaves the
range of a `short`: the values of `iLED` and `LEDIncrement` without the
conversions. -/
theorem startWalk_small (seg : stripSegment) (part : Parts)
    (hS : -8000 ≤ part.start ∧ part.start ≤ 8000) (hL : -8000 ≤ part.len ∧ part.len ≤ 8000)
    (hf : -8000 ≤ seg.segFirstLED ∧ seg.segFirstLED ≤ 8000)
    (hn : 0 ≤ seg.segNumLEDs ∧ seg.segNumLEDs ≤ 8000) :
    startWalk seg part
      = (if seg.segAction = cSegActionFromBottom ∨ seg.segAction = cSegActionRandom
            ∨ seg.segAction = cSegActionBits then
          (if part.partup = false then (part.start + part.len - seg.segFirstLED - 1, -1)
            else (seg.segFirstLED + part.start, 1))
        else if seg.segAction = cSegActionFromTop then
          (if part.partup = true then (seg.segFirstLED + part.start + seg.segNumLEDs - 1, -1)
            else (part.start + part.len - seg.segFirstLED - seg.segNumLEDs, 1))
        else if seg.segAction = cSegActionFromMiddle then
          (seg.segFirstLED + part.start + (seg.segNumLEDs - 1) / 2, 0)
        else (seg.segFirstLED + part.start, 1)) := by
  have e1 : toShort (seg.segFirstLED + part.start) = seg.segFirstLED + part.start :=
    toShort_eq (by omega) (by omega)
  have e2 : toShort (part.start + part.len - (seg.segFirstLED + seg.segNumLEDs))
      = part.start + part.len - (seg.segFirstLED + seg.segNumLEDs) :=
    toShort_eq (by omega) (by omega)
  have e3 : toShort (seg.segFirstLED + part.start + seg.segNumLEDs - 1)
      = seg.segFirstLED + part.start + seg.segNumLEDs - 1 := toShort_eq (by omega) (by omega)
  have e4 : toShort (part.start + part.len - (seg.segFirstLED + seg.segNumLEDs)
        + seg.segNumLEDs - 1)
      = part.start + part.len - seg.segFirstLED - 1 := by
    rw [toShort_eq (by omega) (by omega)]
    omega
  have e5 : toShort (seg.segFirstLED + part.start + (seg.segNumLEDs - 1) / 2)
      = seg.segFirstLED + part.start + (seg.segNumLEDs - 1) / 2 :=
    toShort_eq (by omega) (by omega)
  have e6 : part.start + part.len - (seg.segFirstLED + seg.segNumLEDs)
      = part.start + part.len - seg.segFirstLED - seg.segNumLEDs := by ring
  unfold startWalk startLED
  by_cases hup : part.partup = true
  · have hup2 : ¬ part.partup = false := by rw [hup]; decide
    have hc : ¬ ((seg.segAction = cSegActionFromBottom ∨ seg.segAction = cSegActionRandom
        ∨ seg.segAction = cSegActionBits ∨ seg.segAction = cSegActionFromTop)
        ∧ part.partup = false) := fun h => hup2 h.2
    simp only [if_neg hc, if_neg hup2, if_pos hup, e1, e3, e5]
  · have hup2 : part.partup = false := by
      cases h : part.partup
      · rfl
      · exact absurd h hup
    simp only [hup2, and_true, if_true]
    by_cases h1 : seg.segAction = cSegActionFromBottom ∨ seg.segAction = cSegActionRandom
        ∨ seg.segAction = cSegActionBits
    · have h1b : seg.segAction = cSegActionFromBottom ∨ seg.segAction = cSegActionRandom
          ∨ seg.segAction = cSegActionBits ∨ seg.segAction = cSegActionFromTop := by
        rcases h1 with h | h | h
        · exact Or.inl h
        · exact Or.inr (Or.inl h)
        · exact Or.inr (Or.inr (Or.inl h))
      simp only [if_pos h1, if_pos h1b, e2, e4]
    · by_cases h2 : seg.segAction = cSegActionFromTop
      · have h1b : seg.segAction = cSegActionFromBottom ∨ seg.segAction = cSegActionRandom
            ∨ seg.segAction = cSegActionBits ∨ seg.segAction = cSegActionFromTop :=
          Or.inr (Or.inr (Or.inr h2))
        simp only [if_neg h1, if_pos h1b, if_pos h2, e2]
        rw [e6]
        simp
      · have h1b : ¬ (seg.segAction = cSegActionFromBottom ∨ seg.segAction = cSegActionRandom
            ∨ seg.segAction = cSegActionBits ∨ seg.segAction = cSegActionFromTop) := by
          intro h
          rcases h with h | h | h | h
          · exact h1 (Or.inl h)
          · exact h1 (Or.inr (Or.inl h))
          · exact h1 (Or.inr (Or.inr h))
          · exact h2 h
        simp only [if_neg h1, if_neg h1b, if_neg h2, e1, e5]


/-- The shape of the start of a walk when no LED index leaves the range of a
`short`: the increment is 0 for a segment filled from the middle and 1 or -1 for
any other segment, and the LEDs that the increment leads to within the count
are values of a `short`. -/
theorem startWalk_shape (seg : stripSegment) (part : Parts)
    (hS : -8000 ≤ part.start ∧ part.start ≤ 8000) (hL : -8000 ≤ part.len ∧ part.len ≤ 8000)
    (hf : -8000 ≤ seg.segFirstLED ∧ seg.segFirstLED ≤ 8000)
    (hn : 0 ≤ seg.segNumLEDs ∧ seg.segNumLEDs ≤ 8000) :
    (seg.segAction = cSegActionFromMiddle → (startWalk seg part).2 = 0)
      ∧ (seg.segAction ≠ cSegActionFromMiddle →
          (startWalk seg part).2 = 1 ∨ (startWalk seg part).2 = -1)
      ∧ (-32768 ≤ (startWalk seg part).1 ∧ (startWalk seg part).1 ≤ 32767)
      ∧ ((startWalk seg part).2 = 1 → (startWalk seg part).1 + seg.segNumLEDs ≤ 32767)
      ∧ ((startWalk seg part).2 = -1 → -32768 ≤ (startWalk seg part).1 - seg.segNumLEDs)
      ∧ ((startWalk seg part).2 = 0 →
          -32768 ≤ (startWalk seg part).1 - seg.segNumLEDs
            ∧ (startWalk seg part).1 + seg.segNumLEDs ≤ 32767) := by
  rw [startWalk_small seg part hS hL hf hn]
  refine ⟨fun hm => ?_, fun hm => ?_, ?_, ?_, ?_, ?_⟩
  · rw [if_neg (by rw [hm]; decide), if_neg (by rw [hm]; decide), if_pos hm]
  · split_ifs
    · exact Or.inr rfl
    · exact Or.inl rfl
    · exact Or.inr rfl
    · exact Or.inl rfl
    · exact Or.inl rfl
  · split_ifs <;> constructor <;> simp only [] <;> omega
  · split_ifs <;> intro h <;> dsimp only at h ⊢ <;> omega
  · split_ifs <;> intro h <;> dsimp only at h ⊢ <;> omega
  · split_ifs <;> intro h <;> dsimp only at h ⊢ <;> omega

/-- Two segments of the same part with the same action and the same count whose
first LEDs are `f` and `f + 1` start their walks at neighbouring LEDs. -/
theorem startWalk_shift (seg1 seg2 : stripSegment) (part : Parts)
    (hA : seg2.segAction = seg1.segAction) (hn2 : seg2.segNumLEDs = seg1.segNumLEDs)
    (hf2 : seg2.segFirstLED = seg1.segFirstLED + 1)
    (hS : -8000 ≤ part.start ∧ part.start ≤ 8000) (hL : -8000 ≤ part.len ∧ part.len ≤ 8000)
    (hf : -8000 ≤ seg1.segFirstLED ∧ seg1.segFirstLED ≤ 7999)
    (hn : 0 ≤ seg1.segNumLEDs ∧ seg1.segNumLEDs ≤ 8000) :
    (startWalk seg2 part).1 = (startWalk seg1 part).1 + 1
      ∨ (startWalk seg2 part).1 = (startWalk seg1 part).1 - 1 := by
  rw [startWalk_small seg1 part hS hL ⟨hf.1, by omega⟩ hn,
    startWalk_small seg2 part hS hL (by rw [hf2]; omega) (by rw [hn2]; exact hn), hA, hn2, hf2]
  split_ifs <;> simp only [] <;> omega


/-- The LEDs of the positions that pass the spacing test: their distance from
the first LED of the walk is a multiple of `segSpacing + 1`. -/
theorem walk_retained_class (t : Target) (s : LEDSegs) (seg : stripSegment) (g : SegLocals)
    (part : Parts) (hg : segLocals t s seg = some g)
    (hk0 : 0 ≤ seg.segSpacing) (hk1 : seg.segSpacing ≤ 32767)
    (hS : -8000 ≤ part.start ∧ part.start ≤ 8000) (hL : -8000 ≤ part.len ∧ part.len ≤ 8000)
    (hf : -8000 ≤ seg.segFirstLED ∧ seg.segFirstLED ≤ 8000)
    (hn : 0 ≤ seg.segNumLEDs ∧ seg.segNumLEDs ≤ 8000)
    (p : Nat) (w : Walk) (hp : (p : Int) < seg.segNumLEDs)
    (hw : walkBefore t s seg g part p = some w) (hz : w.SpacingCount = 0) :
    (seg.segSpacing + 1) ∣ (w.iLED - (startWalk seg part).1) := by
  obtain ⟨hgA, -, -⟩ := segLocals_fields t s seg g hg
  obtain ⟨hd0, hd1, ⟨ha0, ha1⟩, hup, hdown, hmid⟩ := startWalk_shape seg part hS hL hf hn
  have hcount := walk_spacing_defined t s seg g part hg hk0 hk1 p w (by omega) hw
  rw [hz] at hcount
  have hdvd : (seg.segSpacing + 1) ∣ walkDistance seg.segAction p :=
    (Int.dvd_neg).mp (Int.dvd_of_emod_eq_zero hcount.symm)
  have hpair : startWalk seg part = (toShort (startWalk seg part).1, (startWalk seg part).2) := by
    rw [toShort_eq ha0 ha1]
  by_cases hm : seg.segAction = cSegActionFromMiddle
  · have hd := hd0 hm
    obtain ⟨hb0, hb1⟩ := hmid hd
    rw [hd] at hpair
    obtain ⟨-, hled⟩ := walk_middle_inv t s seg g part _ (by rw [hgA, hm]) hpair p w
      (by omega) hw
    have hr : -32768 ≤ middleLED (startWalk seg part).1 p
        ∧ middleLED (startWalk seg part).1 p ≤ 32767 := by
      unfold middleLED
      split_ifs <;> constructor <;> omega
    rw [toShort_eq hr.1 hr.2] at hled
    unfold walkDistance at hdvd
    rw [if_pos hm] at hdvd
    rw [hled]
    unfold middleLED
    by_cases hev : p % 2 = 0
    · rw [if_pos hev]
      have e : (startWalk seg part).1 - ((p / 2 : Nat) : Int) - (startWalk seg part).1
          = -(((p : Int) + 1) / 2) := by omega
      rw [e]
      exact (Int.dvd_neg).mpr hdvd
    · rw [if_neg hev]
      have e : (startWalk seg part).1 + (((p + 1) / 2 : Nat) : Int) - (startWalk seg part).1
          = ((p : Int) + 1) / 2 := by omega
      rw [e]
      exact hdvd
  · unfold walkDistance at hdvd
    rw [if_neg hm] at hdvd
    have hlin := fun d hstart => walk_iLED_linear t s seg g part (startWalk seg part).1 d
      (by rw [hgA]; exact hm) hstart p w hw
    rcases hd1 hm with hd | hd
    · rw [hd] at hpair
      obtain ⟨-, hled⟩ := hlin 1 hpair
      have := hup hd
      rw [hled, toShort_eq (by omega) (by omega)]
      have e : (startWalk seg part).1 + (p : Int) * 1 - (startWalk seg part).1 = (p : Int) := by
        ring
      rw [e]
      exact hdvd
    · rw [hd] at hpair
      obtain ⟨-, hled⟩ := hlin (-1) hpair
      have := hdown hd
      rw [hled, toShort_eq (by omega) (by omega)]
      have e : (startWalk seg part).1 + (p : Int) * -1 - (startWalk seg part).1 = -(p : Int) := by
        ring
      rw [e]
      exact (Int.dvd_neg).mpr hdvd


/-- C35: for every action (that of a segment filled from the middle included),
every spacing `k` in `1 .. 32767`, and two segments of the same part with that
action, the same count `n` and the same spacing whose first LEDs are `f` and
`f + 1` (all of the part start, the part length and `f` within ±8000 and `n` up
to 8000, so that no LED index leaves the range of a `short`): no LED gets a call
of `setPixelColor` from both segments; more generally a position of the first
segment and a position of the second segment that both pass the spacing test
never address the same LED; and when the action is not `cSegActionBits` and
`n ≥ 1` the calls of both segments are defined. -/
theorem interleaved_segments_disjoint (t : Target) (s : LEDSegs) (seg1 seg2 : stripSegment)
    (part : Parts) (hpart : readPart s seg1.segPart = some part)
    (hP : seg2.segPart = seg1.segPart) (hA : seg2.segAction = seg1.segAction)
    (hn2 : seg2.segNumLEDs = seg1.segNumLEDs) (hk2 : seg2.segSpacing = seg1.segSpacing)
    (hf2 : seg2.segFirstLED = seg1.segFirstLED + 1)
    (hk : 1 ≤ seg1.segSpacing ∧ seg1.segSpacing ≤ 32767)
    (hS : -8000 ≤ part.start ∧ part.start ≤ 8000) (hL : -8000 ≤ part.len ∧ part.len ≤ 8000)
    (hf : -8000 ≤ seg1.segFirstLED ∧ seg1.segFirstLED ≤ 7999)
    (hn : 0 ≤ seg1.segNumLEDs ∧ seg1.segNumLEDs ≤ 8000) :
    (∀ ws1 ws2, showSegment t s seg1 = some ws1 → showSegment t s seg2 = some ws2 →
        ∀ x1 ∈ ws1, ∀ x2 ∈ ws2, x1.1 ≠ x2.1)
      ∧ (∀ (g1 g2 : SegLocals) (p1 p2 : Nat) (w1 w2 : Walk),
          segLocals t s seg1 = some g1 → segLocals t s seg2 = some g2 →
          (p1 : Int) < seg1.segNumLEDs → (p2 : Int) < seg1.segNumLEDs →
          walkBefore t s seg1 g1 part p1 = some w1 → walkBefore t s seg2 g2 part p2 = some w2 →
          w1.SpacingCount = 0 → w2.SpacingCount = 0 → w1.iLED ≠ w2.iLED)
      ∧ (seg1.segAction ≠ cSegActionBits → 1 ≤ seg1.segNumLEDs →
          (showSegment t s seg1).isSome = true ∧ (showSegment t s seg2).isSome = true) := by
  have hpart2 : readPart s seg2.segPart = some part := by rw [hP]; exact hpart
  have hretained : ∀ (g1 g2 : SegLocals) (p1 p2 : Nat) (w1 w2 : Walk),
      segLocals t s seg1 = some g1 → segLocals t s seg2 = some g2 →
      (p1 : Int) < seg1.segNumLEDs → (p2 : Int) < seg1.segNumLEDs →
      walkBefore t s seg1 g1 part p1 = some w1 → walkBefore t s seg2 g2 part p2 = some w2 →
      w1.SpacingCount = 0 → w2.SpacingCount = 0 → w1.iLED ≠ w2.iLED := by
    intro g1 g2 p1 p2 w1 w2 hg1 hg2 hp1 hp2 hw1 hw2 hz1 hz2 heq
    have c1 := walk_retained_class t s seg1 g1 part hg1 (by omega) hk.2 hS hL
      ⟨hf.1, by omega⟩ hn p1 w1 hp1 hw1 hz1
    have c2 := walk_retained_class t s seg2 g2 part hg2 (by rw [hk2]; omega)
      (by rw [hk2]; exact hk.2) hS hL (by rw [hf2]; omega) (by rw [hn2]; exact hn) p2 w2
      (by rw [hn2]; exact hp2) hw2 hz2
    rw [hk2, ← heq] at c2
    have hsub := Int.dvd_sub c1 c2
    have hone : (seg1.segSpacing + 1) ∣ 1 := by
      rcases startWalk_shift seg1 seg2 part hA hn2 hf2 hS hL hf hn with h | h
      · rw [h] at hsub
        have e : w1.iLED - (startWalk seg1 part).1 - (w1.iLED - ((startWalk seg1 part).1 + 1))
            = 1 := by ring
        rw [e] at hsub
        exact hsub
      · rw [h] at hsub
        have e : w1.iLED - (startWalk seg1 part).1 - (w1.iLED - ((startWalk seg1 part).1 - 1))
            = -1 := by ring
        rw [e] at hsub
        exact (Int.dvd_neg).mp hsub
    have := Int.le_of_dvd (by norm_num) hone
    omega
  refine ⟨fun ws1 ws2 h1 h2 x1 hx1 x2 hx2 heq => ?_, hretained, fun hnb hn1 => ?_⟩
  · cases hg1 : segLocals t s seg1 with
    | none =>
      unfold showSegment at h1
      simp [hg1] at h1
    | some g1 =>
      cases hg2 : segLocals t s seg2 with
      | none =>
        unfold showSegment at h2
        simp [hg2] at h2
      | some g2 =>
        rw [showSegment_walk t s seg1 g1 part hg1 hpart, Option.map_eq_some'] at h1
        rw [showSegment_walk t s seg2 g2 part hg2 hpart2, Option.map_eq_some'] at h2
        obtain ⟨wa, hwa, rfl⟩ := h1
        obtain ⟨wb, hwb, rfl⟩ := h2
        obtain ⟨q1, wq1, hq1, hwq1, hz1, hi1⟩ :=
          walk_writes_where t s seg1 g1 part _ wa hwa x1 hx1
        obtain ⟨q2, wq2, hq2, hwq2, hz2, hi2⟩ :=
          walk_writes_where t s seg2 g2 part _ wb hwb x2 hx2
        rw [hn2] at hq2
        exact hretained g1 g2 q1 q2 wq1 wq2 hg1 hg2 (by omega) (by omega) hwq1 hwq2 hz1 hz2
          (by rw [hi1, hi2]; exact heq)
  · obtain ⟨g1, hg1⟩ := segLocals_defined t s seg1 part hpart (Or.inr (by omega))
    obtain ⟨g2, hg2⟩ := segLocals_defined t s seg2 part hpart2 (Or.inr (by rw [hn2]; omega))
    obtain ⟨hA1, -, -⟩ := segLocals_fields t s seg1 g1 hg1
    obtain ⟨hA2, -, -⟩ := segLocals_fields t s seg2 g2 hg2
    obtain ⟨wa, hwa, -⟩ := walk_total t s g1 (by rw [hA1]; exact hnb) seg1.segNumLEDs.toNat
      { iLED := (startWalk seg1 part).1, LEDIncrement := (startWalk seg1 part).2,
        SpacingCount := 0, bitsary := 0, bitscounter := 0, writes := [] }
      (by show (0 : Nat) < 32; decide)
    obtain ⟨wb, hwb, -⟩ := walk_total t s g2 (by rw [hA2, hA]; exact hnb) seg2.segNumLEDs.toNat
      { iLED := (startWalk seg2 part).1, LEDIncrement := (startWalk seg2 part).2,
        SpacingCount := 0, bitsary := 0, bitscounter := 0, writes := [] }
      (by show (0 : Nat) < 32; decide)
    have hwa2 : walkBefore t s seg1 g1 part seg1.segNumLEDs.toNat = some wa := hwa
    have hwb2 : walkBefore t s seg2 g2 part seg2.segNumLEDs.toNat = some wb := hwb
    rw [showSegment_walk t s seg1 g1 part hg1 hpart, showSegment_walk t s seg2 g2 part hg2 hpart2,
      hwa2, hwb2]
    exact ⟨rfl, rfl⟩

/-- Witness of C35: two segments of 10 LEDs filled from the middle with the
spacing 1, from the LEDs 0 and 1 of part 0 of the sample strip: their calls are
defined and no LED gets a call from both. -/
theorem interleaved_segments_disjoint_witness :
    (∀ ws1 ws2, showSegment Target.due sampleStrip middleSegment = some ws1 →
        showSegment Target.due sampleStrip { middleSegment with segFirstLED := 1 } = some ws2 →
        ∀ x1 ∈ ws1, ∀ x2 ∈ ws2, x1.1 ≠ x2.1)
      ∧ (showSegment Target.due sampleStrip middleSegment).isSome = true
      ∧ (showSegment Target.due sampleStrip { middleSegment with segFirstLED := 1 }).isSome
          = true :=
  ⟨(interleaved_segments_disjoint Target.due sampleStrip middleSegment
      { middleSegment with segFirstLED := 1 } (sampleStrip.stripParts 0) (by decide) rfl rfl
      rfl rfl rfl (by decide) (by decide) (by decide) (by decide) (by decide)).1,
    (interleaved_segments_disjoint Target.due sampleStrip middleSegment
      { middleSegment with segFirstLED := 1 } (sampleStrip.stripParts 0) (by decide) rfl rfl
      rfl rfl rfl (by decide) (by decide) (by decide) (by decide) (by decide)).2.2
      (by decide) (by decide)⟩

/-! ## Rendering: random segments -/

theorem segLocals_random (t : Target) (s : LEDSegs) (seg : stripSegment) (g : SegLocals)
    (hg : segLocals t s seg = some g) :
    g.segRandomPattern = seg.segRandomPattern ∧ g.segLevel = seg.segLevel := by
  unfold segLocals at hg
  cases hpart : readPart s seg.segPart with
  | none => simp [hpart] at hg
  | some part =>
    simp only [hpart, Option.map_eq_some'] at hg
    obtain ⟨fc, -, rfl⟩ := hg
    exact ⟨rfl, rfl⟩

/-- The comparison of a table entry with a level that is not negative is the
comparison of the numbers, on both boards. -/
theorem randomLit_eq (t : Target) (rnd : Nat) (level : Int) (hl0 : 0 ≤ level)
    (hl1 : level ≤ 32767) : randomLit t rnd level = decide ((rnd : Int) ≤ level) := by
  unfold randomLit
  split_ifs
  · rw [Int.emod_eq_of_lt hl0 (by omega)]
  · rfl

/-- C32: for a random segment with a level in `0 .. 32767`, on either board and
in every part (the rule does not mention the part or its direction): the color
of a logical position `p` is the foreground color if and only if
`randomTable[(p + random_pattern) mod 64] ≤ level` (the level itself, not the lit
count), and the background color otherwise; at a position inside the window of
the part that passes the spacing test that color is written (unless it is the
background color under `cSegOptNoOffOverwrite`); the walk reaches every position;
a position that is foreground at a level is foreground at every higher level;
and a position whose table entry is 0 is foreground at the level 0. -/
theorem random_position_rule (t : Target) (s : LEDSegs) (seg : stripSegment) (g : SegLocals)
    (hg : segLocals t s seg = some g) (hA : seg.segAction = cSegActionRandom)
    (hl0 : 0 ≤ seg.segLevel) (hl1 : seg.segLevel ≤ 32767) :
    (∀ (w : Walk) (p : Nat),
        positionColor t s g w p
          = some (if randomFore s.segRandomLevels seg.segRandomPattern seg.segLevel p
              then g.foreColor else g.backColor))
      ∧ (∀ (w w2 : Walk) (p : Nat), walkStep t s g w p = some w2 →
          w.iLED ≥ g.partStart ∧ w.iLED ≤ g.partEnd ∧ w.SpacingCount = 0 →
          (randomFore s.segRandomLevels seg.segRandomPattern seg.segLevel p →
              w2.writes = if g.foreColor ≠ g.backColor ∨ g.optOffOverwrite = true
                then w.writes ++ [(w.iLED, g.foreColor)] else w.writes)
            ∧ (¬ randomFore s.segRandomLevels seg.segRandomPattern seg.segLevel p →
                w2.writes = if g.optOffOverwrite = true
                  then w.writes ++ [(w.iLED, g.backColor)] else w.writes))
      ∧ (∀ (part : Parts) (p : Nat), ∃ w, walkBefore t s seg g part p = some w)
      ∧ (∀ (level2 : Int) (p : Nat), seg.segLevel ≤ level2 →
          randomFore s.segRandomLevels seg.segRandomPattern seg.segLevel p →
          randomFore s.segRandomLevels seg.segRandomPattern level2 p)
      ∧ (∀ p : Nat,
          s.segRandomLevels ((((p : Int) + seg.segRandomPattern) % 64).toNat) = 0 →
          randomFore s.segRandomLevels seg.segRandomPattern 0 p) := by
  obtain ⟨hgA, -, -⟩ := segLocals_fields t s seg g hg
  obtain ⟨hgP, hgL⟩ := segLocals_random t s seg g hg
  have hcolor : ∀ (w : Walk) (p : Nat),
      positionColor t s g w p
        = some (if randomFore s.segRandomLevels seg.segRandomPattern seg.segLevel p
            then g.foreColor else g.backColor) := by
    intro w p
    unfold positionColor
    have hR : g.Action = cSegActionRandom := by rw [hgA, hA]
    rw [if_neg (by rw [hR]; decide), if_neg (by rw [hR]; decide), if_pos hR, hgP, hgL,
      randomLit_eq t _ _ hl0 hl1]
    unfold randomFore
    have e : cSegNRandomMask + 1 = (64 : Int) := rfl
    rw [e]
    by_cases hle : ((s.segRandomLevels ((((p : Int) + seg.segRandomPattern) % 64).toNat) : Nat)
        : Int) ≤ seg.segLevel
    · simp only [hle, decide_True, if_true]
    · simp only [hle, decide_False, if_false, Bool.false_eq_true]
  refine ⟨hcolor, fun w w2 p hstep hin => ?_, fun part p => ?_, fun level2 p hle hfore => ?_,
    fun p hzero => ?_⟩
  · obtain ⟨c, hc, hwr⟩ := (walkStep_writes t s g w w2 p hstep).2 hin
    rw [hcolor w p] at hc
    have hc2 := Option.some.inj hc
    constructor
    · intro hf
      rw [if_pos hf] at hc2
      rw [hwr, ← hc2]
    · intro hf
      rw [if_neg hf] at hc2
      rw [hwr, ← hc2]
      simp
  · obtain ⟨w, hw, -⟩ := walk_total t s g (by rw [hgA, hA]; decide) p
      { iLED := (startWalk seg part).1, LEDIncrement := (startWalk seg part).2,
        SpacingCount := 0, bitsary := 0, bitscounter := 0, writes := [] }
      (by show (0 : Nat) < 32; decide)
    exact ⟨w, hw⟩
  · unfold randomFore at *
    omega
  · unfold randomFore
    rw [hzero]
    decide

/-- Witness of C32: the random segment of 10 LEDs at the level 300 in the sample
strip. -/
theorem random_position_rule_witness :
    ∃ g, segLocals Target.due sampleStrip randomSegment = some g
      ∧ ∀ (w : Walk) (p : Nat),
        positionColor Target.due sampleStrip g w p
          = some (if randomFore sampleStrip.segRandomLevels randomSegment.segRandomPattern
                randomSegment.segLevel p
              then g.foreColor else g.backColor) := by
  obtain ⟨g, hg⟩ := Option.isSome_iff_exists.mp
    (by decide : (segLocals Target.due sampleStrip randomSegment).isSome = true)
  exact ⟨g, hg, (random_position_rule Target.due sampleStrip randomSegment g hg (by decide)
    (by decide) (by decide)).1⟩

/-! ## Rendering: bit segments -/

theorem retainedBefore_succ (t : Target) (s : LEDSegs) (seg : stripSegment) (g : SegLocals)
    (part : Parts) (p : Nat) :
    retainedBefore t s seg g part (p + 1)
      = retainedBefore t s seg g part p + (if retainedAt t s seg g part p = true then 1 else 0) := by
  unfold retainedBefore
  rw [List.range_succ, List.filter_append, List.length_append]
  by_cases h : retainedAt t s seg g part p = true
  · simp [h]
  · simp [h]

/-- The bit cursor over one step of the walk of a bit segment: it moves by one
bit at a position inside the window of the part that passes the spacing test,
and stays where it is at any other position. -/
theorem walkStep_bits (t : Target) (s : LEDSegs) (g : SegLocals) (w w2 : Walk) (p : Nat)
    (hA : g.Action = cSegActionBits) (hbc : w.bitscounter < 32)
    (h : walkStep t s g w p = some w2) :
    w2.bitscounter < 32
      ∧ 32 * w2.bitsary + w2.bitscounter
        = 32 * w.bitsary + w.bitscounter
          + (if w.iLED ≥ g.partStart ∧ w.iLED ≤ g.partEnd ∧ w.SpacingCount = 0 then 1 else 0)
      ∧ (¬ (w.iLED ≥ g.partStart ∧ w.iLED ≤ g.partEnd ∧ w.SpacingCount = 0) →
          w2.bitsary = w.bitsary ∧ w2.bitscounter = w.bitscounter) := by
  unfold walkStep at h
  simp only [] at h
  by_cases hin : w.iLED ≥ g.partStart ∧ w.iLED ≤ g.partEnd ∧ decide (w.SpacingCount = 0) = true
  · have hin2 : w.iLED ≥ g.partStart ∧ w.iLED ≤ g.partEnd ∧ w.SpacingCount = 0 :=
      ⟨hin.1, hin.2.1, by simpa using hin.2.2⟩
    rw [if_pos hin] at h
    cases hc : positionColor t s g w p with
    | none => simp [hc] at h
    | some c =>
      rw [hc] at h
      simp only [Option.some.injEq] at h
      have hab : (advanceBits g w).bitscounter < 32
          ∧ 32 * (advanceBits g w).bitsary + (advanceBits g w).bitscounter
            = 32 * w.bitsary + w.bitscounter + 1 := by
        unfold advanceBits
        rw [if_pos hA]
        by_cases hfull : w.bitscounter + 1 ≥ 32
        · rw [if_pos hfull]
          constructor
          · show (0 : Nat) < 32
            decide
          · show 32 * (w.bitsary + 1) + 0 = 32 * w.bitsary + w.bitscounter + 1
            omega
        · rw [if_neg hfull]
          constructor
          · show w.bitscounter + 1 < 32
            omega
          · show 32 * w.bitsary + (w.bitscounter + 1) = 32 * w.bitsary + w.bitscounter + 1
            omega
      rw [← h, (advanceWalk_fields g _ _).2.2.1, (advanceWalk_fields g _ _).2.2.2.1, if_pos hin2]
      refine ⟨?_, ?_, fun hnot => absurd hin2 hnot⟩
      · split_ifs
        · exact hab.1
        · exact hab.1
      · split_ifs
        · exact hab.2
        · exact hab.2
  · have hin2 : ¬ (w.iLED ≥ g.partStart ∧ w.iLED ≤ g.partEnd ∧ w.SpacingCount = 0) :=
      fun hc => hin ⟨hc.1, hc.2.1, by simpa using hc.2.2⟩
    rw [if_neg hin] at h
    simp only [Option.some.injEq] at h
    rw [← h, (advanceWalk_fields g _ _).2.2.1, (advanceWalk_fields g _ _).2.2.2.1, if_neg hin2]
    exact ⟨hbc, rfl, fun _ => ⟨rfl, rfl⟩⟩

/-- The bit cursor of a bit segment counts the retained positions: when the walk
reaches the position `p`, the cursor is at the bit `j mod 32` of the word
`j div 32`, where `j` is the number of retained positions before `p`. -/
theorem bits_cursor (t : Target) (s : LEDSegs) (seg : stripSegment) (g : SegLocals)
    (part : Parts) (hA : g.Action = cSegActionBits) :
    ∀ (p : Nat) (w : Walk), walkBefore t s seg g part p = some w →
      w.bitscounter < 32
        ∧ 32 * w.bitsary + w.bitscounter = retainedBefore t s seg g part p := by
  intro p
  induction p with
  | zero =>
    intro w hw
    unfold walkBefore at hw
    simp only [List.range_zero, List.foldlM_nil] at hw
    have hw2 := Option.some.inj hw
    rw [← hw2]
    exact ⟨by show (0 : Nat) < 32; decide, rfl⟩
  | succ p ih =>
    intro w2 hw2
    have hw2' := hw2
    rw [walkBefore_succ] at hw2
    cases hw : walkBefore t s seg g part p with
    | none => simp [hw] at hw2
    | some w =>
      rw [hw, Option.some_bind] at hw2
      obtain ⟨hbc, hcur⟩ := ih w hw
      obtain ⟨h1, h2, -⟩ := walkStep_bits t s g w w2 p hA hbc hw2
      refine ⟨h1, ?_⟩
      rw [h2, hcur, retainedBefore_succ]
      congr 1
      unfold retainedAt
      rw [hw]
      simp only [decide_eq_true_eq]


/-- C33: for a bit segment with the bit source `buf` (not `NULL`), on either
board: when the walk reaches a logical position `p`, with `j` the number of
retained positions before `p` (those inside the window of the part that pass the
spacing test), the bit cursor is at the bit `j mod 32` of the word `j div 32`;
if `p` is retained, its color is the foreground color when that bit of `buf` is 1
and the background color when it is 0 (reading past the end of `buf` is
undefined), and that color is written to the LED of `p` (unless it is the
background color under `cSegOptNoOffOverwrite`); if `p` is not retained, the step
moves the cursor by no bit and writes nothing; the walk starts at the bit 0 of
the word 0, in a forward part at the first LED of the segment; and for a spacing
in `0 .. 32767` the walk reaches every position `p` for which `buf` holds `p`
bits. -/
theorem bits_position_rule (t : Target) (s : LEDSegs) (seg : stripSegment) (g : SegLocals)
    (part : Parts) (buf : List Nat) (hg : segLocals t s seg = some g)
    (hA : seg.segAction = cSegActionBits) (hbuf : seg.segBitsPtr = some buf) :
    (∀ (p : Nat) (w : Walk), walkBefore t s seg g part p = some w →
        w.bitsary = retainedBefore t s seg g part p / 32
          ∧ w.bitscounter = retainedBefore t s seg g part p % 32)
      ∧ (∀ (p : Nat) (w : Walk), walkBefore t s seg g part p = some w →
          w.iLED ≥ g.partStart ∧ w.iLED ≤ g.partEnd ∧ w.SpacingCount = 0 →
          positionColor t s g w p
            = (buf[retainedBefore t s seg g part p / 32]?).map
                (fun word => if word.testBit (retainedBefore t s seg g part p % 32)
                  then g.foreColor else g.backColor))
      ∧ (∀ (p : Nat) (w w2 : Walk), walkBefore t s seg g part p = some w →
          walkStep t s g w p = some w2 →
          w.iLED ≥ g.partStart ∧ w.iLED ≤ g.partEnd ∧ w.SpacingCount = 0 →
          ∃ word, buf[retainedBefore t s seg g part p / 32]? = some word
            ∧ w2.writes
              = if (if word.testBit (retainedBefore t s seg g part p % 32)
                      then g.foreColor else g.backColor) ≠ g.backColor
                    ∨ g.optOffOverwrite = true
                then w.writes ++ [(w.iLED, if word.testBit (retainedBefore t s seg g part p % 32)
                      then g.foreColor else g.backColor)]
                else w.writes)
      ∧ (∀ (p : Nat) (w w2 : Walk), walkBefore t s seg g part p = some w →
          walkStep t s g w p = some w2 →
          ¬ (w.iLED ≥ g.partStart ∧ w.iLED ≤ g.partEnd ∧ w.SpacingCount = 0) →
          w2.bitsary = w.bitsary ∧ w2.bitscounter = w.bitscounter ∧ w2.writes = w.writes)
      ∧ (∃ w0, walkBefore t s seg g part 0 = some w0 ∧ w0.SpacingCount = 0
          ∧ retainedBefore t s seg g part 0 = 0
          ∧ (part.partup = true → w0.iLED = toShort (seg.segFirstLED + part.start)))
      ∧ (0 ≤ seg.segSpacing → seg.segSpacing ≤ 32767 →
          ∀ p : Nat, p ≤ 32767 → p ≤ 32 * buf.length →
            ∃ w, walkBefore t s seg g part p = some w) := by
  obtain ⟨hgA, -, hgB⟩ := segLocals_fields t s seg g hg
  have hB : g.Action = cSegActionBits := by rw [hgA, hA]
  have hbits : g.bits = buf := by rw [hgB, hbuf]; rfl
  have hcursor : ∀ (p : Nat) (w : Walk), walkBefore t s seg g part p = some w →
      w.bitsary = retainedBefore t s seg g part p / 32
        ∧ w.bitscounter = retainedBefore t s seg g part p % 32 := by
    intro p w hw
    obtain ⟨h1, h2⟩ := bits_cursor t s seg g part hB p w hw
    constructor <;> omega
  have hcolor : ∀ (p : Nat) (w : Walk), walkBefore t s seg g part p = some w →
      positionColor t s g w p
        = (buf[retainedBefore t s seg g part p / 32]?).map
            (fun word => if word.testBit (retainedBefore t s seg g part p % 32)
              then g.foreColor else g.backColor) := by
    intro p w hw
    obtain ⟨h1, h2⟩ := hcursor p w hw
    unfold positionColor
    rw [if_neg (by rw [hB]; decide), if_neg (by rw [hB]; decide), if_neg (by rw [hB]; decide),
      if_pos hB, hbits, h1, h2]
    cases buf[retainedBefore t s seg g part p / 32]? <;> rfl
  refine ⟨hcursor, fun p w hw _ => hcolor p w hw, fun p w w2 hw hstep hin => ?_,
    fun p w w2 hw hstep hnot => ?_, ?_, fun hk0 hk1 p hp hlen => ?_⟩
  · obtain ⟨c, hc, hwr⟩ := (walkStep_writes t s g w w2 p hstep).2 hin
    rw [hcolor p w hw] at hc
    cases hword : buf[retainedBefore t s seg g part p / 32]? with
    | none =>
      rw [hword] at hc
      simp at hc
    | some word =>
      rw [hword] at hc
      simp only [Option.map_some', Option.some.injEq] at hc
      refine ⟨word, rfl, ?_⟩
      rw [hwr, ← hc]
  · obtain ⟨-, -, h3⟩ := walkStep_bits t s g w w2 p hB (bits_cursor t s seg g part hB p w hw).1
      hstep
    obtain ⟨hb1, hb2⟩ := h3 hnot
    exact ⟨hb1, hb2, (walkStep_writes t s g w w2 p hstep).1 hnot⟩
  · refine ⟨_, rfl, rfl, rfl, fun hup => ?_⟩
    show (startWalk seg part).1 = toShort (seg.segFirstLED + part.start)
    simp [startWalk, startLED, hA, hup, cSegActionBits, cSegActionFromBottom, cSegActionRandom,
      cSegActionFromTop, cSegActionFromMiddle]
  · obtain ⟨w, hw, -⟩ := walk_spacing_inv t s seg g part hg hk0 hk1 p (by omega)
      (fun _ => by rw [hbuf]; exact hlen)
    exact ⟨w, hw⟩

/-- Witness of C33: the segment of 80 LEDs with the spacing 1 that displays two
words, in part 0 of the sample strip. -/
theorem bits_position_rule_witness :
    ∃ g, segLocals Target.due sampleStrip bitsSegment = some g
      ∧ ∀ (p : Nat) (w : Walk),
        walkBefore Target.due sampleStrip bitsSegment g (sampleStrip.stripParts 0) p = some w →
        w.bitsary = retainedBefore Target.due sampleStrip bitsSegment g
              (sampleStrip.stripParts 0) p / 32
          ∧ w.bitscounter = retainedBefore Target.due sampleStrip bitsSegment g
              (sampleStrip.stripParts 0) p % 32 := by
  obtain ⟨g, hg⟩ := Option.isSome_iff_exists.mp
    (by decide : (segLocals Target.due sampleStrip bitsSegment).isSome = true)
  exact ⟨g, hg, (bits_position_rule Target.due sampleStrip bitsSegment g
    (sampleStrip.stripParts 0) [0x80000005, 0x3] hg (by decide) rfl).1⟩

/-! ## The rescaling on tables of levels, on both boards -/

/-- The board computes exactly in `int` on the values of a `short`. -/
theorem toInt_short (t : Target) (ht : t = Target.due ∨ t = Target.mega) (x : Int)
    (h0 : -32768 ≤ x) (h1 : x ≤ 32767) : toInt t x = x := by
  rcases ht with rfl | rfl
  · exact toInt_due_eq (by omega) (by omega)
  · exact toShort_eq h0 h1

/-- The interpolation of the rescaling inside a bracket `lo.1 ≤ s < hi.1` whose
four entries lie in -16384..16383, on either board: the differences are values
of a `short` and the product is computed in `long`. -/
theorem rescaleInterpolate_boards (t : Target) (ht : t = Target.due ∨ t = Target.mega)
    (lo hi : Int × Int) (s : Int)
    (hl1 : -16384 ≤ lo.1) (hl2 : -16384 ≤ lo.2 ∧ lo.2 ≤ 16383)
    (hh1 : hi.1 ≤ 16383) (hh2 : -16384 ≤ hi.2 ∧ hi.2 ≤ 16383)
    (h1 : lo.1 ≤ s) (h2 : s < hi.1) :
    rescaleInterpolate t lo hi s = rescaleInterpolate Target.due lo hi s := by
  unfold rescaleInterpolate
  rw [toInt_short t ht (hi.2 - lo.2) (by omega) (by omega),
    toInt_short t ht (s - lo.1) (by omega) (by omega),
    toInt_short t ht (hi.1 - lo.1) (by omega) (by omega),
    toInt_due_eq (x := hi.2 - lo.2) (by omega) (by omega),
    toInt_due_eq (x := s - lo.1) (by omega) (by omega),
    toInt_due_eq (x := hi.1 - lo.1) (by omega) (by omega)]

/-- The bracket that the code selects, on either board. -/
theorem rescale_code_boards (t : Target) (ht : t = Target.due ∨ t = Target.mega)
    (pts : List (Int × Int)) (s : Int) (hN : pts.length ≤ 16383) :
    rescale t (rescaleArray pts) s
      = rescaleInterpolate t
          (if firstAbove s pts = 0 then (0, 0) else pts.getD (firstAbove s pts - 1) (0, 0))
          (pts.getD (firstAbove s pts) (1023, 1023)) s := by
  have hK := firstAbove_le s pts
  have hlen : pts.length + 1 ≤ (rescaleArray pts).length + 1 := by
    simp only [rescaleArray, List.length_cons, tableEntries_length]
    omega
  have hscan := rescaleScan_eq pts s hN pts.length 0 ((rescaleArray pts).length + 1)
    (by omega) hlen
  simp only [Nat.cast_zero, mul_zero, zero_add, List.drop_zero] at hscan
  have hn : toShort (toInt t (2 * (pts.length : Int) + 1)) = 2 * (pts.length : Int) + 1 := by
    rw [toInt_short t ht _ (by omega) (by omega), toShort_eq (by omega) (by omega)]
  exact rescale_of_parts t (rescaleArray pts) s (pts.length : Int) _ _ _
    (readShorts_count pts) (by rw [hn]; exact hscan) (rescaleLower_eq pts _ hK)
    (by rw [hn]; exact rescaleUpper_eq pts _ hK)

/-- The rescaling through a valid table gives the same value on both boards. -/
theorem rescale_boards (t : Target) (ht : t = Target.due ∨ t = Target.mega)
    (pts : List (Int × Int)) (s : Int) (hv : ValidRescale pts) (hs0 : 0 ≤ s) (hs1 : s ≤ 1022) :
    rescale t (rescaleArray pts) s = some (rescaleRef pts s) := by
  rw [← rescale_eq_ref pts s hv hs0 hs1, rescale_code_boards t ht pts s hv.1, rescale_code pts s hv.1]
  obtain ⟨hN, hsorted, hb⟩ := hv
  have hK := firstAbove_le s pts
  have hmem : ∀ j, j < pts.length →
      (-16384 ≤ (pts.getD j (0, 0)).1 ∧ (pts.getD j (0, 0)).1 ≤ 16383)
        ∧ (-16384 ≤ (pts.getD j (0, 0)).2 ∧ (pts.getD j (0, 0)).2 ≤ 16383) := by
    intro j hj
    rw [List.getD_eq_getElem _ _ hj]
    exact hb _ (List.getElem_mem hj)
  have hlow : (-16384 ≤ (if firstAbove s pts = 0 then ((0 : Int), (0 : Int))
        else pts.getD (firstAbove s pts - 1) (0, 0)).1)
      ∧ (-16384 ≤ (if firstAbove s pts = 0 then ((0 : Int), (0 : Int))
          else pts.getD (firstAbove s pts - 1) (0, 0)).2
        ∧ (if firstAbove s pts = 0 then ((0 : Int), (0 : Int))
          else pts.getD (firstAbove s pts - 1) (0, 0)).2 ≤ 16383)
      ∧ (if firstAbove s pts = 0 then ((0 : Int), (0 : Int))
          else pts.getD (firstAbove s pts - 1) (0, 0)).1 ≤ s := by
    by_cases hK0 : firstAbove s pts = 0
    · simp only [hK0, if_true]
      omega
    · simp only [hK0, if_false]
      have h1 := hmem (firstAbove s pts - 1) (by omega)
      have h2 := firstAbove_below s pts (firstAbove s pts - 1) (by omega)
      omega
  have hupp : (pts.getD (firstAbove s pts) (1023, 1023)).1 ≤ 16383
      ∧ (-16384 ≤ (pts.getD (firstAbove s pts) (1023, 1023)).2
        ∧ (pts.getD (firstAbove s pts) (1023, 1023)).2 ≤ 16383)
      ∧ s < (pts.getD (firstAbove s pts) (1023, 1023)).1 := by
    by_cases hKN : firstAbove s pts < pts.length
    · have h1 := hmem (firstAbove s pts) hKN
      have h2 := firstAbove_at s pts hKN
      rw [List.getD_eq_getElem _ _ hKN] at h1 h2 ⊢
      omega
    · simp only [List.getD_eq_getElem?_getD,
        List.getElem?_eq_none (show pts.length ≤ firstAbove s pts by omega), Option.getD_none]
      omega
  exact rescaleInterpolate_boards t ht _ _ s hlow.1 hlow.2.1 hupp.1 hupp.2.1 hlow.2.2 hupp.2.2

/-- C8: for every rescale table of levels (inputs and outputs in 0..1023) with
`N ≥ 0` control points whose inputs are strictly increasing, and every
normalised value `s` in [0,1022], on either board (32-bit or 16-bit `int`): the
rescaled value is defined and is
`min(1022, o1 + ((o2 - o1) * (s - i1)) / (i2 - i1))` with truncating division,
where `(i1, o1)` is the last table point with input at most `s` (or `(0, 0)` if
none) and `(i2, o2)` is the next table point (or `(1023, 1023)` if none); a
table with no control point leaves `s` unchanged, and a value equal to the input
of a control point maps to the output of that point, capped at 1022. -/
theorem rescale_on_levels (t : Target) (ht : t = Target.due ∨ t = Target.mega)
    (pts : List (Int × Int)) (s : Int)
    (hsorted : pts.Pairwise (fun p q => p.1 < q.1))
    (hlev : ∀ p ∈ pts, (0 ≤ p.1 ∧ p.1 ≤ 1023) ∧ (0 ≤ p.2 ∧ p.2 ≤ 1023))
    (hs0 : 0 ≤ s) (hs1 : s ≤ 1022) :
    rescale t (rescaleArray pts) s
        = some (min 1022 ((rescaleRefLower pts s).2
            + Int.tdiv (((rescaleRefUpper pts s).2 - (rescaleRefLower pts s).2)
                * (s - (rescaleRefLower pts s).1))
              ((rescaleRefUpper pts s).1 - (rescaleRefLower pts s).1)))
      ∧ rescale t (rescaleArray []) s = some s
      ∧ ∀ (k : Nat) (hk : k < pts.length), pts[k].1 = s →
          rescale t (rescaleArray pts) s = some (min 1022 pts[k].2) := by
  have hv := validRescale_of_levels pts hsorted hlev
  have hmain := rescale_boards t ht pts s hv hs0 hs1
  refine ⟨hmain, ?_, ?_⟩
  · rw [rescale_boards t ht [] s ⟨by simp, List.Pairwise.nil, by simp⟩ hs0 hs1]
    have h : rescaleRef [] s = min 1022 (0 + Int.tdiv ((1023 - 0) * (s - 0)) (1023 - 0)) := rfl
    rw [h, Int.tdiv_eq_ediv (by omega) (by norm_num)]
    congr 1
    omega
  · intro k hk hks
    rw [hmain]
    obtain ⟨hlo, -⟩ := rescaleRef_bracket pts s hsorted
    have hK := firstAbove_of_input pts s hsorted k hk hks
    unfold rescaleRef
    rw [hlo, hK]
    simp only [Nat.add_one_ne_zero, if_false, Nat.add_sub_cancel,
      List.getD_eq_getElem _ _ hk, hks, sub_self, mul_zero, Int.zero_tdiv, add_zero]

/-- Witness of C8: the table `{3, 100, 50, 200, 1023, 500, 3}` at the value 200,
the input of its second control point, on the board with a 16-bit `int`. -/
theorem rescale_on_levels_witness :
    rescale Target.mega (rescaleArray sampleRescale) 200
        = some (min 1022 ((rescaleRefLower sampleRescale 200).2
            + Int.tdiv (((rescaleRefUpper sampleRescale 200).2
                  - (rescaleRefLower sampleRescale 200).2)
                * (200 - (rescaleRefLower sampleRescale 200).1))
              ((rescaleRefUpper sampleRescale 200).1 - (rescaleRefLower sampleRescale 200).1)))
      ∧ rescale Target.mega (rescaleArray []) 200 = some 200
      ∧ ∀ (k : Nat) (hk : k < sampleRescale.length), sampleRescale[k].1 = 200 →
          rescale Target.mega (rescaleArray sampleRescale) 200
            = some (min 1022 sampleRescale[k].2) :=
  rescale_on_levels Target.mega (Or.inr rfl) sampleRescale 200 (by decide) (by decide)
    (by decide) (by decide)

/-! ## Failing inputs on the board with a 16-bit `int` -/

set_option maxRecDepth 100000 in
/-- C6 (failing input): on the board with a 16-bit `int`, with the default floor
1023 and decay 1 and the segment that `DefineSegment` has just defined (ceiling
1023), a frame whose band sample is 600: the raw aggregate is 600 and the
ceiling stays 1023, but the product `600 * 1023` is computed in `int` and wraps
to 23976, so the normalised value, and the level stored, is 23 and not 600.  On
the board with a 32-bit `int` the level stored is 600. -/
theorem default_gain_wraps_on_mega :
    defaultGainFrame.map (fun s => bandAggregate (s.SegmentData 0) s.SpectrumLevel)
        = some (some 600)
      ∧ updateMaxTotal 1023 1 1023 600 = 1023
      ∧ toInt Target.mega (600 * cMaxSegmentLevel) = 23976
      ∧ normalise Target.mega 600 (updateMaxTotal 1023 1 1023 600) = some 23
      ∧ (defaultGainFrame.bind (MapBandsToSegments Target.mega)).map gainView
          = some (1023, 23)
      ∧ (defaultGainFrame.bind (MapBandsToSegments Target.due)).map gainView
          = some (1023, 600) := by
  decide

/-- C7 (failing input): on the board with a 16-bit `int`, previous level 500,
new value 600 and both persistence weights 1023: the product `600 * 1023` is
computed in `int` and wraps to 23976, and the level stored is
`(1023 * 500 + 23976) div 2046 = 261`, where the formula
`(w * p + v * 1023) div (w + 1023)` gives 550 (as the board with a 32-bit `int`
does). -/
theorem smoothing_wraps_on_mega :
    persistence Target.mega 500 1023 1023 600 = some 261
      ∧ persistenceRef 500 1023 1023 600 = 550
      ∧ (1023 * 500 + 600 * 1023) / (1023 + 1023) = (550 : Int)
      ∧ persistence Target.due 500 1023 1023 600 = some 550 := by
  decide

/-- C38 (failing input): on the board with a 16-bit `int` the smoothed level
leaves the interval between the previous level and the new value.  Falling:
previous level 100, new value 50, weight 10: the level stored is -12, below the
new value.  Rising: previous level 0, new value 40, weight 5: the level stored
is -23, below the previous level.  The board with a 32-bit `int` stores 50 and
39. -/
theorem smoothing_overshoots_on_mega :
    persistence Target.mega 100 10 10 50 = some (-12)
      ∧ persistence Target.due 100 10 10 50 = some 50
      ∧ persistence Target.mega 0 5 5 40 = some (-23)
      ∧ persistence Target.due 0 5 5 40 = some 39
      ∧ toInt Target.mega (50 * cMaxSegmentLevel) = -14386
      ∧ toInt Target.mega (40 * cMaxSegmentLevel) = -24616 := by
  decide

set_option maxRecDepth 1000000 in
/-- C34 (failing input): on the board with a 16-bit `int`, a segment of 300 LEDs
in red on `RGBOff` with the modulate option, at the level 1023: the lit count
is 300, the product `(127 - 0) * 300 = 38100` is computed in `int` and wraps to
-27436, the quotient by 300 is -91 and the red channel passed to `Color` as a
`byte` is 165, outside the interval `[0, 127]` between the back and the fore
channel, where the formula gives 127; all 300 calls of `setPixelColor` of the
segment pass that color.  The board with a 32-bit `int` gives 127. -/
theorem modulate_wraps_on_mega :
    litCount Target.mega 1023 300 = 300
      ∧ toInt Target.mega ((127 - 0) * 300) = -27436
      ∧ modulateChannel Target.mega 0 127 300 300 = some 165
      ∧ modulateRef 0 127 300 300 = 127
      ∧ modulateChannel Target.due 0 127 300 300 = some 127
      ∧ (longModulatedStrip.bind (fun s => segLocals Target.mega s (s.SegmentData 0))).map
          (fun g => (g.segval, g.foreColor)) = some (300, Color 165 0 0)
      ∧ (longModulatedStrip.bind (fun s => showSegment Target.mega s (s.SegmentData 0))).map
          (fun ws => (ws.length, ws.head?, decide (∀ w ∈ ws, w.2 = Color 165 0 0)))
          = some (300, some (0, Color 165 0 0), true)
      ∧ (longModulatedStrip.bind (fun s => segLocals Target.due s (s.SegmentData 0))).map
          (fun g => (g.segval, g.foreColor)) = some (300, Color 127 0 0) := by
  decide

end LEDSegsModel
